import Mathlib

/-!
# PLY geometry loader

A shallow embedding of `src/plugins/geometryloaders/default/plygeometryloader.cpp`:
the header parser `parseHeader`, the scalar readers (`AsciiPlyDataReader`,
`BinaryPlyDataReader`), the mesh decoder `parseMesh` and the entry point `doLoad`.

Conventions of the embedding.

* An I/O device is the list of characters it still has to deliver.  In the text parts
  these are the decoded characters; in a binary body every byte `b` is the character
  with code `b`.
* The stream classes of the Qt base library (`QIODevice`, `QTextStream`, `QDataStream`)
  are not part of the repository; they are modelled after their documented behaviour
  (ASCII digits only for numbers).
* The C++ type `float` is a type parameter `F`; the conversions the program relies on
  are the fields of `FloatModel`.
* `int` is `Int` reduced to the signed 32-bit range, `unsigned int` is `Nat` reduced
  modulo `2 ^ 32`.
-/

set_option autoImplicit false

namespace Qt3DRender

/-! ## Streams of the Qt base library -/

/-- Remaining content of a `QIODevice`. -/
abbrev Device := List Char

/-- Conversions between `float` and the other representations the loader meets. -/
structure FloatModel (F : Type) where
  /-- The value `0.0f` (components of a default-constructed vector, failed reads). -/
  zero : F
  /-- The value `QTextStream` stores for a scanned, non-empty real-number lexeme. -/
  ofText : List Char → F
  /-- Conversion of an integer value to `float`. -/
  ofInt : Int → F
  /-- The `float` with a given 32-bit pattern. -/
  ofBits32 : Nat → F
  /-- The `double` with a given 64-bit pattern, narrowed to `float`. -/
  ofBits64 : Nat → F
  /-- The `float` with a given 32-bit pattern, converted to `int`. -/
  bits32ToInt : Nat → Int
  /-- The `double` with a given 64-bit pattern, converted to `int`. -/
  bits64ToInt : Nat → Int

/-- Reduction of an integer to `int` (two's complement, 32 bits). -/
def toInt32 (v : Int) : Int :=
  let m := v % 4294967296
  if m < 2147483648 then m else m - 4294967296

/-- Conversion of an `int` to `unsigned int`. -/
def toUInt32 (v : Int) : Nat := (v % 4294967296).toNat

/-- Model of `QChar::isSpace`. -/
def QChar.isSpace (c : Char) : Bool :=
  let u := c.toNat
  u == 0x20 || (0x09 ≤ u && u ≤ 0x0d) || u == 0x85 || u == 0xa0 || u == 0x1680
    || (0x2000 ≤ u && u ≤ 0x200a) || u == 0x2028 || u == 0x2029 || u == 0x202f
    || u == 0x205f || u == 0x3000

/-- Model of `QIODevice::atEnd`. -/
def QIODevice.atEnd (dev : Device) : Bool := dev.isEmpty

/-- Model of `QIODevice::readLine`: the line up to and including the first line feed,
and the rest of the device. -/
def QIODevice.readLine : Device → List Char × Device
  | [] => ([], [])
  | c :: cs =>
    if c = '\n' then ([c], cs)
    else
      match QIODevice.readLine cs with
      | (line, rest) => (c :: line, rest)

/-- The lines successive calls of `readLine` deliver until the device is at its end. -/
def QIODevice.lines : Device → List (List Char)
  | [] => []
  | c :: cs =>
    if c = '\n' then [c] :: QIODevice.lines cs
    else
      match QIODevice.lines cs with
      | [] => [[c]]
      | l :: ls => (c :: l) :: ls

namespace QTextStream

/-- Model of `QTextStream::skipWhiteSpace`. -/
def skipWhiteSpace : List Char → List Char
  | [] => []
  | c :: cs => if QChar.isSpace c then skipWhiteSpace cs else c :: cs

/-- Characters up to the next white space, and what follows them. -/
def scanWord : List Char → List Char × List Char
  | [] => ([], [])
  | c :: cs =>
    if QChar.isSpace c then ([], c :: cs)
    else
      match scanWord cs with
      | (word, rest) => (c :: word, rest)

/-- Model of `QTextStream &operator>>(QString &)`: leading white space is skipped and
one word is read; the word is empty at the end of the text. -/
def readString (s : List Char) : String × List Char :=
  match scanWord (skipWhiteSpace s) with
  | (word, rest) => (String.mk word, rest)

/-- Value of a digit in the given base, `none` for any other character. -/
def digitValue (base : Nat) (c : Char) : Option Nat :=
  let u := c.toNat
  let v :=
    if 48 ≤ u ∧ u ≤ 57 then u - 48
    else if 97 ≤ u ∧ u ≤ 102 then u - 87
    else if 65 ≤ u ∧ u ≤ 70 then u - 55
    else 16
  if v < base then some v else none

/-- Digit loop of `getNumber`: the accumulated `qulonglong`, the number of digits read
and the text left. -/
def scanDigits (base : Nat) : List Char → Nat → Nat → Nat × Nat × List Char
  | [], val, nd => (val, nd, [])
  | c :: cs, val, nd =>
    match digitValue base c with
    | some d => scanDigits base cs ((val * base + d) % 18446744073709551616) (nd + 1)
    | none => (val, nd, c :: cs)

/-- Base 10 branch of `getNumber`, at the sign or first digit. -/
def getDecimal : List Char → Option Nat × List Char
  | [] => (none, [])
  | sign :: t =>
    if sign = '-' ∨ sign = '+' then
      match scanDigits 10 t 0 0 with
      | (val, nd, rest) =>
        if nd = 0 then (none, rest)
        else if sign = '-' ∧ 0 < val ∧ val < 9223372036854775808 then
          (some (18446744073709551616 - val), rest)
        else (some val, rest)
    else
      match digitValue 10 sign with
      | none => (none, sign :: t)
      | some d =>
        match scanDigits 10 t d 1 with
        | (val, _, rest) => (some val, rest)

/-- Branch of `getNumber` for a number with a two-character base mark (`0x`, `0b`); the
mark is put back when no digit follows it. -/
def getMarked (base : Nat) (s t2 : List Char) : Option Nat × List Char :=
  match scanDigits base t2 0 0 with
  | (val, nd, rest) => if nd = 0 then (none, s) else (some val, rest)

/-- Model of `QTextStreamPrivate::getNumber` with automatic base detection: the parsed
`qulonglong`, or `none` when no number starts the text. -/
def getNumber (s0 : List Char) : Option Nat × List Char :=
  match skipWhiteSpace s0 with
  | [] => (none, [])
  | ch :: t =>
    if ch = '0' then
      match t with
      | [] => (some 0, [])
      | ch2 :: t2 =>
        if ch2 = 'x' ∨ ch2 = 'X' then getMarked 16 (ch :: t) t2
        else if ch2 = 'b' ∨ ch2 = 'B' then getMarked 2 (ch :: t) t2
        else if (digitValue 8 ch2).isSome then
          match scanDigits 8 t 0 0 with
          | (val, nd, rest) => if nd = 0 then (none, ch :: t) else (some val, rest)
        else getDecimal (ch :: t)
    else if ch = '-' ∨ ch = '+' ∨ (digitValue 10 ch).isSome then getDecimal (ch :: t)
    else (none, ch :: t)

/-- Model of `QTextStream &operator>>(int &)`: the number read, reduced to `int`, or 0
when no number was detected. -/
def readInt (s : List Char) : Int × List Char :=
  match getNumber s with
  | (some v, rest) => (toInt32 v, rest)
  | (none, rest) => (0, rest)

/-- Input classes of the real-number scanner: 0 none, 1 sign, 2 digit, 3 dot,
4 exponent mark, 5 `i`, 6 `n`, 7 `f`, 8 `a`, 9 `t`. -/
def realInput (c : Char) : Nat :=
  if (digitValue 10 c).isSome then 2
  else if c = 'i' ∨ c = 'I' then 5
  else if c = 'n' ∨ c = 'N' then 6
  else if c = 'f' ∨ c = 'F' then 7
  else if c = 'a' ∨ c = 'A' then 8
  else if c = 't' ∨ c = 'T' then 9
  else if c = '.' then 3
  else if c = 'e' ∨ c = 'E' then 4
  else if c = '-' ∨ c = '+' then 1
  else 0

/-- Transition table of the real-number scanner.  States: 0 init, 1 sign, 2 mantissa,
3 dot, 4 abscissa, 5 exponent mark, 6 exponent sign, 7 exponent, 8 `n`, 9 `na`, 10 `i`,
11 `in`, 12 `nan` or `inf`, 13 done. -/
def realTable : List (List Nat) :=
  [ [0, 1, 2, 3, 0, 10, 8, 0, 0, 0],
    [0, 0, 2, 3, 0, 10, 8, 0, 0, 0],
    [13, 13, 2, 3, 5, 0, 0, 0, 0, 0],
    [0, 0, 4, 0, 0, 0, 0, 0, 0, 0],
    [13, 13, 4, 13, 5, 0, 0, 0, 0, 0],
    [0, 6, 7, 0, 0, 0, 0, 0, 0, 0],
    [0, 0, 7, 0, 0, 0, 0, 0, 0, 0],
    [13, 13, 7, 13, 13, 0, 0, 0, 0, 0],
    [0, 0, 0, 0, 0, 0, 0, 0, 9, 0],
    [0, 0, 0, 0, 0, 0, 12, 0, 0, 0],
    [0, 0, 0, 0, 0, 0, 11, 0, 0, 0],
    [0, 0, 0, 0, 0, 0, 0, 12, 0, 0],
    [13, 0, 0, 0, 0, 0, 0, 0, 0, 0] ]

/-- Digits dropped once the lexeme buffer of the scanner is full. -/
def skipDigits : List Char → List Char
  | [] => []
  | c :: cs => if (digitValue 10 c).isSome then skipDigits cs else c :: cs

/-- Scanner loop of `getReal`: the lexeme collected and the text left. -/
def scanReal : List Char → Nat → List Char → List Char × List Char
  | [], _, buf => (buf, [])
  | c :: cs, state, buf =>
    let next := (realTable.getD state []).getD (realInput c) 0
    if next = 0 ∨ next = 13 ∨ 123 < buf.length then
      (buf, if 123 < buf.length then skipDigits (c :: cs) else c :: cs)
    else scanReal cs next (buf ++ [c])

/-- Model of `QTextStream &operator>>(float &)`: the value of the scanned lexeme, or
`0.0f` when no lexeme could be scanned. -/
def readFloat {F : Type} (fm : FloatModel F) (s : List Char) : F × List Char :=
  match scanReal (skipWhiteSpace s) 0 [] with
  | ([], rest) => (fm.zero, rest)
  | (c :: buf, rest) => (fm.ofText (c :: buf), rest)

end QTextStream

namespace QDataStream

/-- Byte order of a `QDataStream`. -/
inductive ByteOrder
  | BigEndian
  | LittleEndian
  deriving DecidableEq

/-- Model of `QDataStream::readBlock`: `len` bytes, or nothing (the device is drained)
when fewer are left. -/
def readBlock (len : Nat) (dev : Device) : Option (List Nat) × Device :=
  if len ≤ dev.length then (some ((dev.take len).map (fun c => c.toNat % 256)), dev.drop len)
  else (none, [])

/-- Unsigned value of a block of bytes in the given byte order. -/
def fromBytes : ByteOrder → List Nat → Nat
  | ByteOrder.BigEndian, bs => bs.foldl (fun acc b => acc * 256 + b) 0
  | ByteOrder.LittleEndian, bs => bs.foldr (fun b acc => acc * 256 + b) 0

/-- Bit pattern of the next `len`-byte field; 0 when the device runs out. -/
def readBits (order : ByteOrder) (len : Nat) (dev : Device) : Nat × Device :=
  match readBlock len dev with
  | (some bs, rest) => (fromBytes order bs, rest)
  | (none, rest) => (0, rest)

/-- Two's complement value of a `bits`-wide pattern. -/
def toSigned (bits : Nat) (v : Nat) : Int :=
  if v < 2 ^ (bits - 1) then (v : Int) else (v : Int) - 2 ^ bits

end QDataStream

/-! ## Data model of the loader -/

namespace PlyGeometryLoader

/-- The enum `PlyGeometryLoader::DataType`. -/
inductive DataType
  | Int8
  | Uint8
  | Int16
  | Uint16
  | Int32
  | Uint32
  | Float32
  | Float64
  | TypeList
  | TypeUnknown
  deriving DecidableEq

/-- The enum `PlyGeometryLoader::Format`. -/
inductive Format
  | FormatAscii
  | FormatBinaryLittleEndian
  | FormatBinaryBigEndian
  | FormatUnknown
  deriving DecidableEq

/-- The enum `PlyGeometryLoader::ElementType`. -/
inductive ElementType
  | ElementVertex
  | ElementFace
  | ElementUnknown
  deriving DecidableEq

/-- The enum `PlyGeometryLoader::PropertyType`. -/
inductive PropertyType
  | PropertyVertexIndex
  | PropertyX
  | PropertyY
  | PropertyZ
  | PropertyNormalX
  | PropertyNormalY
  | PropertyNormalZ
  | PropertyTextureU
  | PropertyTextureV
  | PropertyUnknown
  deriving DecidableEq

open DataType Format ElementType PropertyType

/-- Modelled from the spec: the struct `PlyGeometryLoader::Property` (declared in
`plygeometryloader.h`, which is not among the sources): a role, a data type and, for
a list, the types of the list size and of the list entries. -/
structure Property where
  type : PropertyType := PropertyUnknown
  dataType : DataType := TypeUnknown
  listSizeType : DataType := TypeUnknown
  listElementType : DataType := TypeUnknown
  deriving DecidableEq

/-- Modelled from the spec: the struct `PlyGeometryLoader::Element` (declared in
`plygeometryloader.h`): a type, the declared count (an `int`) and the properties in
declared order. -/
structure Element where
  type : ElementType := ElementUnknown
  count : Int := 0
  properties : List Property := []
  deriving DecidableEq

end PlyGeometryLoader

/-- The class `QVector3D`, with components of type `F`. -/
structure QVector3D (F : Type) where
  x : F
  y : F
  z : F
  deriving DecidableEq

/-- The class `QVector2D`, with components of type `F`. -/
structure QVector2D (F : Type) where
  x : F
  y : F
  deriving DecidableEq

open PlyGeometryLoader PlyGeometryLoader.DataType PlyGeometryLoader.Format
open PlyGeometryLoader.ElementType PlyGeometryLoader.PropertyType

/-- Modelled from the spec: the member variables of a `PlyGeometryLoader` (declared in
`plygeometryloader.h` and `basegeometryloader_p.h`, which are not among the sources):
the schema read from the header and the four geometry buffers. -/
structure Loader (F : Type) where
  m_format : Format
  m_elements : List Element
  m_hasNormals : Bool
  m_hasTexCoords : Bool
  m_points : List (QVector3D F)
  m_normals : List (QVector3D F)
  m_texCoords : List (QVector2D F)
  m_indices : List Nat
  deriving DecidableEq

/-- Modelled from the spec: a loader right after construction (the constructor is not
among the sources): the format is unknown, there is no element, the buffers are
empty. -/
def Loader.fresh (F : Type) : Loader F :=
  { m_format := FormatUnknown, m_elements := [], m_hasNormals := false,
    m_hasTexCoords := false, m_points := [], m_normals := [], m_texCoords := [],
    m_indices := [] }

/-! ## Scalar readers -/

/-- The interface `PlyDataReader`; a reader works on the device it was built on. -/
structure PlyDataReader (F : Type) where
  readIntValue : DataType → Device → Int × Device
  readFloatValue : DataType → Device → F × Device

/-- The class `AsciiPlyDataReader`: both operations ignore the data type. -/
def AsciiPlyDataReader {F : Type} (fm : FloatModel F) : PlyDataReader F :=
  { readIntValue := fun _ dev => QTextStream.readInt dev
    readFloatValue := fun _ dev => QTextStream.readFloat fm dev }

namespace BinaryPlyDataReader

open QDataStream

/-- The template `BinaryPlyDataReader::readValue<T>`; the three arguments convert an
integer, a `float` pattern and a `double` pattern to `T`. -/
def readValue {T : Type} (ofInt : Int → T) (ofFloat : Nat → T) (ofDouble : Nat → T)
    (order : ByteOrder) (type : DataType) (dev : Device) : T × Device :=
  match type with
  | DataType.Int8 =>
    match readBits order 1 dev with
    | (value, rest) => (ofInt (toSigned 8 value), rest)
  | DataType.Uint8 =>
    match readBits order 1 dev with
    | (value, rest) => (ofInt (value : Nat), rest)
  | DataType.Int16 =>
    match readBits order 2 dev with
    | (value, rest) => (ofInt (toSigned 16 value), rest)
  | DataType.Uint16 =>
    match readBits order 2 dev with
    | (value, rest) => (ofInt (value : Nat), rest)
  | DataType.Int32 =>
    match readBits order 4 dev with
    | (value, rest) => (ofInt (toSigned 32 value), rest)
  | DataType.Uint32 =>
    match readBits order 4 dev with
    | (value, rest) => (ofInt (value : Nat), rest)
  | DataType.Float32 =>
    match readBits order 4 dev with
    | (value, rest) => (ofFloat value, rest)
  | DataType.Float64 =>
    match readBits order 8 dev with
    | (value, rest) => (ofDouble value, rest)
  | _ => (ofInt 0, dev)

/-- The method `BinaryPlyDataReader::readIntValue`, that is `readValue<int>`. -/
def readIntValue {F : Type} (fm : FloatModel F) (order : ByteOrder) (type : DataType)
    (dev : Device) : Int × Device :=
  readValue toInt32 fm.bits32ToInt fm.bits64ToInt order type dev

/-- The method `BinaryPlyDataReader::readFloatValue`, that is `readValue<float>`. -/
def readFloatValue {F : Type} (fm : FloatModel F) (order : ByteOrder) (type : DataType)
    (dev : Device) : F × Device :=
  readValue fm.ofInt fm.ofBits32 fm.ofBits64 order type dev

end BinaryPlyDataReader

/-- The class `BinaryPlyDataReader` for a byte order. -/
def BinaryPlyDataReader.mk {F : Type} (fm : FloatModel F) (order : QDataStream.ByteOrder) :
    PlyDataReader F :=
  { readIntValue := BinaryPlyDataReader.readIntValue fm order
    readFloatValue := BinaryPlyDataReader.readFloatValue fm order }

/-! ## Header parser -/

/-- The function `toPlyDataType`. -/
def toPlyDataType (typeName : String) : DataType :=
  if typeName = "int8" ∨ typeName = "char" then Int8
  else if typeName = "uint8" ∨ typeName = "uchar" then Uint8
  else if typeName = "int16" ∨ typeName = "short" then Int16
  else if typeName = "uint16" ∨ typeName = "ushort" then Uint16
  else if typeName = "int32" ∨ typeName = "int" then Int32
  else if typeName = "uint32" ∨ typeName = "uint" then Uint32
  else if typeName = "float32" ∨ typeName = "float" then Float32
  else if typeName = "float64" ∨ typeName = "double" then Float64
  else if typeName = "list" then TypeList
  else TypeUnknown

/-- What the body of the header loop does with one line. -/
inductive HeaderStep (F : Type)
  /-- The loop goes on with the next line. -/
  | next : Loader F → HeaderStep F
  /-- The statement `break` (line `end_header`). -/
  | stop : Loader F → HeaderStep F
  /-- The statement `return false`. -/
  | fail : Loader F → HeaderStep F

/-- Branch `format` of the header loop; `ts` is the text after the first token. -/
def headerFormat {F : Type} (L : Loader F) (ts : List Char) : HeaderStep F :=
  match QTextStream.readString ts with
  | (formatName, _) =>
  if formatName = "ascii" then HeaderStep.next { L with m_format := FormatAscii }
  else if formatName = "binary_little_endian" then
    HeaderStep.next { L with m_format := FormatBinaryLittleEndian }
  else if formatName = "binary_big_endian" then
    HeaderStep.next { L with m_format := FormatBinaryBigEndian }
  else HeaderStep.fail L

/-- Branch `element` of the header loop: the element appended to `m_elements`. -/
def headerElement (ts : List Char) : Element :=
  match QTextStream.readString ts with
  | (elementName, ts1) =>
    { type :=
        if elementName = "vertex" then ElementVertex
        else if elementName = "face" then ElementFace
        else ElementUnknown
      count := (QTextStream.readInt ts1).1
      properties := [] }

/-- Role selected by the name of a property. -/
def propertyRole (propertyName : String) : PropertyType :=
  if propertyName = "vertex_index" then PropertyVertexIndex
  else if propertyName = "x" then PropertyX
  else if propertyName = "y" then PropertyY
  else if propertyName = "z" then PropertyZ
  else if propertyName = "nx" then PropertyNormalX
  else if propertyName = "ny" then PropertyNormalY
  else if propertyName = "nz" then PropertyNormalZ
  else if propertyName = "s" then PropertyTextureU
  else if propertyName = "t" then PropertyTextureV
  else PropertyUnknown

/-- A role for which the header loop sets `m_hasNormals`. -/
def isNormalRole (t : PropertyType) : Bool :=
  t = PropertyNormalX ∨ t = PropertyNormalY ∨ t = PropertyNormalZ

/-- A role for which the header loop sets `m_hasTexCoords`. -/
def isTexCoordRole (t : PropertyType) : Bool :=
  t = PropertyTextureU ∨ t = PropertyTextureV

/-- Branch `property` of the header loop: the property built from the text after the
first token. -/
def headerProperty (ts : List Char) : Property :=
  match QTextStream.readString ts with
  | (dataTypeName, ts1) =>
    if toPlyDataType dataTypeName = TypeList then
      match QTextStream.readString ts1 with
      | (listSizeTypeName, ts2) =>
        match QTextStream.readString ts2 with
        | (listElementTypeName, ts3) =>
          match QTextStream.readString ts3 with
          | (propertyName, _) =>
            { type := propertyRole propertyName
              dataType := TypeList
              listSizeType := toPlyDataType listSizeTypeName
              listElementType := toPlyDataType listElementTypeName }
    else
      match QTextStream.readString ts1 with
      | (propertyName, _) =>
        { type := propertyRole propertyName, dataType := toPlyDataType dataTypeName }

/-- The statement `m_elements.last().properties.append(property)`. -/
def appendToLast (property : Property) : List Element → List Element
  | [] => []
  | [e] => [{ e with properties := e.properties ++ [property] }]
  | e :: e2 :: es => e :: appendToLast property (e2 :: es)

/-- Body of the loop of `parseHeader` for one line.  The branches of the property name
that assign a normal role set `m_hasNormals`, those that assign a texture role set
`m_hasTexCoords`. -/
def headerLine {F : Type} (L : Loader F) (lineBuffer : List Char) : HeaderStep F :=
  match QTextStream.readString lineBuffer with
  | (token, ts) =>
  if token = "end_header" then HeaderStep.stop L
  else if token = "format" then headerFormat L ts
  else if token = "element" then
    HeaderStep.next { L with m_elements := L.m_elements ++ [headerElement ts] }
  else if token = "property" then
    if L.m_elements.isEmpty then HeaderStep.fail L
    else
      let property := headerProperty ts
      HeaderStep.next
        { L with
          m_elements := appendToLast property L.m_elements
          m_hasNormals := L.m_hasNormals || isNormalRole property.type
          m_hasTexCoords := L.m_hasTexCoords || isTexCoordRole property.type }
  else HeaderStep.next L

/-- The loop of `parseHeader` over the lines of the device.  The result tells whether
the function has returned `false` inside the loop, and gives the lines not read. -/
def headerLoop {F : Type} : Loader F → List (List Char) → Bool × Loader F × List (List Char)
  | L, [] => (false, L, [])
  | L, lineBuffer :: rest =>
    match headerLine L lineBuffer with
    | HeaderStep.next L1 => headerLoop L1 rest
    | HeaderStep.stop L1 => (false, L1, rest)
    | HeaderStep.fail L1 => (true, L1, rest)

/-- The method `PlyGeometryLoader::parseHeader`: the value returned, the loader and
the device after the call. -/
def parseHeader {F : Type} (L : Loader F) (ioDev : Device) : Bool × Loader F × Device :=
  match headerLoop { L with m_hasNormals := false, m_hasTexCoords := false }
      (QIODevice.lines ioDev) with
  | (true, L1, rest) => (false, L1, rest.flatten)
  | (false, L1, rest) =>
    if L1.m_format = FormatUnknown then (false, L1, rest.flatten) else (true, L1, rest.flatten)

/-! ## Mesh decoder -/

/-- Local variables of one pass of the instance loop of `parseMesh`. -/
structure Instance (F : Type) where
  point : QVector3D F
  normal : QVector3D F
  texCoord : QVector2D F
  faceIndices : List Nat

/-- The locals at the start of a pass: default-constructed vectors, no face index. -/
def Instance.init {F : Type} (fm : FloatModel F) : Instance F :=
  { point := ⟨fm.zero, fm.zero, fm.zero⟩, normal := ⟨fm.zero, fm.zero, fm.zero⟩,
    texCoord := ⟨fm.zero, fm.zero⟩, faceIndices := [] }

/-- The loop `for (int j = 0; j < listSize; ++j)` over the entries of a list property;
`n` is the number of passes left. -/
def readListValues {F : Type} (rd : PlyDataReader F) (type : ElementType)
    (listElementType : DataType) : Nat → List Nat → Device → List Nat × Device
  | 0, faceIndices, dev => (faceIndices, dev)
  | n + 1, faceIndices, dev =>
    match rd.readIntValue listElementType dev with
    | (value, dev1) =>
      readListValues rd type listElementType n
        (if type = ElementFace then faceIndices ++ [toUInt32 value] else faceIndices) dev1

/-- The `switch (property.type)` routing a value into the locals of a vertex. -/
def routeValue {F : Type} (role : PropertyType) (value : F) (a : Instance F) : Instance F :=
  match role with
  | PropertyX => { a with point := { a.point with x := value } }
  | PropertyY => { a with point := { a.point with y := value } }
  | PropertyZ => { a with point := { a.point with z := value } }
  | PropertyNormalX => { a with normal := { a.normal with x := value } }
  | PropertyNormalY => { a with normal := { a.normal with y := value } }
  | PropertyNormalZ => { a with normal := { a.normal with z := value } }
  | PropertyTextureU => { a with texCoord := { a.texCoord with x := value } }
  | PropertyTextureV => { a with texCoord := { a.texCoord with y := value } }
  | _ => a

/-- Body of the property loop of `parseMesh` for one property. -/
def readProperty {F : Type} (rd : PlyDataReader F) (type : ElementType) (property : Property)
    (a : Instance F) (dev : Device) : Instance F × Device :=
  if property.dataType = TypeList then
    match rd.readIntValue property.listSizeType dev with
    | (listSize, dev1) =>
      match readListValues rd type property.listElementType listSize.toNat
          a.faceIndices dev1 with
      | (faceIndices, dev2) => ({ a with faceIndices := faceIndices }, dev2)
  else
    match rd.readFloatValue property.dataType dev with
    | (value, dev1) =>
      if type = ElementVertex then (routeValue property.type value a, dev1) else (a, dev1)

/-- The loop `for (auto &property : element.properties)`. -/
def readProperties {F : Type} (rd : PlyDataReader F) (type : ElementType) :
    List Property → Instance F → Device → Instance F × Device
  | [], a, dev => (a, dev)
  | property :: ps, a, dev =>
    match readProperty rd type property a dev with
    | (a1, dev1) => readProperties rd type ps a1 dev1

/-- The loop `for (int j = 1; j < faceIndices.size() - 1; ++j)` that appends the
triangles of a fan to the index buffer; `fuel` bounds the number of passes. -/
def fanLoop (faceIndices : List Nat) : Nat → Nat → List Nat → List Nat
  | 0, _, indices => indices
  | fuel + 1, j, indices =>
    if j + 1 < faceIndices.length then
      fanLoop faceIndices fuel (j + 1)
        (indices ++ [faceIndices.getD 0 0, faceIndices.getD j 0, faceIndices.getD (j + 1) 0])
    else indices

/-- What `parseMesh` does with the index buffer at the end of a pass for a face. -/
def appendFace (faceIndices indices : List Nat) : List Nat :=
  if 3 ≤ faceIndices.length then fanLoop faceIndices faceIndices.length 1 indices
  else indices

/-- End of a pass of the instance loop: the locals are appended to the buffers. -/
def storeInstance {F : Type} (type : ElementType) (a : Instance F) (L : Loader F) : Loader F :=
  if type = ElementVertex then
    { L with
      m_points := L.m_points ++ [a.point]
      m_normals := if L.m_hasNormals then L.m_normals ++ [a.normal] else L.m_normals
      m_texCoords := if L.m_hasTexCoords then L.m_texCoords ++ [a.texCoord] else L.m_texCoords }
  else if type = ElementFace then
    { L with m_indices := appendFace a.faceIndices L.m_indices }
  else L

/-- The loop `for (int i = 0; i < element.count; ++i)`; `n` is the number of passes
left. -/
def readInstances {F : Type} (fm : FloatModel F) (rd : PlyDataReader F) (element : Element) :
    Nat → Loader F → Device → Loader F × Device
  | 0, L, dev => (L, dev)
  | n + 1, L, dev =>
    match readProperties rd element.type element.properties (Instance.init fm) dev with
    | (a, dev1) => readInstances fm rd element n (storeInstance element.type a L) dev1

/-- The loop `for (auto &element : qAsConst(m_elements))`.  The calls of `reserve` only
set capacities and leave the buffers as they are. -/
def readElements {F : Type} (fm : FloatModel F) (rd : PlyDataReader F) :
    List Element → Loader F → Device → Loader F × Device
  | [], L, dev => (L, dev)
  | element :: es, L, dev =>
    match readInstances fm rd element element.count.toNat L dev with
    | (L1, dev1) => readElements fm rd es L1 dev1

/-- The reader `parseMesh` builds for a format. -/
def dataReader {F : Type} (fm : FloatModel F) : Format → PlyDataReader F
  | FormatAscii => AsciiPlyDataReader fm
  | FormatBinaryLittleEndian => BinaryPlyDataReader.mk fm QDataStream.ByteOrder.LittleEndian
  | _ => BinaryPlyDataReader.mk fm QDataStream.ByteOrder.BigEndian

/-- The method `PlyGeometryLoader::parseMesh`: the value returned, the loader and the
device after the call. -/
def parseMesh {F : Type} (fm : FloatModel F) (L : Loader F) (ioDev : Device) :
    Bool × Loader F × Device :=
  match readElements fm (dataReader fm L.m_format) L.m_elements L ioDev with
  | (L1, rest) => (true, L1, rest)

/-- The method `PlyGeometryLoader::doLoad`. -/
def doLoad {F : Type} (fm : FloatModel F) (L : Loader F) (ioDev : Device) :
    Bool × Loader F × Device :=
  match parseHeader L ioDev with
  | (false, L1, rest) => (false, L1, rest)
  | (true, L1, rest) =>
    match parseMesh fm L1 rest with
    | (false, L2, rest2) => (false, L2, rest2)
    | (true, L2, rest2) => (true, L2, rest2)

/-! ## A float model for running examples -/

/-- A model in which a `float` is an integer: texts are read as decimal numbers without
fraction, bit patterns stand for themselves.  It serves to evaluate the definitions. -/
def FloatModel.integral : FloatModel Int :=
  { zero := 0
    ofText := fun s => (QTextStream.readInt s).1
    ofInt := fun n => n
    ofBits32 := fun b => b
    ofBits64 := fun b => b
    bits32ToInt := fun b => b
    bits64ToInt := fun b => b }

/-- A face element with the single property `list uchar int vertex_index`. -/
def faceElement (count : Int) : Element :=
  { type := ElementFace
    count := count
    properties :=
      [{ type := PropertyVertexIndex
         dataType := TypeList
         listSizeType := Uint8
         listElementType := Int32 }] }

/-- The stream of the end-to-end scenario: an ASCII header and a body of three vertices
and one face. -/
def scenarioStream : Device :=
  ("format ascii\nelement vertex 3\nproperty float x\nproperty float y\nproperty float z\n"
    ++ "element face 1\nproperty list uchar int vertex_index\nend_header\n"
    ++ "0 0 0\n1 0 0\n0 1 0\n3 0 1 2\n").toList

/-- A stream whose header declares `nx` on a face element and `ny` on the second of two
vertex elements. -/
def normalsStream : Device :=
  ("format ascii\nelement vertex 1\nproperty float x\nelement face 0\nproperty float nx\n"
    ++ "element vertex 2\nproperty float x\nproperty float ny\nend_header\n"
    ++ "5\n6 7\n8 9\n").toList

/-! ## Notions used to state the properties -/

open QDataStream

/-- The triangles of the fan of a face: `f[0], f[j], f[j+1]` for `j = 1, ..., n - 2`. -/
def fanTriangles (f : List Nat) : List Nat :=
  ((List.range' 1 (f.length - 2)).map
    (fun j => [f.getD 0 0, f.getD j 0, f.getD (j + 1) 0])).flatten

/-- First white-space delimited token of a line. -/
def firstToken (line : List Char) : String := (QTextStream.readString line).1

/-- Text of a line after its first token. -/
def afterFirstToken (line : List Char) : List Char := (QTextStream.readString line).2

/-- Second white-space delimited token of a line. -/
def secondToken (line : List Char) : String :=
  (QTextStream.readString (afterFirstToken line)).1

/-- The three format names of the header grammar. -/
def recognisedFormat (name : String) : Prop :=
  name = "ascii" ∨ name = "binary_little_endian" ∨ name = "binary_big_endian"

instance (name : String) : Decidable (recognisedFormat name) := by
  unfold recognisedFormat; infer_instance

/-- The lines before the first line whose first token is `end_header`. -/
def headerPart (ls : List (List Char)) : List (List Char) :=
  ls.takeWhile (fun l => decide (firstToken l ≠ "end_header"))

/-- Some `property` line has no `element` line before it. -/
def misplacedProperty (hdr : List (List Char)) : Prop :=
  ∃ pre l post, hdr = pre ++ l :: post ∧ firstToken l = "property" ∧
    ∀ p ∈ pre, firstToken p ≠ "element"

/-- Number of vertex instances a schema declares: the sum of the counts of its vertex
elements (a count below zero declares no instance). -/
def vertexCount (es : List Element) : Nat :=
  ((es.filter (fun e => decide (e.type = ElementVertex))).map (fun e => e.count.toNat)).sum

/-- Some property of some element of the schema has a role satisfying `r`. -/
def declaresRole (r : PropertyType → Bool) (es : List Element) : Prop :=
  ∃ e ∈ es, ∃ p ∈ e.properties, r p.type = true

/-- Relation between a loader `L` and a later state `R` of it in which the schema is
the same and the vertex buffers have grown by `k` vertices. -/
def Grows {F : Type} (k : Nat) (L R : Loader F) : Prop :=
  R.m_format = L.m_format ∧ R.m_elements = L.m_elements
  ∧ R.m_hasNormals = L.m_hasNormals ∧ R.m_hasTexCoords = L.m_hasTexCoords
  ∧ (∃ P, R.m_points = L.m_points ++ P ∧ P.length = k)
  ∧ (∃ N, R.m_normals = L.m_normals ++ N ∧ N.length = if L.m_hasNormals then k else 0)
  ∧ (∃ T, R.m_texCoords = L.m_texCoords ++ T ∧ T.length = if L.m_hasTexCoords then k else 0)

/-- The flags of the loader tell which roles the schema declares. -/
def FlagsAgree {F : Type} (L : Loader F) : Prop :=
  (L.m_hasNormals = true ↔ declaresRole isNormalRole L.m_elements)
  ∧ (L.m_hasTexCoords = true ↔ declaresRole isTexCoordRole L.m_elements)

/-- The `len` low bytes of a value, least significant first. -/
def bytesLE : Nat → Nat → List Nat
  | 0, _ => []
  | len + 1, v => (v % 256) :: bytesLE len (v / 256)

/-- The bytes of a `len`-byte field of value `v` in a byte order. -/
def fieldBytes : ByteOrder → Nat → Nat → List Nat
  | ByteOrder.LittleEndian, len, v => bytesLE len v
  | ByteOrder.BigEndian, len, v => (bytesLE len v).reverse

/-- A `len`-byte field of value `v` as it stands in a device. -/
def encodeField (order : ByteOrder) (len v : Nat) : Device :=
  (fieldBytes order len v).map Char.ofNat

/-- The bytes `07 09` after a little-endian header with a vertex property `x` of the
unknown type `quux` and a property `y` of type `uchar`. -/
def unknownTypeStream : Device :=
  ("format binary_little_endian\nelement vertex 1\nproperty quux x\n"
      ++ "property uchar y\nend_header\n").toList
    ++ [Char.ofNat 7, Char.ofNat 9]

/-- The white-space delimited token number `n` of a line (the first token has number
0); it is empty when the line has fewer tokens. -/
def tokenAt : Nat → List Char → String
  | 0, line => (QTextStream.readString line).1
  | n + 1, line => tokenAt n (QTextStream.readString line).2

/-- The name token of a `property` line: the token after the type name, or, when the
type name is `list`, the token after the names of the size type and of the entry type. -/
def propertyName (line : List Char) : String :=
  if toPlyDataType (tokenAt 1 line) = DataType.TypeList then tokenAt 4 line else tokenAt 2 line

/-- The property a `property` line declares. -/
def lineProperty (line : List Char) : Property := headerProperty (afterFirstToken line)

/-- The element an `element` line starts. -/
def lineElement (line : List Char) : Element := headerElement (afterFirstToken line)

/-- The format a format name stands for. -/
def formatOfName (name : String) : Format :=
  if name = "ascii" then FormatAscii
  else if name = "binary_little_endian" then FormatBinaryLittleEndian
  else if name = "binary_big_endian" then FormatBinaryBigEndian
  else FormatUnknown

/-- The lines of a header that the loop of `parseHeader` works off without leaving: the
lines before the first line that is an `end_header` line, a `format` line with an
unrecognised name, or a `property` line before which no element was started
(`started` tells whether the loader has an element at the start). -/
def processedLines : Bool → List (List Char) → List (List Char)
  | _, [] => []
  | started, l :: ls =>
    if firstToken l = "end_header" then []
    else if firstToken l = "format" then
      if recognisedFormat (secondToken l) then l :: processedLines started ls else []
    else if firstToken l = "element" then l :: processedLines true ls
    else if firstToken l = "property" then
      if started = true then l :: processedLines true ls else []
    else l :: processedLines started ls

/-- The properties declared by the `property` lines that come before the first
`element` line. -/
def leadProperties (ls : List (List Char)) : List Property :=
  ((ls.takeWhile (fun l => decide (firstToken l ≠ "element"))).filter
    (fun l => decide (firstToken l = "property"))).map lineProperty

/-- The schema a sequence of header lines spells out: one element per `element` line,
in order, with the properties of the `property` lines between it and the next `element`
line, in order. -/
def schemaOf : List (List Char) → List Element
  | [] => []
  | l :: ls =>
    if firstToken l = "element" then
      { lineElement l with properties := leadProperties ls } :: schemaOf ls
    else schemaOf ls

/-- The properties `ps` appended, one after the other, to the last element. -/
def addProperties (es : List Element) (ps : List Property) : List Element :=
  ps.foldl (fun es p => appendToLast p es) es

/-- The format after a sequence of header lines: the one named by the last `format`
line, the given one when there is none. -/
def formatAfter (f : Format) (ls : List (List Char)) : Format :=
  ls.foldl (fun f l => if firstToken l = "format" then formatOfName (secondToken l) else f) f

/-- Some `property` line of the sequence has a name token of a role satisfying `r`. -/
def declaresName (r : PropertyType → Bool) (ls : List (List Char)) : Bool :=
  ls.any (fun l => decide (firstToken l = "property") && r (propertyRole (propertyName l)))

/-- The values read for the scalar (not list) properties in one pass of the property
loop, each with the role of its property, in declared order. -/
def scalarValues {F : Type} (rd : PlyDataReader F) (type : ElementType) :
    List Property → Instance F → Device → List (PropertyType × F)
  | [], _, _ => []
  | p :: ps, a, dev =>
    if p.dataType = DataType.TypeList then
      scalarValues rd type ps (readProperty rd type p a dev).1 (readProperty rd type p a dev).2
    else
      (p.type, (rd.readFloatValue p.dataType dev).1) ::
        scalarValues rd type ps (readProperty rd type p a dev).1 (readProperty rd type p a dev).2

/-- The value of the last entry of role `role` in a list of values with roles, `default`
when there is none. -/
def lastValue {F : Type} (role : PropertyType) (default : F) (values : List (PropertyType × F)) :
    F :=
  values.foldl (fun acc rv => if rv.1 = role then rv.2 else acc) default

/-- The face-index lists collected in the passes of the instance loop for one element. -/
def instanceFaces {F : Type} (fm : FloatModel F) (rd : PlyDataReader F) (element : Element) :
    Nat → Device → List (List Nat)
  | 0, _ => []
  | n + 1, dev =>
    (readProperties rd element.type element.properties (Instance.init fm) dev).1.faceIndices ::
      instanceFaces fm rd element n
        (readProperties rd element.type element.properties (Instance.init fm) dev).2

/-- The face-index lists collected for the instances of the face elements of a schema,
in decoding order. -/
def collectedFaces {F : Type} (fm : FloatModel F) (rd : PlyDataReader F) :
    List Element → Loader F → Device → List (List Nat)
  | [], _, _ => []
  | e :: es, L, dev =>
    (if e.type = ElementFace then instanceFaces fm rd e e.count.toNat dev else []) ++
      collectedFaces fm rd es (readInstances fm rd e e.count.toNat L dev).1
        (readInstances fm rd e e.count.toNat L dev).2

/-- The position of a vertex for which the values `values` were read: each axis holds
the last value of its role, `0.0f` when there is none. -/
def vertexPoint {F : Type} (fm : FloatModel F) (values : List (PropertyType × F)) : QVector3D F :=
  ⟨lastValue PropertyX fm.zero values, lastValue PropertyY fm.zero values,
    lastValue PropertyZ fm.zero values⟩

/-- The normal of a vertex for which the values `values` were read. -/
def vertexNormal {F : Type} (fm : FloatModel F) (values : List (PropertyType × F)) :
    QVector3D F :=
  ⟨lastValue PropertyNormalX fm.zero values, lastValue PropertyNormalY fm.zero values,
    lastValue PropertyNormalZ fm.zero values⟩

/-- The texture coordinate of a vertex for which the values `values` were read. -/
def vertexTexCoord {F : Type} (fm : FloatModel F) (values : List (PropertyType × F)) :
    QVector2D F :=
  ⟨lastValue PropertyTextureU fm.zero values, lastValue PropertyTextureV fm.zero values⟩

/-- A vertex element with the scalar properties `x`, an unknown name, `y` and `x` again. -/
def routingElement (count : Int) : Element :=
  { type := ElementVertex
    count := count
    properties :=
      [{ type := PropertyX, dataType := DataType.Float32 },
       { type := PropertyUnknown, dataType := DataType.Float32 },
       { type := PropertyY, dataType := DataType.Float32 },
       { type := PropertyX, dataType := DataType.Float32 }] }

/-- Number of bytes of a field of a data type in a binary body (none for the types the
binary reader does not read). -/
def fieldWidth : DataType → Nat
  | DataType.Int8 => 1
  | DataType.Uint8 => 1
  | DataType.Int16 => 2
  | DataType.Uint16 => 2
  | DataType.Int32 => 4
  | DataType.Uint32 => 4
  | DataType.Float32 => 4
  | DataType.Float64 => 8
  | _ => 0

/-- The value `readValue<T>` makes of the bit pattern of a field of a data type. -/
def decodeBits {T : Type} (ofInt : Int → T) (ofFloat ofDouble : Nat → T) : DataType → Nat → T
  | DataType.Int8, bits => ofInt (toSigned 8 bits)
  | DataType.Uint8, bits => ofInt (bits : Nat)
  | DataType.Int16, bits => ofInt (toSigned 16 bits)
  | DataType.Uint16, bits => ofInt (bits : Nat)
  | DataType.Int32, bits => ofInt (toSigned 32 bits)
  | DataType.Uint32, bits => ofInt (bits : Nat)
  | DataType.Float32, bits => ofFloat bits
  | DataType.Float64, bits => ofDouble bits
  | _, _ => ofInt 0

/-- A body made of fields, each given by its width in bytes and its value, written in a
byte order. -/
def encodeFields (order : ByteOrder) (fields : List (Nat × Nat)) : Device :=
  (fields.map (fun f => encodeField order f.1 f.2)).flatten

/-- The fields of the `n` entries of a list, with the logical values left. -/
def layoutList (type : DataType) : Nat → List Nat → List (Nat × Nat) × List Nat
  | 0, vs => ([], vs)
  | n + 1, vs =>
    ((fieldWidth type, vs.headD 0) :: (layoutList type n vs.tail).1, (layoutList type n vs.tail).2)

/-- The fields of one property of one instance: a scalar field, or the size field of a
list followed by as many entry fields as the decoder makes of the size. -/
def layoutProperty {F : Type} (fm : FloatModel F) (p : Property) (vs : List Nat) :
    List (Nat × Nat) × List Nat :=
  if p.dataType = DataType.TypeList then
    ((fieldWidth p.listSizeType, vs.headD 0) ::
        (layoutList p.listElementType
          (decodeBits toInt32 fm.bits32ToInt fm.bits64ToInt p.listSizeType
            (vs.headD 0 % 256 ^ fieldWidth p.listSizeType)).toNat vs.tail).1,
      (layoutList p.listElementType
          (decodeBits toInt32 fm.bits32ToInt fm.bits64ToInt p.listSizeType
            (vs.headD 0 % 256 ^ fieldWidth p.listSizeType)).toNat vs.tail).2)
  else ([(fieldWidth p.dataType, vs.headD 0)], vs.tail)

/-- The fields of the properties of one instance, in declared order. -/
def layoutProperties {F : Type} (fm : FloatModel F) :
    List Property → List Nat → List (Nat × Nat) × List Nat
  | [], vs => ([], vs)
  | p :: ps, vs =>
    ((layoutProperty fm p vs).1 ++ (layoutProperties fm ps (layoutProperty fm p vs).2).1,
      (layoutProperties fm ps (layoutProperty fm p vs).2).2)

/-- The fields of `n` instances of an element. -/
def layoutInstances {F : Type} (fm : FloatModel F) (ps : List Property) :
    Nat → List Nat → List (Nat × Nat) × List Nat
  | 0, vs => ([], vs)
  | n + 1, vs =>
    ((layoutProperties fm ps vs).1 ++ (layoutInstances fm ps n (layoutProperties fm ps vs).2).1,
      (layoutInstances fm ps n (layoutProperties fm ps vs).2).2)

/-- The fields of the body of a schema filled with the logical values `vs` (0 once they
are used up): for each element in order, for each of its instances, the fields of its
properties. -/
def layoutElements {F : Type} (fm : FloatModel F) :
    List Element → List Nat → List (Nat × Nat) × List Nat
  | [], vs => ([], vs)
  | e :: es, vs =>
    ((layoutInstances fm e.properties e.count.toNat vs).1 ++
        (layoutElements fm es (layoutInstances fm e.properties e.count.toNat vs).2).1,
      (layoutElements fm es (layoutInstances fm e.properties e.count.toNat vs).2).2)

/-- A binary schema: one vertex with a `float32` property `x`, one face with a list
property whose size is a `uint8` and whose entries are `uint16`. -/
def binaryElements : List Element :=
  [{ type := ElementVertex
     count := 1
     properties := [{ type := PropertyX, dataType := DataType.Float32 }] },
   { type := ElementFace
     count := 1
     properties :=
       [{ type := PropertyVertexIndex
          dataType := DataType.TypeList
          listSizeType := DataType.Uint8
          listElementType := DataType.Uint16 }] }]

/-- Two loaders hold the same schema, up to the format, and the same geometry. -/
def SameGeometry {F : Type} (L M : Loader F) : Prop :=
  L.m_elements = M.m_elements ∧ L.m_hasNormals = M.m_hasNormals
  ∧ L.m_hasTexCoords = M.m_hasTexCoords ∧ L.m_points = M.m_points
  ∧ L.m_normals = M.m_normals ∧ L.m_texCoords = M.m_texCoords ∧ L.m_indices = M.m_indices

/-- A stream whose header names its properties as the documentation of `PropertyType`
spells them. -/
def documentedNamesStream : Device :=
  ("format ascii\nelement vertex 1\nproperty float X\nproperty float Y\nproperty float Z\n"
    ++ "property float NormalX\nproperty float TextureU\nend_header\n1 2 3 4 5\n").toList

/-- The size `parseMesh` reads for the list property `p` at `dev`, as a number of
passes of the entry loop. -/
def listSize {F : Type} (rd : PlyDataReader F) (p : Property) (dev : Device) : Nat :=
  (rd.readIntValue p.listSizeType dev).1.toNat

/-- The entries `parseMesh` reads for the list property `p` of a face at `dev`, as
they are converted to `unsigned int`. -/
def listEntries {F : Type} (rd : PlyDataReader F) (p : Property) (dev : Device) : List Nat :=
  (readListValues rd ElementFace p.listElementType (listSize rd p dev) []
    (rd.readIntValue p.listSizeType dev).2).1

/-- The device after the size and the entries of the list property `p` of a face. -/
def afterList {F : Type} (rd : PlyDataReader F) (p : Property) (dev : Device) : Device :=
  (readListValues rd ElementFace p.listElementType (listSize rd p dev) []
    (rd.readIntValue p.listSizeType dev).2).2

/-- A face element with two list properties, the second of which has a name without a
role. -/
def twoListElement : Element :=
  { type := ElementFace
    count := 1
    properties :=
      [{ type := PropertyVertexIndex
         dataType := TypeList
         listSizeType := Uint8
         listElementType := Int32 },
       { type := PropertyUnknown
         dataType := TypeList
         listSizeType := Uint8
         listElementType := Int32 }] }

/-- A binary stream with one face whose list `uchar uint` holds the entries
`3000000000, 1, 2`. -/
def bigIndexStream : Device :=
  "format binary_big_endian\nelement face 1\nproperty list uchar uint vertex_index\nend_header\n".toList
    ++ encodeField ByteOrder.BigEndian 1 3
    ++ encodeField ByteOrder.BigEndian 4 3000000000
    ++ encodeField ByteOrder.BigEndian 4 1
    ++ encodeField ByteOrder.BigEndian 4 2

/-- An ASCII stream with one face that has two list properties: the lists `10 11` and
`12 13`. -/
def twoListStream : Device :=
  ("format ascii\nelement face 1\nproperty list uchar int vertex_index\n"
    ++ "property list uchar int extra\nend_header\n2 10 11 2 12 13\n").toList

end Qt3DRender

/-! # Properties -/

namespace Qt3DRender

open PlyGeometryLoader PlyGeometryLoader.DataType PlyGeometryLoader.Format
open PlyGeometryLoader.ElementType PlyGeometryLoader.PropertyType
open QDataStream

/-! ## Fan triangulation -/

theorem fanLoop_eq (f : List Nat) :
    ∀ (fuel j : Nat) (indices : List Nat), f.length ≤ j + fuel →
      fanLoop f fuel j indices = indices ++
        ((List.range' j (f.length - 1 - j)).map
          (fun i => [f.getD 0 0, f.getD i 0, f.getD (i + 1) 0])).flatten := by
  intro fuel
  induction fuel with
  | zero =>
    intro j indices h
    have h0 : f.length - 1 - j = 0 := by omega
    simp [fanLoop, h0]
  | succ fuel ih =>
    intro j indices h
    by_cases hj : j + 1 < f.length
    · have hlen : f.length - 1 - j = (f.length - 1 - (j + 1)) + 1 := by omega
      rw [fanLoop, if_pos hj, ih (j + 1) _ (by omega), hlen, List.range'_succ]
      simp
    · have h0 : f.length - 1 - j = 0 := by omega
      simp [fanLoop, hj, h0]

theorem appendFace_eq (f indices : List Nat) (h : 3 ≤ f.length) :
    appendFace f indices = indices ++ fanTriangles f := by
  have e : f.length - 1 - 1 = f.length - 2 := by omega
  rw [appendFace, if_pos h, fanLoop_eq f f.length 1 indices (by omega), fanTriangles, e]

theorem fanTriangles_length (f : List Nat) : (fanTriangles f).length = 3 * (f.length - 2) := by
  have key : ∀ (g : Nat → List Nat), (∀ j, (g j).length = 3) → ∀ (n s : Nat),
      ((List.range' s n).map g).flatten.length = 3 * n := by
    intro g hg n
    induction n with
    | zero => intro s; simp
    | succ n ih =>
      intro s
      rw [List.range'_succ, List.map_cons, List.flatten_cons, List.length_append, hg, ih]
      omega
  exact key (fun j => [f.getD 0 0, f.getD j 0, f.getD (j + 1) 0]) (fun _ => rfl) _ _


theorem readInstances_succ {F : Type} (fm : FloatModel F) (rd : PlyDataReader F)
    (element : Element) (n : Nat) (L : Loader F) (dev : Device) :
    readInstances fm rd element (n + 1) L dev =
      readInstances fm rd element n
        (storeInstance element.type
          (readProperties rd element.type element.properties (Instance.init fm) dev).1 L)
        (readProperties rd element.type element.properties (Instance.init fm) dev).2 := by
  rw [readInstances]

theorem storeInstance_face {F : Type} (a : Instance F) (L : Loader F) :
    storeInstance ElementFace a L = { L with m_indices := appendFace a.faceIndices L.m_indices } := by
  simp [storeInstance]

/-- C1. Fan triangulation in `parseMesh`: in a pass of the instance loop for a face
element whose collected index list `f` has `n ≥ 3` entries, the index buffer grows by
exactly `f[0], f[j], f[j+1]` for `j = 1, ..., n - 2`, in that order (these are
`3 * (n - 2)` indices, `n - 2` triangles), nothing else in the loader changes, and the
loop goes on with the remaining passes. -/
theorem C1_fan_triangulation {F : Type} (fm : FloatModel F) (rd : PlyDataReader F)
    (element : Element) (n : Nat) (L : Loader F) (dev : Device)
    (hface : element.type = ElementFace)
    (h : 3 ≤ (readProperties rd ElementFace element.properties
      (Instance.init fm) dev).1.faceIndices.length) :
    readInstances fm rd element (n + 1) L dev =
      readInstances fm rd element n
        { L with m_indices := L.m_indices ++
            fanTriangles (readProperties rd ElementFace element.properties
              (Instance.init fm) dev).1.faceIndices }
        (readProperties rd ElementFace element.properties (Instance.init fm) dev).2
    ∧ fanTriangles (readProperties rd ElementFace element.properties
          (Instance.init fm) dev).1.faceIndices
        = ((List.range' 1 ((readProperties rd ElementFace element.properties
              (Instance.init fm) dev).1.faceIndices.length - 2)).map
            (fun j =>
              [(readProperties rd ElementFace element.properties
                  (Instance.init fm) dev).1.faceIndices.getD 0 0,
               (readProperties rd ElementFace element.properties
                  (Instance.init fm) dev).1.faceIndices.getD j 0,
               (readProperties rd ElementFace element.properties
                  (Instance.init fm) dev).1.faceIndices.getD (j + 1) 0])).flatten
    ∧ (fanTriangles (readProperties rd ElementFace element.properties
          (Instance.init fm) dev).1.faceIndices).length
        = 3 * ((readProperties rd ElementFace element.properties
            (Instance.init fm) dev).1.faceIndices.length - 2) := by
  refine ⟨?_, rfl, fanTriangles_length _⟩
  rw [readInstances_succ, hface, storeInstance_face, appendFace_eq _ _ h]

/-- C1, on an ASCII face line `4 2 5 7 9`: the collected list is `[2, 5, 7, 9]` and the
indices appended are `2, 5, 7, 2, 7, 9`. -/
theorem C1_fan_triangulation_witness :
    (readInstances FloatModel.integral (AsciiPlyDataReader FloatModel.integral)
        (faceElement 1) 1 (Loader.fresh Int) "4 2 5 7 9\n".toList).1.m_indices = [2, 5, 7, 2, 7, 9] := by
  rw [(C1_fan_triangulation FloatModel.integral (AsciiPlyDataReader FloatModel.integral)
      (faceElement 1) 0 (Loader.fresh Int) "4 2 5 7 9\n".toList rfl (by decide)).1]
  decide

/-! ## Faces with fewer than three indices -/

theorem appendFace_short (f indices : List Nat) (h : f.length < 3) :
    appendFace f indices = indices := by
  have h3 : ¬ 3 ≤ f.length := by omega
  rw [appendFace, if_neg h3]

/-- C2. A pass of the instance loop for a face element whose collected index list has
0, 1 or 2 entries leaves the loader (in particular the index buffer) as it is, the
loop goes on with the remaining passes, and `parseMesh` returns `true`. -/
theorem C2_short_face_skipped {F : Type} (fm : FloatModel F) (rd : PlyDataReader F)
    (element : Element) (n : Nat) (L : Loader F) (dev : Device)
    (hface : element.type = ElementFace)
    (h : (readProperties rd ElementFace element.properties
      (Instance.init fm) dev).1.faceIndices.length < 3) :
    storeInstance ElementFace
        (readProperties rd ElementFace element.properties (Instance.init fm) dev).1 L = L
    ∧ readInstances fm rd element (n + 1) L dev =
      readInstances fm rd element n L
        (readProperties rd ElementFace element.properties (Instance.init fm) dev).2
    ∧ ∀ (M : Loader F) (ioDev : Device), (parseMesh fm M ioDev).1 = true := by
  have e : storeInstance ElementFace
      (readProperties rd ElementFace element.properties (Instance.init fm) dev).1 L = L := by
    rw [storeInstance_face, appendFace_short _ _ h]
  refine ⟨e, ?_, fun _ _ => rfl⟩
  rw [readInstances_succ, hface, e]

/-- C2, on a face element of two instances whose first line `2 4 6` lists two indices
only: nothing is appended for it, and the second line `3 0 1 2` is decoded. -/
theorem C2_short_face_skipped_witness :
    (readInstances FloatModel.integral (AsciiPlyDataReader FloatModel.integral)
        (faceElement 2) 2 (Loader.fresh Int) "2 4 6\n3 0 1 2\n".toList).1.m_indices = [0, 1, 2] := by
  rw [(C2_short_face_skipped FloatModel.integral (AsciiPlyDataReader FloatModel.integral)
      (faceElement 2) 1 (Loader.fresh Int) "2 4 6\n3 0 1 2\n".toList rfl (by decide)).2.1]
  decide

/-! ## End-to-end scenario -/


/-- C3. On a fresh loader, `doLoad` on the stream of the scenario (ASCII header with
three vertices `x y z` and one face, body `0 0 0 / 1 0 0 / 0 1 0 / 3 0 1 2`) returns
`true` and leaves the positions `(0,0,0), (1,0,0), (0,1,0)` (the `float` values of the
texts `0` and `1`), no normal, no texture coordinate and the indices `0, 1, 2`. -/
theorem C3_end_to_end {F : Type} (fm : FloatModel F) :
    (doLoad fm (Loader.fresh F) scenarioStream).1 = true
    ∧ (doLoad fm (Loader.fresh F) scenarioStream).2.1.m_points =
        [⟨fm.ofText ['0'], fm.ofText ['0'], fm.ofText ['0']⟩,
         ⟨fm.ofText ['1'], fm.ofText ['0'], fm.ofText ['0']⟩,
         ⟨fm.ofText ['0'], fm.ofText ['1'], fm.ofText ['0']⟩]
    ∧ (doLoad fm (Loader.fresh F) scenarioStream).2.1.m_normals = []
    ∧ (doLoad fm (Loader.fresh F) scenarioStream).2.1.m_texCoords = []
    ∧ (doLoad fm (Loader.fresh F) scenarioStream).2.1.m_indices = [0, 1, 2] :=
  ⟨rfl, rfl, rfl, rfl, rfl⟩

/-! ## The lines of a device -/

theorem readLine_cons (c : Char) (cs : List Char) :
    QIODevice.readLine (c :: cs) =
      if c = '\n' then ([c], cs)
      else (c :: (QIODevice.readLine cs).1, (QIODevice.readLine cs).2) := by
  rw [QIODevice.readLine]

/-- The list `QIODevice.lines` is what the loop `while (!ioDev->atEnd())` reads with
`readLine`: nothing at the end of the device, else one line and the lines of the
device left. -/
theorem lines_eq_readLine (dev : Device) :
    QIODevice.lines dev =
      if QIODevice.atEnd dev = true then []
      else (QIODevice.readLine dev).1 :: QIODevice.lines (QIODevice.readLine dev).2 := by
  induction dev with
  | nil => rfl
  | cons c cs ih =>
    have hne : QIODevice.atEnd (c :: cs) = false := rfl
    rw [hne, if_neg (by decide), readLine_cons, QIODevice.lines]
    by_cases hc : c = '\n'
    · simp [hc]
    · simp only [hc, if_false]
      rw [ih]
      cases cs with
      | nil => rfl
      | cons d ds =>
        have hne2 : QIODevice.atEnd (d :: ds) = false := rfl
        rw [hne2, if_neg (by decide)]

/-- The lines of a device, put end to end, are the device. -/
theorem lines_flatten (dev : Device) : (QIODevice.lines dev).flatten = dev := by
  induction dev with
  | nil => rfl
  | cons c cs ih =>
    rw [QIODevice.lines]
    by_cases hc : c = '\n'
    · simp [hc, ih]
    · simp only [hc, if_false]
      cases hl : QIODevice.lines cs with
      | nil =>
        rw [hl] at ih
        simp at ih
        simp [← ih]
      | cons l ls =>
        rw [hl] at ih
        simp only [List.flatten_cons] at ih ⊢
        rw [List.cons_append, ih]

/-! ## Header loop -/

theorem headerLine_eq {F : Type} (L : Loader F) (l : List Char) :
    headerLine L l =
      if firstToken l = "end_header" then HeaderStep.stop L
      else if firstToken l = "format" then headerFormat L (afterFirstToken l)
      else if firstToken l = "element" then
        HeaderStep.next { L with m_elements := L.m_elements ++ [headerElement (afterFirstToken l)] }
      else if firstToken l = "property" then
        if L.m_elements.isEmpty then HeaderStep.fail L
        else
          HeaderStep.next
            { L with
              m_elements := appendToLast (headerProperty (afterFirstToken l)) L.m_elements
              m_hasNormals := L.m_hasNormals || isNormalRole (headerProperty (afterFirstToken l)).type
              m_hasTexCoords :=
                L.m_hasTexCoords || isTexCoordRole (headerProperty (afterFirstToken l)).type }
      else HeaderStep.next L := by
  unfold headerLine firstToken afterFirstToken
  rcases QTextStream.readString l with ⟨token, ts⟩
  rfl

theorem headerFormat_eq {F : Type} (L : Loader F) (ts : List Char) :
    headerFormat L ts =
      if (QTextStream.readString ts).1 = "ascii" then
        HeaderStep.next { L with m_format := FormatAscii }
      else if (QTextStream.readString ts).1 = "binary_little_endian" then
        HeaderStep.next { L with m_format := FormatBinaryLittleEndian }
      else if (QTextStream.readString ts).1 = "binary_big_endian" then
        HeaderStep.next { L with m_format := FormatBinaryBigEndian }
      else HeaderStep.fail L := by
  unfold headerFormat
  rcases QTextStream.readString ts with ⟨name, r⟩
  rfl

theorem headerLine_end {F : Type} (L : Loader F) (l : List Char)
    (h : firstToken l = "end_header") : headerLine L l = HeaderStep.stop L := by
  rw [headerLine_eq, if_pos h]

theorem headerLine_format_bad {F : Type} (L : Loader F) (l : List Char)
    (h : firstToken l = "format") (hb : ¬ recognisedFormat (secondToken l)) :
    headerLine L l = HeaderStep.fail L := by
  have h1 : firstToken l ≠ "end_header" := by rw [h]; decide
  unfold recognisedFormat secondToken at hb
  rw [headerLine_eq, if_neg h1, if_pos h, headerFormat_eq]
  rw [if_neg (fun e => hb (Or.inl e)), if_neg (fun e => hb (Or.inr (Or.inl e))),
    if_neg (fun e => hb (Or.inr (Or.inr e)))]

theorem headerLine_format_good {F : Type} (L : Loader F) (l : List Char)
    (h : firstToken l = "format") (hg : recognisedFormat (secondToken l)) :
    ∃ f : Format, f ≠ FormatUnknown ∧ headerLine L l = HeaderStep.next { L with m_format := f } := by
  have h1 : firstToken l ≠ "end_header" := by rw [h]; decide
  unfold recognisedFormat secondToken at hg
  rw [headerLine_eq, if_neg h1, if_pos h, headerFormat_eq]
  by_cases c1 : (QTextStream.readString (afterFirstToken l)).1 = "ascii"
  · exact ⟨FormatAscii, by decide, by rw [if_pos c1]⟩
  · by_cases c2 : (QTextStream.readString (afterFirstToken l)).1 = "binary_little_endian"
    · exact ⟨FormatBinaryLittleEndian, by decide, by rw [if_neg c1, if_pos c2]⟩
    · have c3 : (QTextStream.readString (afterFirstToken l)).1 = "binary_big_endian" := by
        rcases hg with hg | hg | hg
        · exact absurd hg c1
        · exact absurd hg c2
        · exact hg
      exact ⟨FormatBinaryBigEndian, by decide, by rw [if_neg c1, if_neg c2, if_pos c3]⟩

theorem headerLine_element {F : Type} (L : Loader F) (l : List Char)
    (h : firstToken l = "element") :
    headerLine L l =
      HeaderStep.next { L with m_elements := L.m_elements ++ [headerElement (afterFirstToken l)] } := by
  have h1 : firstToken l ≠ "end_header" := by rw [h]; decide
  have h2 : firstToken l ≠ "format" := by rw [h]; decide
  rw [headerLine_eq, if_neg h1, if_neg h2, if_pos h]

theorem headerLine_property_misplaced {F : Type} (L : Loader F) (l : List Char)
    (h : firstToken l = "property") (he : L.m_elements = []) :
    headerLine L l = HeaderStep.fail L := by
  have h1 : firstToken l ≠ "end_header" := by rw [h]; decide
  have h2 : firstToken l ≠ "format" := by rw [h]; decide
  have h3 : firstToken l ≠ "element" := by rw [h]; decide
  rw [headerLine_eq, if_neg h1, if_neg h2, if_neg h3, if_pos h, he]
  rfl

theorem headerLine_property {F : Type} (L : Loader F) (l : List Char)
    (h : firstToken l = "property") (he : L.m_elements ≠ []) :
    headerLine L l =
      HeaderStep.next
        { L with
          m_elements := appendToLast (headerProperty (afterFirstToken l)) L.m_elements
          m_hasNormals := L.m_hasNormals || isNormalRole (headerProperty (afterFirstToken l)).type
          m_hasTexCoords :=
            L.m_hasTexCoords || isTexCoordRole (headerProperty (afterFirstToken l)).type } := by
  have h1 : firstToken l ≠ "end_header" := by rw [h]; decide
  have h2 : firstToken l ≠ "format" := by rw [h]; decide
  have h3 : firstToken l ≠ "element" := by rw [h]; decide
  have h4 : L.m_elements.isEmpty = false := by
    cases hL : L.m_elements with
    | nil => exact absurd hL he
    | cons _ _ => rfl
  rw [headerLine_eq, if_neg h1, if_neg h2, if_neg h3, if_pos h, h4]
  rfl

theorem headerLine_other {F : Type} (L : Loader F) (l : List Char)
    (h1 : firstToken l ≠ "end_header") (h2 : firstToken l ≠ "format")
    (h3 : firstToken l ≠ "element") (h4 : firstToken l ≠ "property") :
    headerLine L l = HeaderStep.next L := by
  rw [headerLine_eq, if_neg h1, if_neg h2, if_neg h3, if_neg h4]

theorem appendToLast_ne_nil (p : Property) (es : List Element) (h : es ≠ []) :
    appendToLast p es ≠ [] := by
  match es, h with
  | [e], _ => simp [appendToLast]
  | e :: e2 :: es, _ => simp [appendToLast]

theorem headerPart_nil : headerPart [] = [] := rfl

theorem headerPart_cons_end (l : List Char) (ls : List (List Char))
    (h : firstToken l = "end_header") : headerPart (l :: ls) = [] := by
  simp [headerPart, h]

theorem headerPart_cons (l : List Char) (ls : List (List Char))
    (h : firstToken l ≠ "end_header") : headerPart (l :: ls) = l :: headerPart ls := by
  simp [headerPart, h]

theorem misplacedProperty_nil : ¬ misplacedProperty [] := by
  rintro ⟨pre, l, post, e, _⟩
  simp at e

theorem misplacedProperty_cons (l : List Char) (hdr : List (List Char)) :
    misplacedProperty (l :: hdr) ↔
      firstToken l = "property" ∨ (firstToken l ≠ "element" ∧ misplacedProperty hdr) := by
  constructor
  · rintro ⟨pre, x, post, e, hx, hpre⟩
    cases pre with
    | nil =>
      simp at e
      left; rw [e.1]; exact hx
    | cons p pre =>
      simp at e
      right
      refine ⟨?_, pre, x, post, e.2, hx, fun q hq => hpre q (List.mem_cons_of_mem _ hq)⟩
      rw [e.1]; exact hpre p (List.mem_cons_self _ _)
  · rintro (h | ⟨h, pre, x, post, e, hx, hpre⟩)
    · exact ⟨[], l, hdr, rfl, h, by simp⟩
    · refine ⟨l :: pre, x, post, by simp [e], hx, ?_⟩
      intro q hq
      rcases List.mem_cons.mp hq with rfl | hq
      · exact h
      · exact hpre q hq

/-- When the loop of `parseHeader` makes the function fail: it returns `false` inside
the loop or leaves the format unresolved. -/
theorem headerLoop_fails_iff {F : Type} (ls : List (List Char)) :
    ∀ L : Loader F,
      ((headerLoop L ls).1 = true ∨ (headerLoop L ls).2.1.m_format = FormatUnknown) ↔
        ((∃ l ∈ headerPart ls, firstToken l = "format" ∧ ¬ recognisedFormat (secondToken l))
          ∨ (L.m_elements = [] ∧ misplacedProperty (headerPart ls))
          ∨ (L.m_format = FormatUnknown ∧
              ∀ l ∈ headerPart ls, ¬ (firstToken l = "format" ∧ recognisedFormat (secondToken l)))) := by
  induction ls with
  | nil =>
    intro L
    simp [headerLoop, headerPart_nil, misplacedProperty_nil]
  | cons l ls ih =>
    intro L
    by_cases h1 : firstToken l = "end_header"
    · simp [headerLoop, headerLine_end L l h1, headerPart_cons_end l ls h1, misplacedProperty_nil]
    · rw [headerPart_cons l ls h1, misplacedProperty_cons]
      by_cases h2 : firstToken l = "format"
      · have hp : firstToken l ≠ "property" := by rw [h2]; decide
        by_cases hg : recognisedFormat (secondToken l)
        · obtain ⟨f, hf, e⟩ := headerLine_format_good L l h2 hg
          have step : headerLoop L (l :: ls) = headerLoop { L with m_format := f } ls := by
            rw [headerLoop, e]
          rw [step, ih]
          simp [h2, hg, hf, hp]
        · have step : headerLoop L (l :: ls) = (true, L, ls) := by
            rw [headerLoop, headerLine_format_bad L l h2 hg]
          rw [step]
          simp [h2, hg]
      · by_cases h3 : firstToken l = "element"
        · have hp : firstToken l ≠ "property" := by rw [h3]; decide
          have step : headerLoop L (l :: ls) =
              headerLoop
                { L with m_elements := L.m_elements ++ [headerElement (afterFirstToken l)] } ls := by
            rw [headerLoop, headerLine_element L l h3]
          rw [step, ih]
          simp [h2, h3, hp]
        · by_cases h4 : firstToken l = "property"
          · by_cases he : L.m_elements = []
            · have step : headerLoop L (l :: ls) = (true, L, ls) := by
                rw [headerLoop, headerLine_property_misplaced L l h4 he]
              rw [step]
              simp [h4, he]
            · have step : headerLoop L (l :: ls) =
                  headerLoop
                    { L with
                      m_elements := appendToLast (headerProperty (afterFirstToken l)) L.m_elements
                      m_hasNormals :=
                        L.m_hasNormals || isNormalRole (headerProperty (afterFirstToken l)).type
                      m_hasTexCoords :=
                        L.m_hasTexCoords
                          || isTexCoordRole (headerProperty (afterFirstToken l)).type } ls := by
                rw [headerLoop, headerLine_property L l h4 he]
              rw [step, ih]
              simp [h2, he, appendToLast_ne_nil _ _ he]
          · have step : headerLoop L (l :: ls) = headerLoop L ls := by
              rw [headerLoop, headerLine_other L l h1 h2 h3 h4]
            rw [step, ih]
            simp [h2, h3, h4]

/-! ## Growth of the buffers in `parseMesh` and invariants of the header loop -/

theorem Grows.refl {F : Type} (L : Loader F) : Grows 0 L L :=
  ⟨rfl, rfl, rfl, rfl, ⟨[], by simp⟩, ⟨[], by simp⟩, ⟨[], by simp⟩⟩

theorem Grows.trans {F : Type} {j k : Nat} {L M R : Loader F}
    (h1 : Grows j L M) (h2 : Grows k M R) : Grows (j + k) L R := by
  obtain ⟨f1, e1, n1, t1, ⟨P1, hP1, lP1⟩, ⟨N1, hN1, lN1⟩, ⟨T1, hT1, lT1⟩⟩ := h1
  obtain ⟨f2, e2, n2, t2, ⟨P2, hP2, lP2⟩, ⟨N2, hN2, lN2⟩, ⟨T2, hT2, lT2⟩⟩ := h2
  refine ⟨f2.trans f1, e2.trans e1, n2.trans n1, t2.trans t1,
    ⟨P1 ++ P2, by rw [hP2, hP1, List.append_assoc], by simp [lP1, lP2]⟩,
    ⟨N1 ++ N2, by rw [hN2, hN1, List.append_assoc], ?_⟩,
    ⟨T1 ++ T2, by rw [hT2, hT1, List.append_assoc], ?_⟩⟩
  · rw [List.length_append, lN1, lN2, n1]
    split_ifs <;> rfl
  · rw [List.length_append, lT1, lT2, t1]
    split_ifs <;> rfl

theorem storeInstance_grows {F : Type} (type : ElementType) (a : Instance F) (L : Loader F) :
    Grows (if type = ElementVertex then 1 else 0) L (storeInstance type a L) := by
  unfold storeInstance
  by_cases hv : type = ElementVertex
  · rw [if_pos hv, if_pos hv]
    refine ⟨rfl, rfl, rfl, rfl, ⟨[a.point], rfl, rfl⟩, ?_, ?_⟩
    · by_cases hn : L.m_hasNormals = true
      · exact ⟨[a.normal], by simp [hn], by simp [hn]⟩
      · exact ⟨[], by simp [hn], by simp [hn]⟩
    · by_cases ht : L.m_hasTexCoords = true
      · exact ⟨[a.texCoord], by simp [ht], by simp [ht]⟩
      · exact ⟨[], by simp [ht], by simp [ht]⟩
  · rw [if_neg hv, if_neg hv]
    by_cases hf : type = ElementFace
    · rw [if_pos hf]
      exact ⟨rfl, rfl, rfl, rfl, ⟨[], by simp⟩, ⟨[], by simp⟩, ⟨[], by simp⟩⟩
    · rw [if_neg hf]
      exact Grows.refl L

theorem readInstances_grows {F : Type} (fm : FloatModel F) (rd : PlyDataReader F)
    (element : Element) :
    ∀ (n : Nat) (L : Loader F) (dev : Device),
      Grows (if element.type = ElementVertex then n else 0) L
        (readInstances fm rd element n L dev).1 := by
  intro n
  induction n with
  | zero =>
    intro L dev
    simpa [readInstances] using Grows.refl L
  | succ n ih =>
    intro L dev
    rw [readInstances_succ]
    have h := Grows.trans (storeInstance_grows element.type
      (readProperties rd element.type element.properties (Instance.init fm) dev).1 L)
      (ih _ (readProperties rd element.type element.properties (Instance.init fm) dev).2)
    by_cases hv : element.type = ElementVertex
    · simp only [hv, if_true] at h ⊢
      rw [Nat.add_comm] at h
      exact h
    · simp only [hv, if_false] at h ⊢
      exact h

theorem readElements_cons {F : Type} (fm : FloatModel F) (rd : PlyDataReader F)
    (element : Element) (es : List Element) (L : Loader F) (dev : Device) :
    readElements fm rd (element :: es) L dev =
      readElements fm rd es (readInstances fm rd element element.count.toNat L dev).1
        (readInstances fm rd element element.count.toNat L dev).2 := by
  rw [readElements]

theorem vertexCount_nil : vertexCount [] = 0 := rfl

theorem vertexCount_cons (e : Element) (es : List Element) :
    vertexCount (e :: es) =
      (if e.type = ElementVertex then e.count.toNat else 0) + vertexCount es := by
  unfold vertexCount
  by_cases h : e.type = ElementVertex <;> simp [List.filter_cons, h]

theorem vertexCount_append (es fs : List Element) :
    vertexCount (es ++ fs) = vertexCount es + vertexCount fs := by
  unfold vertexCount
  simp [List.filter_append]

theorem vertexCount_eq_sum (es : List Element)
    (h : ∀ e ∈ es, e.type = ElementVertex → 0 ≤ e.count) :
    (vertexCount es : Int) =
      ((es.filter (fun e => decide (e.type = ElementVertex))).map (fun e => e.count)).sum := by
  induction es with
  | nil => rfl
  | cons e es ih =>
    have ih2 := ih (fun x hx => h x (List.mem_cons_of_mem _ hx))
    rw [vertexCount_cons]
    by_cases hv : e.type = ElementVertex
    · have h0 : 0 ≤ e.count := h e (List.mem_cons_self _ _) hv
      simp [List.filter_cons, hv, ih2, Int.toNat_of_nonneg h0]
    · simp [List.filter_cons, hv, ih2]

theorem readElements_grows {F : Type} (fm : FloatModel F) (rd : PlyDataReader F) :
    ∀ (es : List Element) (L : Loader F) (dev : Device),
      Grows (vertexCount es) L (readElements fm rd es L dev).1 := by
  intro es
  induction es with
  | nil =>
    intro L dev
    simpa [readElements, vertexCount_nil] using Grows.refl L
  | cons e es ih =>
    intro L dev
    rw [readElements_cons, vertexCount_cons]
    exact Grows.trans (readInstances_grows fm rd e _ L dev) (ih _ _)

theorem readElements_append {F : Type} (fm : FloatModel F) (rd : PlyDataReader F) :
    ∀ (es fs : List Element) (L : Loader F) (dev : Device),
      readElements fm rd (es ++ fs) L dev =
        readElements fm rd fs (readElements fm rd es L dev).1 (readElements fm rd es L dev).2 := by
  intro es
  induction es with
  | nil => intro fs L dev; simp [readElements]
  | cons e es ih =>
    intro fs L dev
    rw [List.cons_append, readElements_cons, readElements_cons, ih]

theorem routeValue_normal {F : Type} (role : PropertyType) (value : F) (a : Instance F)
    (h : isNormalRole role = false) : (routeValue role value a).normal = a.normal := by
  cases role <;> first | rfl | simp [isNormalRole] at h

theorem readProperty_normal {F : Type} (rd : PlyDataReader F) (type : ElementType)
    (p : Property) (a : Instance F) (dev : Device) (h : isNormalRole p.type = false) :
    (readProperty rd type p a dev).1.normal = a.normal := by
  unfold readProperty
  by_cases hl : p.dataType = TypeList
  · rw [if_pos hl]
  · rw [if_neg hl]
    by_cases hv : type = ElementVertex
    · simp only [hv, if_true]
      exact routeValue_normal _ _ _ h
    · simp only [hv, if_false]

theorem readProperties_cons {F : Type} (rd : PlyDataReader F) (type : ElementType)
    (p : Property) (ps : List Property) (a : Instance F) (dev : Device) :
    readProperties rd type (p :: ps) a dev =
      readProperties rd type ps (readProperty rd type p a dev).1
        (readProperty rd type p a dev).2 := by
  rw [readProperties]

theorem readProperties_normal {F : Type} (rd : PlyDataReader F) (type : ElementType) :
    ∀ (ps : List Property) (a : Instance F) (dev : Device),
      (∀ p ∈ ps, isNormalRole p.type = false) →
      (readProperties rd type ps a dev).1.normal = a.normal := by
  intro ps
  induction ps with
  | nil => intro a dev _; rfl
  | cons p ps ih =>
    intro a dev h
    rw [readProperties_cons, ih _ _ (fun q hq => h q (List.mem_cons_of_mem _ hq)),
      readProperty_normal rd type p a dev (h p (List.mem_cons_self _ _))]

theorem readInstances_zero_normals {F : Type} (fm : FloatModel F) (rd : PlyDataReader F)
    (element : Element) (hv : element.type = ElementVertex)
    (hp : ∀ p ∈ element.properties, isNormalRole p.type = false) :
    ∀ (n : Nat) (L : Loader F) (dev : Device), L.m_hasNormals = true →
      (readInstances fm rd element n L dev).1.m_normals =
        L.m_normals ++ List.replicate n ⟨fm.zero, fm.zero, fm.zero⟩ := by
  intro n
  induction n with
  | zero => intro L dev _; simp [readInstances]
  | succ n ih =>
    intro L dev hn
    have hs := storeInstance_grows element.type
      (readProperties rd element.type element.properties (Instance.init fm) dev).1 L
    rw [readInstances_succ, ih _ _ (hs.2.2.1.trans hn)]
    have e : (storeInstance element.type
        (readProperties rd element.type element.properties (Instance.init fm) dev).1 L).m_normals
        = L.m_normals ++ [⟨fm.zero, fm.zero, fm.zero⟩] := by
      have hz := readProperties_normal rd element.type element.properties
        (Instance.init fm) dev hp
      rw [hv] at hz
      simp only [storeInstance, hv, if_true, hn, hz]
      rfl
    rw [e, List.append_assoc, List.replicate_succ]
    rfl

theorem headerElement_properties (ts : List Char) : (headerElement ts).properties = [] := by
  unfold headerElement
  rcases QTextStream.readString ts with ⟨name, r⟩
  rfl

/-- A property of the loader that every update made by the header loop keeps is kept by
the body of the loop, whatever its outcome. -/
theorem headerLine_preserves {F : Type} (P : Loader F → Prop)
    (hfmt : ∀ (L : Loader F) (f : Format), P L → P { L with m_format := f })
    (helem : ∀ (L : Loader F) (e : Element), e.properties = [] → P L →
      P { L with m_elements := L.m_elements ++ [e] })
    (hprop : ∀ (L : Loader F) (p : Property), L.m_elements ≠ [] → P L →
      P { L with
          m_elements := appendToLast p L.m_elements
          m_hasNormals := L.m_hasNormals || isNormalRole p.type
          m_hasTexCoords := L.m_hasTexCoords || isTexCoordRole p.type })
    (L : Loader F) (l : List Char) (h : P L) :
    match headerLine L l with
    | HeaderStep.next L1 => P L1
    | HeaderStep.stop L1 => P L1
    | HeaderStep.fail L1 => P L1 := by
  by_cases h1 : firstToken l = "end_header"
  · rw [headerLine_end L l h1]; exact h
  · by_cases h2 : firstToken l = "format"
    · by_cases hg : recognisedFormat (secondToken l)
      · obtain ⟨f, _, e⟩ := headerLine_format_good L l h2 hg
        rw [e]; exact hfmt L f h
      · rw [headerLine_format_bad L l h2 hg]; exact h
    · by_cases h3 : firstToken l = "element"
      · rw [headerLine_element L l h3]
        exact helem L _ (headerElement_properties _) h
      · by_cases h4 : firstToken l = "property"
        · by_cases he : L.m_elements = []
          · rw [headerLine_property_misplaced L l h4 he]; exact h
          · rw [headerLine_property L l h4 he]
            exact hprop L _ he h
        · rw [headerLine_other L l h1 h2 h3 h4]; exact h

theorem headerLoop_preserves {F : Type} (P : Loader F → Prop)
    (hfmt : ∀ (L : Loader F) (f : Format), P L → P { L with m_format := f })
    (helem : ∀ (L : Loader F) (e : Element), e.properties = [] → P L →
      P { L with m_elements := L.m_elements ++ [e] })
    (hprop : ∀ (L : Loader F) (p : Property), L.m_elements ≠ [] → P L →
      P { L with
          m_elements := appendToLast p L.m_elements
          m_hasNormals := L.m_hasNormals || isNormalRole p.type
          m_hasTexCoords := L.m_hasTexCoords || isTexCoordRole p.type }) :
    ∀ (ls : List (List Char)) (L : Loader F), P L → P (headerLoop L ls).2.1 := by
  intro ls
  induction ls with
  | nil => intro L h; exact h
  | cons l ls ih =>
    intro L h
    have hl := headerLine_preserves P hfmt helem hprop L l h
    rw [headerLoop]
    cases hs : headerLine L l with
    | next L1 => rw [hs] at hl; exact ih L1 hl
    | stop L1 => rw [hs] at hl; exact hl
    | fail L1 => rw [hs] at hl; exact hl

theorem parseHeader_loader {F : Type} (L : Loader F) (dev : Device) :
    (parseHeader L dev).2.1 =
      (headerLoop { L with m_hasNormals := false, m_hasTexCoords := false }
        (QIODevice.lines dev)).2.1 := by
  unfold parseHeader
  rcases headerLoop { L with m_hasNormals := false, m_hasTexCoords := false }
      (QIODevice.lines dev) with ⟨b, L1, rest⟩
  cases b
  · by_cases h : L1.m_format = FormatUnknown <;> simp [h]
  · rfl

theorem declaresRole_append_element (r : PropertyType → Bool) (es : List Element) (e : Element)
    (h : e.properties = []) : declaresRole r (es ++ [e]) ↔ declaresRole r es := by
  unfold declaresRole
  constructor
  · rintro ⟨x, hx, p, hp, hr⟩
    rcases List.mem_append.mp hx with hx | hx
    · exact ⟨x, hx, p, hp, hr⟩
    · rw [List.mem_singleton] at hx
      rw [hx, h] at hp
      simp at hp
  · rintro ⟨x, hx, p, hp, hr⟩
    exact ⟨x, List.mem_append_left _ hx, p, hp, hr⟩

theorem declaresRole_appendToLast (r : PropertyType → Bool) (p : Property) :
    ∀ (es : List Element), es ≠ [] →
      (declaresRole r (appendToLast p es) ↔ (declaresRole r es ∨ r p.type = true)) := by
  intro es
  induction es with
  | nil => intro h; exact absurd rfl h
  | cons e es ih =>
    intro _
    cases es with
    | nil =>
      unfold declaresRole
      simp only [appendToLast, List.mem_singleton, exists_eq_left, List.mem_append]
      constructor
      · rintro ⟨q, hq | hq, hr⟩
        · exact Or.inl ⟨q, hq, hr⟩
        · rw [hq] at hr; exact Or.inr hr
      · rintro (⟨q, hq, hr⟩ | hr)
        · exact ⟨q, Or.inl hq, hr⟩
        · exact ⟨p, Or.inr rfl, hr⟩
    | cons e2 es =>
      have ih2 := ih (List.cons_ne_nil _ _)
      have c1 : ∀ (xs : List Element), declaresRole r (e :: xs) ↔
          ((∃ q ∈ e.properties, r q.type = true) ∨ declaresRole r xs) := by
        intro xs
        unfold declaresRole
        simp only [List.mem_cons, exists_eq_or_imp]
      rw [appendToLast, c1, ih2, c1]
      exact or_assoc.symm

theorem headerLoop_flagsAgree {F : Type} (ls : List (List Char)) (L : Loader F)
    (h : FlagsAgree L) : FlagsAgree (headerLoop L ls).2.1 := by
  refine headerLoop_preserves FlagsAgree ?_ ?_ ?_ ls L h
  · intro L f hL; exact hL
  · intro L e he hL
    exact ⟨by rw [declaresRole_append_element _ _ _ he]; exact hL.1,
      by rw [declaresRole_append_element _ _ _ he]; exact hL.2⟩
  · intro L p hne hL
    refine ⟨?_, ?_⟩
    · show (L.m_hasNormals || isNormalRole p.type) = true ↔ _
      rw [declaresRole_appendToLast _ _ _ hne, Bool.or_eq_true, hL.1]
    · show (L.m_hasTexCoords || isTexCoordRole p.type) = true ↔ _
      rw [declaresRole_appendToLast _ _ _ hne, Bool.or_eq_true, hL.2]

theorem headerLoop_buffers {F : Type} (ls : List (List Char)) (L : Loader F) :
    (headerLoop L ls).2.1.m_points = L.m_points
    ∧ (headerLoop L ls).2.1.m_normals = L.m_normals
    ∧ (headerLoop L ls).2.1.m_texCoords = L.m_texCoords
    ∧ (headerLoop L ls).2.1.m_indices = L.m_indices := by
  refine headerLoop_preserves
    (fun M => M.m_points = L.m_points ∧ M.m_normals = L.m_normals
      ∧ M.m_texCoords = L.m_texCoords ∧ M.m_indices = L.m_indices)
    ?_ ?_ ?_ ls L ⟨rfl, rfl, rfl, rfl⟩
  · intro M f h; exact h
  · intro M e _ h; exact h
  · intro M p _ h; exact h

/-- After `parseHeader` on a fresh loader the buffers are empty and the flags tell which
roles the schema declares. -/
theorem parseHeader_fresh {F : Type} (dev : Device) :
    FlagsAgree (parseHeader (Loader.fresh F) dev).2.1
    ∧ (parseHeader (Loader.fresh F) dev).2.1.m_points = []
    ∧ (parseHeader (Loader.fresh F) dev).2.1.m_normals = []
    ∧ (parseHeader (Loader.fresh F) dev).2.1.m_texCoords = []
    ∧ (parseHeader (Loader.fresh F) dev).2.1.m_indices = [] := by
  rw [parseHeader_loader]
  refine ⟨headerLoop_flagsAgree _ _ ?_, headerLoop_buffers _ _⟩
  unfold FlagsAgree declaresRole
  simp [Loader.fresh]

theorem doLoad_of_header {F : Type} (fm : FloatModel F) (L L1 : Loader F) (dev body : Device)
    (h : parseHeader L dev = (true, L1, body)) :
    doLoad fm L dev =
      (true, (readElements fm (dataReader fm L1.m_format) L1.m_elements L1 body).1,
        (readElements fm (dataReader fm L1.m_format) L1.m_elements L1 body).2) := by
  unfold doLoad parseMesh
  rw [h]

/-! ## Vertex counts, normals and texture coordinates -/

/-- C4. For every stream whose header is accepted by `parseHeader` on a fresh loader and
declares exactly one vertex element, of count `N`, and no property of a normal or
texture-coordinate role (`nx`, `ny`, `nz`, `s`, `t`) on any element, `doLoad` returns
`true` and leaves exactly `N` positions, no normal and no texture coordinate, whatever
the body of the stream is (and whatever the format and the other properties are). -/
theorem C4_positions_only {F : Type} (fm : FloatModel F) (dev : Device) (L1 : Loader F)
    (body : Device) (e : Element) (N : Nat)
    (hH : parseHeader (Loader.fresh F) dev = (true, L1, body))
    (hv : L1.m_elements.filter (fun x => decide (x.type = ElementVertex)) = [e])
    (hN : e.count = (N : Int))
    (hnn : ¬ declaresRole isNormalRole L1.m_elements)
    (hnt : ¬ declaresRole isTexCoordRole L1.m_elements) :
    (doLoad fm (Loader.fresh F) dev).1 = true
    ∧ (doLoad fm (Loader.fresh F) dev).2.1.m_points.length = N
    ∧ (doLoad fm (Loader.fresh F) dev).2.1.m_normals = []
    ∧ (doLoad fm (Loader.fresh F) dev).2.1.m_texCoords = [] := by
  have hf := parseHeader_fresh (F := F) dev
  rw [hH] at hf
  obtain ⟨⟨fn, ft⟩, hp, hno, hte, _⟩ := hf
  simp only at fn ft hp hno hte
  have hfn : L1.m_hasNormals = false := by
    cases h : L1.m_hasNormals
    · rfl
    · exact absurd (fn.mp h) hnn
  have hft : L1.m_hasTexCoords = false := by
    cases h : L1.m_hasTexCoords
    · rfl
    · exact absurd (ft.mp h) hnt
  have hc : vertexCount L1.m_elements = N := by
    unfold vertexCount
    rw [hv]
    simp [hN]
  obtain ⟨_, _, _, _, ⟨P, eP, lP⟩, ⟨N1, eN, lN⟩, ⟨T, eT, lT⟩⟩ :=
    readElements_grows fm (dataReader fm L1.m_format) L1.m_elements L1 body
  rw [doLoad_of_header fm _ L1 dev body hH]
  refine ⟨rfl, ?_, ?_, ?_⟩
  · show (readElements fm _ L1.m_elements L1 body).1.m_points.length = N
    rw [eP, hp, List.nil_append, lP, hc]
  · show (readElements fm _ L1.m_elements L1 body).1.m_normals = []
    rw [hfn] at lN
    rw [eN, hno, List.nil_append]
    exact List.length_eq_zero.mp lN
  · show (readElements fm _ L1.m_elements L1 body).1.m_texCoords = []
    rw [hft] at lT
    rw [eT, hte, List.nil_append]
    exact List.length_eq_zero.mp lT

/-- C4, on the stream of the scenario (`N = 3`). -/
theorem C4_positions_only_witness :
    (doLoad FloatModel.integral (Loader.fresh Int) scenarioStream).1 = true
    ∧ (doLoad FloatModel.integral (Loader.fresh Int) scenarioStream).2.1.m_points.length = 3
    ∧ (doLoad FloatModel.integral (Loader.fresh Int) scenarioStream).2.1.m_normals = []
    ∧ (doLoad FloatModel.integral (Loader.fresh Int) scenarioStream).2.1.m_texCoords = [] :=
  C4_positions_only FloatModel.integral scenarioStream
    (parseHeader (Loader.fresh Int) scenarioStream).2.1
    (parseHeader (Loader.fresh Int) scenarioStream).2.2
    { type := ElementVertex
      count := 3
      properties :=
        [{ type := PropertyX, dataType := Float32 }, { type := PropertyY, dataType := Float32 },
         { type := PropertyZ, dataType := Float32 }] }
    3 (by decide) (by decide) (by decide)
    (by unfold declaresRole; decide) (by unfold declaresRole; decide)

/-- C5. For every stream whose header is accepted by `parseHeader` on a fresh loader and
declares a property of role normal (`nx`, `ny` or `nz`) on some element, `doLoad`
returns `true` and leaves one normal per vertex instance of every vertex element: the
number of normals is the sum of the counts of the vertex elements (when no such count
is negative; a negative count gives no instance) and equals the number of positions,
and the normals of a vertex element that declares no normal property are all zero. -/
theorem C5_normals_for_all_vertices {F : Type} (fm : FloatModel F) (dev : Device)
    (L1 : Loader F) (body : Device)
    (hH : parseHeader (Loader.fresh F) dev = (true, L1, body))
    (hn : declaresRole isNormalRole L1.m_elements) :
    (doLoad fm (Loader.fresh F) dev).1 = true
    ∧ (doLoad fm (Loader.fresh F) dev).2.1.m_normals.length = vertexCount L1.m_elements
    ∧ ((∀ e ∈ L1.m_elements, e.type = ElementVertex → 0 ≤ e.count) →
        ((doLoad fm (Loader.fresh F) dev).2.1.m_normals.length : Int) =
          ((L1.m_elements.filter (fun e => decide (e.type = ElementVertex))).map
            (fun e => e.count)).sum)
    ∧ (doLoad fm (Loader.fresh F) dev).2.1.m_normals.length
        = (doLoad fm (Loader.fresh F) dev).2.1.m_points.length
    ∧ ∀ (pre : List Element) (e : Element) (post : List Element),
        L1.m_elements = pre ++ e :: post → e.type = ElementVertex →
        (∀ p ∈ e.properties, isNormalRole p.type = false) →
        (((doLoad fm (Loader.fresh F) dev).2.1.m_normals.drop (vertexCount pre)).take
            e.count.toNat) = List.replicate e.count.toNat ⟨fm.zero, fm.zero, fm.zero⟩ := by
  have hf := parseHeader_fresh (F := F) dev
  rw [hH] at hf
  obtain ⟨⟨fn, _⟩, hp, hno, _, _⟩ := hf
  simp only at fn hp hno
  have hfn : L1.m_hasNormals = true := fn.mpr hn
  rw [doLoad_of_header fm _ L1 dev body hH]
  obtain ⟨_, _, _, _, ⟨P, eP, lP⟩, ⟨N1, eN, lN⟩, _⟩ :=
    readElements_grows fm (dataReader fm L1.m_format) L1.m_elements L1 body
  rw [hfn, if_pos rfl] at lN
  refine ⟨rfl, ?_, ?_, ?_, ?_⟩
  · show (readElements fm _ L1.m_elements L1 body).1.m_normals.length = _
    rw [eN, hno, List.nil_append, lN]
  · intro hc
    show ((readElements fm _ L1.m_elements L1 body).1.m_normals.length : Int) = _
    rw [eN, hno, List.nil_append, lN, vertexCount_eq_sum _ hc]
  · show (readElements fm _ L1.m_elements L1 body).1.m_normals.length
      = (readElements fm _ L1.m_elements L1 body).1.m_points.length
    rw [eN, eP, hno, hp, List.nil_append, List.nil_append, lN, lP]
  · intro pre e post hel hv hprops
    show (((readElements fm _ L1.m_elements L1 body).1.m_normals.drop (vertexCount pre)).take
      e.count.toNat) = _
    rw [hel, readElements_append, readElements_cons]
    obtain ⟨_, _, an, _, _, ⟨NA, eNA, lNA⟩, _⟩ :=
      readElements_grows fm (dataReader fm L1.m_format) pre L1 body
    rw [hfn, if_pos rfl] at lNA
    have hA : (readElements fm (dataReader fm L1.m_format) pre L1 body).1.m_hasNormals = true :=
      an.trans hfn
    have hB := readInstances_zero_normals fm (dataReader fm L1.m_format) e hv hprops
      e.count.toNat _ (readElements fm (dataReader fm L1.m_format) pre L1 body).2 hA
    obtain ⟨_, _, _, _, _, ⟨NC, eNC, _⟩, _⟩ :=
      readElements_grows fm (dataReader fm L1.m_format) post
        (readInstances fm (dataReader fm L1.m_format) e e.count.toNat
          (readElements fm (dataReader fm L1.m_format) pre L1 body).1
          (readElements fm (dataReader fm L1.m_format) pre L1 body).2).1
        (readInstances fm (dataReader fm L1.m_format) e e.count.toNat
          (readElements fm (dataReader fm L1.m_format) pre L1 body).1
          (readElements fm (dataReader fm L1.m_format) pre L1 body).2).2
    rw [eNC, hB, eNA, hno, List.nil_append, List.append_assoc, List.drop_left' lNA,
      List.take_left' (List.length_replicate _ _)]

/-- C5, on a stream that declares `nx` on a face element and `ny` on the second of two
vertex elements: three normals for three positions, and the normal of the vertex of the
first element, which declares `x` only, is zero. -/
theorem C5_normals_for_all_vertices_witness :
    (doLoad FloatModel.integral (Loader.fresh Int) normalsStream).1 = true
    ∧ (doLoad FloatModel.integral (Loader.fresh Int) normalsStream).2.1.m_normals.length
        = vertexCount (parseHeader (Loader.fresh Int) normalsStream).2.1.m_elements
    ∧ vertexCount (parseHeader (Loader.fresh Int) normalsStream).2.1.m_elements = 3
    ∧ (doLoad FloatModel.integral (Loader.fresh Int) normalsStream).2.1.m_normals.length
        = (doLoad FloatModel.integral (Loader.fresh Int) normalsStream).2.1.m_points.length
    ∧ (((doLoad FloatModel.integral (Loader.fresh Int) normalsStream).2.1.m_normals.drop
          (vertexCount [])).take (1 : Int).toNat) = List.replicate (1 : Int).toNat ⟨0, 0, 0⟩
    ∧ (doLoad FloatModel.integral (Loader.fresh Int) normalsStream).2.1.m_normals
        = [⟨0, 0, 0⟩, ⟨0, 7, 0⟩, ⟨0, 9, 0⟩] :=
  have h := C5_normals_for_all_vertices FloatModel.integral normalsStream
    (parseHeader (Loader.fresh Int) normalsStream).2.1
    (parseHeader (Loader.fresh Int) normalsStream).2.2
    (by decide) (by unfold declaresRole; decide)
  ⟨h.1, h.2.1, by decide, h.2.2.2.1,
    h.2.2.2.2 []
      { type := ElementVertex
        count := 1
        properties := [{ type := PropertyX, dataType := Float32 }] }
      [{ type := ElementFace
         count := 0
         properties := [{ type := PropertyNormalX, dataType := Float32 }] },
       { type := ElementVertex
         count := 2
         properties :=
           [{ type := PropertyX, dataType := Float32 },
            { type := PropertyNormalY, dataType := Float32 }] }]
      (by decide) rfl (by decide),
    by decide⟩

/-! ## Failures of `parseHeader` -/

theorem parseHeader_false_iff {F : Type} (L : Loader F) (dev : Device) :
    (parseHeader L dev).1 = false ↔
      ((headerLoop { L with m_hasNormals := false, m_hasTexCoords := false }
          (QIODevice.lines dev)).1 = true
        ∨ (headerLoop { L with m_hasNormals := false, m_hasTexCoords := false }
          (QIODevice.lines dev)).2.1.m_format = FormatUnknown) := by
  unfold parseHeader
  rcases headerLoop { L with m_hasNormals := false, m_hasTexCoords := false }
      (QIODevice.lines dev) with ⟨b, L1, rest⟩
  cases b
  · by_cases h : L1.m_format = FormatUnknown <;> simp [h]
  · simp

theorem headerPart_append (pre ls : List (List Char))
    (h : ∀ p ∈ pre, firstToken p ≠ "end_header") :
    headerPart (pre ++ ls) = pre ++ headerPart ls := by
  induction pre with
  | nil => rfl
  | cons p pre ih =>
    have hp : firstToken p ≠ "end_header" := h p (List.mem_cons_self _ _)
    rw [List.cons_append, headerPart_cons _ _ hp, ih (fun q hq => h q (List.mem_cons_of_mem _ hq)),
      List.cons_append]

theorem headerPart_eq_self (ls : List (List Char))
    (h : ∀ p ∈ ls, firstToken p ≠ "end_header") : headerPart ls = ls := by
  have := headerPart_append ls [] h
  simpa [headerPart_nil] using this

/-- C6. On a loader with an empty element list, `parseHeader` returns `false` for
every stream in which a `property` line comes before any `element` line and before
any `end_header` line (whatever the other lines before and after it are). -/
theorem C6_misplaced_property {F : Type} (L : Loader F) (dev : Device)
    (pre : List (List Char)) (l : List Char) (post : List (List Char))
    (hL : L.m_elements = [])
    (hlines : QIODevice.lines dev = pre ++ l :: post)
    (hpre : ∀ p ∈ pre, firstToken p ≠ "end_header" ∧ firstToken p ≠ "element")
    (hl : firstToken l = "property") :
    (parseHeader L dev).1 = false := by
  have hne : firstToken l ≠ "end_header" := by rw [hl]; decide
  rw [parseHeader_false_iff, headerLoop_fails_iff, hlines,
    headerPart_append pre _ (fun p hp => (hpre p hp).1), headerPart_cons _ _ hne]
  exact Or.inr (Or.inl ⟨hL, pre, l, headerPart post, rfl, hl, fun p hp => (hpre p hp).2⟩)

/-- C6, on the header `format ascii / property float x / element vertex 1 /
end_header`. -/
theorem C6_misplaced_property_witness :
    (parseHeader (Loader.fresh Int)
      "format ascii\nproperty float x\nelement vertex 1\nend_header\n".toList).1 = false :=
  C6_misplaced_property (Loader.fresh Int)
    "format ascii\nproperty float x\nelement vertex 1\nend_header\n".toList
    ["format ascii\n".toList] "property float x\n".toList
    ["element vertex 1\n".toList, "end_header\n".toList]
    rfl (by decide) (by decide) (by decide)

/-- C7. For every loader and every stream in which a `format` line whose second token
is none of `ascii`, `binary_little_endian`, `binary_big_endian` comes before any
`end_header` line, `parseHeader` returns `false`, whatever lines follow. -/
theorem C7_unrecognised_format {F : Type} (L : Loader F) (dev : Device)
    (pre : List (List Char)) (l : List Char) (post : List (List Char))
    (hlines : QIODevice.lines dev = pre ++ l :: post)
    (hpre : ∀ p ∈ pre, firstToken p ≠ "end_header")
    (hl : firstToken l = "format")
    (hbad : ¬ recognisedFormat (secondToken l)) :
    (parseHeader L dev).1 = false := by
  have hne : firstToken l ≠ "end_header" := by rw [hl]; decide
  rw [parseHeader_false_iff, headerLoop_fails_iff, hlines,
    headerPart_append pre _ hpre, headerPart_cons _ _ hne]
  exact Or.inl ⟨l, by simp, hl, hbad⟩

/-- C7, on `format quack` and on a `format` line without a second token, each followed
by a well-formed rest of header. -/
theorem C7_unrecognised_format_witness :
    (parseHeader (Loader.fresh Int)
      "ply\nformat quack\nformat ascii\nelement vertex 1\nend_header\n".toList).1 = false
    ∧ (parseHeader (Loader.fresh Int) "ply\nformat\nformat ascii\nend_header\n".toList).1 = false :=
  ⟨C7_unrecognised_format (Loader.fresh Int)
      "ply\nformat quack\nformat ascii\nelement vertex 1\nend_header\n".toList
      ["ply\n".toList] "format quack\n".toList
      ["format ascii\n".toList, "element vertex 1\n".toList, "end_header\n".toList]
      (by decide) (by decide) (by decide) (by decide),
    C7_unrecognised_format (Loader.fresh Int) "ply\nformat\nformat ascii\nend_header\n".toList
      ["ply\n".toList] "format\n".toList ["format ascii\n".toList, "end_header\n".toList]
      (by decide) (by decide) (by decide) (by decide)⟩

/-- C8. A loader that has loaded the stream of the scenario keeps the format `ascii`;
`parseHeader` on it then returns `true` for the header `ply / end_header`, which has
no `format` line, and a second `doLoad` of such a stream succeeds. -/
theorem C8_stale_format_accepted {F : Type} (fm : FloatModel F) :
    (doLoad fm (Loader.fresh F) scenarioStream).2.1.m_format = FormatAscii
    ∧ (∀ l ∈ QIODevice.lines "ply\nend_header\n".toList, firstToken l ≠ "format")
    ∧ (parseHeader (doLoad fm (Loader.fresh F) scenarioStream).2.1
        "ply\nend_header\n".toList).1 = true
    ∧ (doLoad fm (doLoad fm (Loader.fresh F) scenarioStream).2.1
        "ply\nend_header\n".toList).1 = true
    ∧ (parseHeader (Loader.fresh F) "ply\nend_header\n".toList).1 = false :=
  ⟨rfl, by decide, rfl, rfl, rfl⟩

/-- C9, refuted: the stream `format ascii / element vertex 1 / property float x` has no
`end_header` line, and `parseHeader` on a fresh loader returns `true` for it. -/
theorem C9_unterminated_header_accepted :
    (∀ l ∈ QIODevice.lines "format ascii\nelement vertex 1\nproperty float x\n".toList,
        firstToken l ≠ "end_header")
    ∧ (parseHeader (Loader.fresh Int)
        "format ascii\nelement vertex 1\nproperty float x\n".toList).1 = true := by
  decide

/-- C9, amended. For every stream that reaches its end without a line whose first
token is `end_header`, `parseHeader` on a fresh loader returns `true` exactly when
every `format` line names a recognised format, there is a `format` line, and no
`property` line comes before every `element` line. -/
theorem C9_unterminated_header {F : Type} (dev : Device)
    (hno : ∀ l ∈ QIODevice.lines dev, firstToken l ≠ "end_header") :
    (parseHeader (Loader.fresh F) dev).1 = true ↔
      ((∀ l ∈ QIODevice.lines dev, firstToken l = "format" → recognisedFormat (secondToken l))
        ∧ (∃ l ∈ QIODevice.lines dev, firstToken l = "format")
        ∧ ¬ misplacedProperty (QIODevice.lines dev)) := by
  have key := parseHeader_false_iff (Loader.fresh F) dev
  rw [headerLoop_fails_iff, headerPart_eq_self _ hno] at key
  have hb : (parseHeader (Loader.fresh F) dev).1 = true ↔
      ¬ (parseHeader (Loader.fresh F) dev).1 = false := by
    cases (parseHeader (Loader.fresh F) dev).1 <;> simp
  rw [hb, key]
  simp only [Loader.fresh, true_and]
  constructor
  · intro h
    refine ⟨?_, ?_, ?_⟩
    · intro l hl hf
      by_contra hg
      exact h (Or.inl ⟨l, hl, hf, hg⟩)
    · by_contra hn
      exact h (Or.inr (Or.inr (fun l hl hfg => hn ⟨l, hl, hfg.1⟩)))
    · intro hm
      exact h (Or.inr (Or.inl hm))
  · rintro ⟨h1, ⟨l, hl, hf⟩, h3⟩ (⟨x, hx, hxf, hxb⟩ | hm | hall)
    · exact hxb (h1 x hx hxf)
    · exact h3 hm
    · exact hall l hl ⟨hf, h1 l hl hf⟩

/-- C9, amended, on the unterminated stream `format ascii / element vertex 1 /
property float x`: it is accepted. -/
theorem C9_unterminated_header_witness :
    (parseHeader (Loader.fresh Int)
      "format ascii\nelement vertex 1\nproperty float x\n".toList).1 = true :=
  (C9_unterminated_header "format ascii\nelement vertex 1\nproperty float x\n".toList
    (by decide)).mpr
    ⟨by decide, ⟨"format ascii\n".toList, by decide, by decide⟩, by
      rw [show QIODevice.lines "format ascii\nelement vertex 1\nproperty float x\n".toList
          = ["format ascii\n".toList, "element vertex 1\n".toList, "property float x\n".toList]
        from by decide]
      simp only [misplacedProperty_cons, misplacedProperty_nil]
      decide⟩

/-- C10. On a fresh loader, `parseHeader` returns `false` if and only if, among the
lines before the first `end_header` line (all lines when there is none), (a) some
`format` line names an unrecognised format, or (b) some `property` line has no
`element` line before it, or (c) no `format` line names a recognised format.  Nothing
else makes it fail: the header with an unknown element name, unknown property names
and unknown type names is accepted. -/
theorem C10_only_three_failures {F : Type} (dev : Device) :
    ((parseHeader (Loader.fresh F) dev).1 = false ↔
      ((∃ l ∈ headerPart (QIODevice.lines dev),
          firstToken l = "format" ∧ ¬ recognisedFormat (secondToken l))
        ∨ misplacedProperty (headerPart (QIODevice.lines dev))
        ∨ (∀ l ∈ headerPart (QIODevice.lines dev),
            ¬ (firstToken l = "format" ∧ recognisedFormat (secondToken l)))))
    ∧ (parseHeader (Loader.fresh F)
        ("format ascii\nelement blob 2\nproperty quux frob\n"
          ++ "property list foo bar baz\nend_header\n").toList).1 = true := by
  refine ⟨?_, rfl⟩
  rw [parseHeader_false_iff, headerLoop_fails_iff]
  simp [Loader.fresh]

/-! ## Results of `doLoad` and `parseMesh`, type names -/

theorem parseMesh_eq {F : Type} (fm : FloatModel F) (L : Loader F) (dev : Device) :
    parseMesh fm L dev =
      (true, (readElements fm (dataReader fm L.m_format) L.m_elements L dev).1,
        (readElements fm (dataReader fm L.m_format) L.m_elements L dev).2) := by
  rw [parseMesh]

theorem doLoad_eq {F : Type} (fm : FloatModel F) (L : Loader F) (dev : Device) :
    doLoad fm L dev =
      if (parseHeader L dev).1 = true then
        parseMesh fm (parseHeader L dev).2.1 (parseHeader L dev).2.2
      else (false, (parseHeader L dev).2.1, (parseHeader L dev).2.2) := by
  unfold doLoad
  rcases parseHeader L dev with ⟨b, L1, rest⟩
  cases b
  · rfl
  · simp only [if_true, parseMesh_eq]

theorem parseHeader_buffers {F : Type} (L : Loader F) (dev : Device) :
    (parseHeader L dev).2.1.m_points = L.m_points
    ∧ (parseHeader L dev).2.1.m_normals = L.m_normals
    ∧ (parseHeader L dev).2.1.m_texCoords = L.m_texCoords
    ∧ (parseHeader L dev).2.1.m_indices = L.m_indices := by
  rw [parseHeader_loader]
  exact headerLoop_buffers _ _

/-- C12. Whenever `doLoad` returns `false`, the four geometry buffers (positions,
normals, texture coordinates, indices) are what they were before the call. -/
theorem C12_no_partial_publish {F : Type} (fm : FloatModel F) (L : Loader F) (dev : Device)
    (h : (doLoad fm L dev).1 = false) :
    (doLoad fm L dev).2.1.m_points = L.m_points
    ∧ (doLoad fm L dev).2.1.m_normals = L.m_normals
    ∧ (doLoad fm L dev).2.1.m_texCoords = L.m_texCoords
    ∧ (doLoad fm L dev).2.1.m_indices = L.m_indices := by
  rw [doLoad_eq] at h ⊢
  by_cases hp : (parseHeader L dev).1 = true
  · rw [if_pos hp, parseMesh_eq] at h
    exact absurd h (by simp)
  · rw [if_neg hp]
    exact parseHeader_buffers L dev

/-- C12, on a loader that holds the geometry of the scenario and is given a stream with
an unrecognised format: the load fails and the three positions and three indices are
still there. -/
theorem C12_no_partial_publish_witness :
    (doLoad FloatModel.integral
        (doLoad FloatModel.integral (Loader.fresh Int) scenarioStream).2.1
        "format quack\nelement vertex 1\nproperty float x\nend_header\n7\n".toList).1 = false
    ∧ (doLoad FloatModel.integral
        (doLoad FloatModel.integral (Loader.fresh Int) scenarioStream).2.1
        "format quack\nelement vertex 1\nproperty float x\nend_header\n7\n".toList).2.1.m_points
      = [⟨0, 0, 0⟩, ⟨1, 0, 0⟩, ⟨0, 1, 0⟩]
    ∧ (doLoad FloatModel.integral
        (doLoad FloatModel.integral (Loader.fresh Int) scenarioStream).2.1
        "format quack\nelement vertex 1\nproperty float x\nend_header\n7\n".toList).2.1.m_indices
      = [0, 1, 2] :=
  have h := C12_no_partial_publish FloatModel.integral
    (doLoad FloatModel.integral (Loader.fresh Int) scenarioStream).2.1
    "format quack\nelement vertex 1\nproperty float x\nend_header\n7\n".toList (by decide)
  ⟨by decide, h.1.trans (by decide), h.2.2.2.trans (by decide)⟩

/-- C13. The method `parseMesh` returns `true` for every loader (schema) and every
device, also an empty or truncated one (it is a total function: every loop is bounded by
a count or a list), and `doLoad` returns `true` exactly when `parseHeader` does. -/
theorem C13_parseMesh_always_true {F : Type} (fm : FloatModel F) (L : Loader F) (dev : Device) :
    (parseMesh fm L dev).1 = true
    ∧ (parseMesh fm L []).1 = true
    ∧ (doLoad fm L dev).1 = (parseHeader L dev).1 := by
  refine ⟨by rw [parseMesh_eq], by rw [parseMesh_eq], ?_⟩
  rw [doLoad_eq]
  by_cases hp : (parseHeader L dev).1 = true
  · rw [if_pos hp, parseMesh_eq, hp]
  · rw [if_neg hp]
    simp only [Bool.not_eq_true] at hp
    rw [hp]

/-- C16. The function `toPlyDataType` maps `int8`/`char` to `Int8`, `uint8`/`uchar` to
`Uint8`, `int16`/`short` to `Int16`, `uint16`/`ushort` to `Uint16`, `int32`/`int` to
`Int32`, `uint32`/`uint` to `Uint32`, `float32`/`float` to `Float32`,
`float64`/`double` to `Float64`, `list` to `TypeList`, and a string to `TypeUnknown`
exactly when it is none of these seventeen names (so the empty string and `INT8`,
`Float`, `LIST` are unknown). -/
theorem C16_toPlyDataType_table :
    toPlyDataType "int8" = DataType.Int8 ∧ toPlyDataType "char" = DataType.Int8
    ∧ toPlyDataType "uint8" = DataType.Uint8 ∧ toPlyDataType "uchar" = DataType.Uint8
    ∧ toPlyDataType "int16" = DataType.Int16 ∧ toPlyDataType "short" = DataType.Int16
    ∧ toPlyDataType "uint16" = DataType.Uint16 ∧ toPlyDataType "ushort" = DataType.Uint16
    ∧ toPlyDataType "int32" = DataType.Int32 ∧ toPlyDataType "int" = DataType.Int32
    ∧ toPlyDataType "uint32" = DataType.Uint32 ∧ toPlyDataType "uint" = DataType.Uint32
    ∧ toPlyDataType "float32" = DataType.Float32 ∧ toPlyDataType "float" = DataType.Float32
    ∧ toPlyDataType "float64" = DataType.Float64 ∧ toPlyDataType "double" = DataType.Float64
    ∧ toPlyDataType "list" = DataType.TypeList
    ∧ (∀ typeName : String, toPlyDataType typeName = DataType.TypeUnknown ↔
        typeName ∉ ["int8", "char", "uint8", "uchar", "int16", "short", "uint16", "ushort",
          "int32", "int", "uint32", "uint", "float32", "float", "float64", "double", "list"])
    ∧ toPlyDataType "" = DataType.TypeUnknown ∧ toPlyDataType "INT8" = DataType.TypeUnknown
    ∧ toPlyDataType "Float" = DataType.TypeUnknown
    ∧ toPlyDataType "LIST" = DataType.TypeUnknown := by
  repeat' apply And.intro
  all_goals try decide
  intro typeName
  unfold toPlyDataType
  simp only [List.mem_cons, List.mem_singleton, List.not_mem_nil, or_false, not_or]
  constructor
  · intro h
    split_ifs at h with h1 h2 h3 h4 h5 h6 h7 h8 h9
    simp only [not_or] at h1 h2 h3 h4 h5 h6 h7 h8
    exact ⟨h1.1, h1.2, h2.1, h2.2, h3.1, h3.2, h4.1, h4.2, h5.1, h5.2, h6.1, h6.2, h7.1, h7.2,
      h8.1, h8.2, h9⟩
  · rintro ⟨a1, a2, a3, a4, a5, a6, a7, a8, a9, a10, a11, a12, a13, a14, a15, a16, a17⟩
    simp [a1, a2, a3, a4, a5, a6, a7, a8, a9, a10, a11, a12, a13, a14, a15, a16, a17]

/-! ## Binary fields and the value of a Uint32 -/

theorem toNat_ofNat_byte (b : Nat) (h : b < 256) : (Char.ofNat b).toNat % 256 = b := by
  have hv : b.isValidChar := Or.inl (by omega)
  have : (Char.ofNat b).toNat = b := by
    unfold Char.ofNat
    rw [dif_pos hv]
    simp [Char.ofNatAux, Char.toNat, UInt32.toNat]
  rw [this, Nat.mod_eq_of_lt h]

theorem bytesLE_length : ∀ (len v : Nat), (bytesLE len v).length = len
  | 0, _ => rfl
  | len + 1, v => by rw [bytesLE, List.length_cons, bytesLE_length len]

theorem bytesLE_lt : ∀ (len v : Nat), ∀ b ∈ bytesLE len v, b < 256
  | 0, _ => by intro b hb; simp [bytesLE] at hb
  | len + 1, v => by
    intro b hb
    rw [bytesLE, List.mem_cons] at hb
    rcases hb with rfl | hb
    · exact Nat.mod_lt _ (by decide)
    · exact bytesLE_lt len _ b hb

theorem fieldBytes_length (order : ByteOrder) (len v : Nat) :
    (fieldBytes order len v).length = len := by
  cases order <;> simp [fieldBytes, bytesLE_length]

theorem fieldBytes_lt (order : ByteOrder) (len v : Nat) :
    ∀ b ∈ fieldBytes order len v, b < 256 := by
  intro b hb
  cases order
  · rw [fieldBytes, List.mem_reverse] at hb
    exact bytesLE_lt len v b hb
  · exact bytesLE_lt len v b hb

theorem encodeField_length (order : ByteOrder) (len v : Nat) :
    (encodeField order len v).length = len := by
  rw [encodeField, List.length_map, fieldBytes_length]

theorem fromBytes_bytesLE : ∀ (len v : Nat),
    fromBytes ByteOrder.LittleEndian (bytesLE len v) = v % 256 ^ len
  | 0, v => by simp [bytesLE, fromBytes, Nat.mod_one]
  | len + 1, v => by
    have ih := fromBytes_bytesLE len (v / 256)
    simp only [fromBytes] at ih ⊢
    rw [bytesLE, List.foldr_cons, ih, pow_succ', Nat.mod_mul]
    ring

theorem fromBytes_fieldBytes (order : ByteOrder) (len v : Nat) :
    fromBytes order (fieldBytes order len v) = v % 256 ^ len := by
  cases order
  · rw [← fromBytes_bytesLE]
    simp only [fieldBytes, fromBytes, List.foldl_reverse]
  · exact fromBytes_bytesLE len v

theorem map_byte_ofNat (bs : List Nat) (h : ∀ b ∈ bs, b < 256) :
    (bs.map Char.ofNat).map (fun c => c.toNat % 256) = bs := by
  induction bs with
  | nil => rfl
  | cons b bs ih =>
    rw [List.map_cons, List.map_cons, toNat_ofNat_byte b (h b (List.mem_cons_self _ _)),
      ih (fun x hx => h x (List.mem_cons_of_mem _ hx))]

/-- Reading a field of `len` bytes in the byte order it was written in gives its value
modulo `256 ^ len` and leaves what follows the field. -/
theorem readBits_encodeField (order : ByteOrder) (len v : Nat) (rest : Device) :
    readBits order len (encodeField order len v ++ rest) = (v % 256 ^ len, rest) := by
  have hl : len ≤ (encodeField order len v ++ rest).length := by
    rw [List.length_append, encodeField_length]; omega
  have ht : (encodeField order len v ++ rest).take len = encodeField order len v := by
    rw [List.take_left' (encodeField_length order len v)]
  have hd : (encodeField order len v ++ rest).drop len = rest := by
    rw [List.drop_left' (encodeField_length order len v)]
  unfold readBits readBlock
  rw [if_pos hl, ht, hd]
  show (fromBytes order ((encodeField order len v).map _), rest) = _
  rw [encodeField, map_byte_ofNat _ (fieldBytes_lt order len v), fromBytes_fieldBytes]

theorem toInt32_of_lt (v : Nat) (h : v < 2147483648) : toInt32 (v : Int) = v := by
  unfold toInt32
  have h1 : (v : Int) % 4294967296 = v := by omega
  simp only [h1]
  rw [if_pos (by omega)]

theorem toInt32_of_ge (v : Nat) (h1 : 2147483648 ≤ v) (h2 : v < 4294967296) :
    toInt32 (v : Int) = (v : Int) - 4294967296 := by
  unfold toInt32
  have h3 : (v : Int) % 4294967296 = v := by omega
  simp only [h3]
  rw [if_neg (by omega)]

theorem toUInt32_toInt32 (v : Nat) (h : v < 4294967296) : toUInt32 (toInt32 (v : Int)) = v := by
  unfold toUInt32
  by_cases hv : v < 2147483648
  · rw [toInt32_of_lt v hv]; omega
  · rw [toInt32_of_ge v (by omega) h]; omega

theorem readIntValue_Uint32 {F : Type} (fm : FloatModel F) (order : ByteOrder) (dev : Device) :
    BinaryPlyDataReader.readIntValue fm order DataType.Uint32 dev =
      (toInt32 ((readBits order 4 dev).1 : Nat), (readBits order 4 dev).2) := by
  rw [BinaryPlyDataReader.readIntValue, BinaryPlyDataReader.readValue]

/-- C15, refuted: the four bytes `ff ff ff ff` encode the `Uint32` value `2 ^ 32 - 1`,
and `readIntValue(Uint32)` returns `-1` for them, in both byte orders. -/
theorem C15_uint32_wraps :
    BinaryPlyDataReader.readIntValue FloatModel.integral ByteOrder.LittleEndian DataType.Uint32
        (encodeField ByteOrder.LittleEndian 4 4294967295) = (-1, [])
    ∧ BinaryPlyDataReader.readIntValue FloatModel.integral ByteOrder.BigEndian DataType.Uint32
        (encodeField ByteOrder.BigEndian 4 4294967295) = (-1, [])
    ∧ encodeField ByteOrder.LittleEndian 4 4294967295
        = [Char.ofNat 255, Char.ofNat 255, Char.ofNat 255, Char.ofNat 255] := by
  decide

/-- C15, amended. For every value `v` with `0 ≤ v < 2 ^ 32` encoded as a 4-byte field in
the byte order of the reader, `readIntValue(Uint32)` consumes the field and returns `v`
reduced to a signed 32-bit `int`: `v` itself when `v < 2 ^ 31`, and `v - 2 ^ 32` when
`v ≥ 2 ^ 31`; the conversion of the result to `unsigned int` gives `v` back. -/
theorem C15_uint32_as_int {F : Type} (fm : FloatModel F) (order : ByteOrder) (v : Nat)
    (rest : Device) (h : v < 4294967296) :
    BinaryPlyDataReader.readIntValue fm order DataType.Uint32 (encodeField order 4 v ++ rest)
      = (toInt32 (v : Int), rest)
    ∧ (v < 2147483648 → toInt32 (v : Int) = v)
    ∧ (2147483648 ≤ v → toInt32 (v : Int) = (v : Int) - 4294967296)
    ∧ toUInt32 (toInt32 (v : Int)) = v := by
  refine ⟨?_, toInt32_of_lt v, fun h1 => toInt32_of_ge v h1 h, toUInt32_toInt32 v h⟩
  rw [readIntValue_Uint32, readBits_encodeField]
  have : v % 256 ^ 4 = v := Nat.mod_eq_of_lt (by norm_num; exact h)
  rw [this]

/-- C15, amended, at `v = 3000000000` in big-endian order: the result is
`3000000000 - 2 ^ 32 = -1294967296`. -/
theorem C15_uint32_as_int_witness :
    BinaryPlyDataReader.readIntValue FloatModel.integral ByteOrder.BigEndian DataType.Uint32
        (encodeField ByteOrder.BigEndian 4 3000000000 ++ []) = (-1294967296, []) :=
  (C15_uint32_as_int FloatModel.integral ByteOrder.BigEndian 3000000000 [] (by decide)).1.trans
    (by decide)

/-! ## Values of unknown type -/

theorem skipWhiteSpace_length (s : List Char) :
    (QTextStream.skipWhiteSpace s).length ≤ s.length := by
  induction s with
  | nil => simp [QTextStream.skipWhiteSpace]
  | cons c cs ih =>
    rw [QTextStream.skipWhiteSpace]
    split_ifs
    · exact Nat.le_succ_of_le ih
    · exact Nat.le_refl _

theorem scanDigits_length (base : Nat) :
    ∀ (s : List Char) (val nd : Nat),
      (QTextStream.scanDigits base s val nd).2.2.length ≤ s.length := by
  intro s
  induction s with
  | nil => intro val nd; simp [QTextStream.scanDigits]
  | cons c cs ih =>
    intro val nd
    rw [QTextStream.scanDigits]
    cases QTextStream.digitValue base c with
    | none => exact Nat.le_refl _
    | some d => exact Nat.le_succ_of_le (ih _ _)

theorem getDecimal_cons (sign : Char) (t : List Char) :
    QTextStream.getDecimal (sign :: t) =
      if sign = '-' ∨ sign = '+' then
        if (QTextStream.scanDigits 10 t 0 0).2.1 = 0 then
          (none, (QTextStream.scanDigits 10 t 0 0).2.2)
        else if sign = '-' ∧ 0 < (QTextStream.scanDigits 10 t 0 0).1
            ∧ (QTextStream.scanDigits 10 t 0 0).1 < 9223372036854775808 then
          (some (18446744073709551616 - (QTextStream.scanDigits 10 t 0 0).1),
            (QTextStream.scanDigits 10 t 0 0).2.2)
        else ((some (QTextStream.scanDigits 10 t 0 0).1), (QTextStream.scanDigits 10 t 0 0).2.2)
      else
        match QTextStream.digitValue 10 sign with
        | none => (none, sign :: t)
        | some d =>
          (some (QTextStream.scanDigits 10 t d 1).1, (QTextStream.scanDigits 10 t d 1).2.2) := by
  rfl

theorem getDecimal_length (s : List Char) :
    (QTextStream.getDecimal s).2.length ≤ s.length
    ∧ ((QTextStream.getDecimal s).1.isSome = true →
        (QTextStream.getDecimal s).2.length < s.length) := by
  cases s with
  | nil => simp [QTextStream.getDecimal]
  | cons sign t =>
    rw [getDecimal_cons]
    have h1 := scanDigits_length 10 t 0 0
    by_cases hs : sign = '-' ∨ sign = '+'
    · rw [if_pos hs]
      split_ifs <;> simp only [List.length_cons] <;> constructor <;> intros <;> omega
    · rw [if_neg hs]
      cases hd : QTextStream.digitValue 10 sign with
      | none => simp
      | some d =>
        have h2 := scanDigits_length 10 t d 1
        simp only [List.length_cons]
        constructor <;> intros <;> omega

theorem getMarked_eq (base : Nat) (s t2 : List Char) :
    QTextStream.getMarked base s t2 =
      if (QTextStream.scanDigits base t2 0 0).2.1 = 0 then (none, s)
      else (some (QTextStream.scanDigits base t2 0 0).1, (QTextStream.scanDigits base t2 0 0).2.2) := by
  rw [QTextStream.getMarked]

theorem getMarked_length (base : Nat) (s t2 : List Char) (h : t2.length < s.length) :
    (QTextStream.getMarked base s t2).2.length ≤ s.length
    ∧ ((QTextStream.getMarked base s t2).1.isSome = true →
        (QTextStream.getMarked base s t2).2.length < s.length) := by
  rw [getMarked_eq]
  have hl := scanDigits_length base t2 0 0
  split_ifs
  · simp
  · simp only
    constructor <;> intros <;> omega

theorem getNumber_eq (s : List Char) :
    QTextStream.getNumber s =
      match QTextStream.skipWhiteSpace s with
      | [] => (none, [])
      | ch :: t =>
        if ch = '0' then
          match t with
          | [] => (some 0, [])
          | ch2 :: t2 =>
            if ch2 = 'x' ∨ ch2 = 'X' then QTextStream.getMarked 16 (ch :: t) t2
            else if ch2 = 'b' ∨ ch2 = 'B' then QTextStream.getMarked 2 (ch :: t) t2
            else if (QTextStream.digitValue 8 ch2).isSome then
              if (QTextStream.scanDigits 8 t 0 0).2.1 = 0 then (none, ch :: t)
              else (some (QTextStream.scanDigits 8 t 0 0).1, (QTextStream.scanDigits 8 t 0 0).2.2)
            else QTextStream.getDecimal (ch :: t)
        else if ch = '-' ∨ ch = '+' ∨ (QTextStream.digitValue 10 ch).isSome then
          QTextStream.getDecimal (ch :: t)
        else (none, ch :: t) := by
  rfl

/-- The integer scanner never moves backwards, and it advances when it detects a
number. -/
theorem getNumber_length (s : List Char) :
    (QTextStream.getNumber s).2.length ≤ s.length
    ∧ ((QTextStream.getNumber s).1.isSome = true →
        (QTextStream.getNumber s).2.length < s.length) := by
  have hw := skipWhiteSpace_length s
  rw [getNumber_eq]
  cases hsk : QTextStream.skipWhiteSpace s with
  | nil => simp
  | cons ch t =>
    rw [hsk, List.length_cons] at hw
    simp only
    by_cases h0 : ch = '0'
    · rw [if_pos h0]
      cases t with
      | nil =>
        simp only [List.length_nil] at hw ⊢
        constructor <;> intros <;> omega
      | cons ch2 t2 =>
        simp only
        have ht2 : t2.length < (ch :: ch2 :: t2).length := by
          simp only [List.length_cons]; omega
        have hlen : (ch :: ch2 :: t2).length = (ch2 :: t2).length + 1 := rfl
        have hm16 := getMarked_length 16 (ch :: ch2 :: t2) t2 ht2
        have hm2 := getMarked_length 2 (ch :: ch2 :: t2) t2 ht2
        have hd := getDecimal_length (ch :: ch2 :: t2)
        have hl := scanDigits_length 8 (ch2 :: t2) 0 0
        simp only [List.length_cons] at hw hm16 hm2 hd hl ht2 hlen
        split_ifs
        · exact ⟨by omega, fun h => by have := hm16.2 h; omega⟩
        · exact ⟨by omega, fun h => by have := hm2.2 h; omega⟩
        · simp only [List.length_cons]
          exact ⟨by omega, fun h => by simp at h⟩
        · simp only
          constructor <;> intros <;> omega
        · exact ⟨by omega, fun h => by have := hd.2 h; omega⟩
    · rw [if_neg h0]
      have hd := getDecimal_length (ch :: t)
      simp only [List.length_cons] at hd
      split_ifs
      · exact ⟨by omega, fun h => by have := hd.2 h; omega⟩
      · simp only [List.length_cons]
        exact ⟨by omega, fun h => by simp at h⟩

theorem skipDigits_length (s : List Char) : (QTextStream.skipDigits s).length ≤ s.length := by
  induction s with
  | nil => simp [QTextStream.skipDigits]
  | cons c cs ih =>
    rw [QTextStream.skipDigits]
    split_ifs
    · exact Nat.le_succ_of_le ih
    · exact Nat.le_refl _

theorem scanReal_length :
    ∀ (s : List Char) (state : Nat) (buf : List Char),
      (QTextStream.scanReal s state buf).2.length + (QTextStream.scanReal s state buf).1.length
        ≤ s.length + buf.length := by
  intro s
  induction s with
  | nil => intro state buf; simp [QTextStream.scanReal]
  | cons c cs ih =>
    intro state buf
    rw [QTextStream.scanReal]
    split_ifs with h1 h2
    · have := skipDigits_length (c :: cs)
      simp only [List.length_cons] at this ⊢
      omega
    · simp only [List.length_cons]
      omega
    · have := ih ((QTextStream.realTable.getD state []).getD (QTextStream.realInput c) 0)
        (buf ++ [c])
      simp only [List.length_append, List.length_cons, List.length_nil] at this ⊢
      omega

theorem readFloat_rest {F : Type} (fm : FloatModel F) (s : List Char) :
    (QTextStream.readFloat fm s).2
      = (QTextStream.scanReal (QTextStream.skipWhiteSpace s) 0 []).2 := by
  rw [QTextStream.readFloat]
  rcases QTextStream.scanReal (QTextStream.skipWhiteSpace s) 0 [] with ⟨buf, rest⟩
  cases buf <;> rfl

theorem readInt_rest (s : List Char) :
    (QTextStream.readInt s).2 = (QTextStream.getNumber s).2 := by
  rw [QTextStream.readInt]
  rcases QTextStream.getNumber s with ⟨v, rest⟩
  cases v <;> rfl

theorem readValue_unknown {T : Type} (ofInt : Int → T) (ofFloat ofDouble : Nat → T)
    (order : ByteOrder) (dev : Device) :
    BinaryPlyDataReader.readValue ofInt ofFloat ofDouble order DataType.TypeUnknown dev
      = (ofInt 0, dev) := rfl

/-- C14, refuted: on the non-exhausted device `abc` a read of type `TypeUnknown` leaves
the device where it is, with both binary readers (integer and float read) and with the
ASCII reader (no number is detected); and in the binary stream with header `property
quux x / property uchar y` and body `07 09` nothing is consumed for `x`: the byte
`07` is read as `y` and `09` is left. -/
theorem C14_unknown_type_not_consumed :
    (BinaryPlyDataReader.readIntValue FloatModel.integral ByteOrder.LittleEndian
        DataType.TypeUnknown "abc".toList).2 = "abc".toList
    ∧ (BinaryPlyDataReader.readIntValue FloatModel.integral ByteOrder.BigEndian
        DataType.TypeUnknown "abc".toList).2 = "abc".toList
    ∧ (BinaryPlyDataReader.readFloatValue FloatModel.integral ByteOrder.LittleEndian
        DataType.TypeUnknown "abc".toList).2 = "abc".toList
    ∧ (BinaryPlyDataReader.readFloatValue FloatModel.integral ByteOrder.BigEndian
        DataType.TypeUnknown "abc".toList).2 = "abc".toList
    ∧ ((AsciiPlyDataReader FloatModel.integral).readIntValue
        DataType.TypeUnknown "abc".toList).2 = "abc".toList
    ∧ ((AsciiPlyDataReader FloatModel.integral).readFloatValue
        DataType.TypeUnknown "abc".toList).2 = "abc".toList
    ∧ (doLoad FloatModel.integral (Loader.fresh Int) unknownTypeStream).2.1.m_points
        = [⟨0, 7, 0⟩]
    ∧ (doLoad FloatModel.integral (Loader.fresh Int) unknownTypeStream).2.2 = [Char.ofNat 9] := by
  decide

/-- C14, amended. For a value of data type `TypeUnknown`: the ASCII reader ignores the
data type, so it reads exactly as for any other type, and the device advances whenever
a number (for a scalar property: a real-number lexeme) is detected; both binary readers
consume nothing, return 0 and leave the device where it is. -/
theorem C14_unknown_type_reads {F : Type} (fm : FloatModel F) (dev : Device) :
    (∀ type : DataType,
        (AsciiPlyDataReader fm).readIntValue DataType.TypeUnknown dev
          = (AsciiPlyDataReader fm).readIntValue type dev
        ∧ (AsciiPlyDataReader fm).readFloatValue DataType.TypeUnknown dev
          = (AsciiPlyDataReader fm).readFloatValue type dev)
    ∧ ((QTextStream.getNumber dev).1.isSome = true →
        ((AsciiPlyDataReader fm).readIntValue DataType.TypeUnknown dev).2.length < dev.length)
    ∧ ((QTextStream.scanReal (QTextStream.skipWhiteSpace dev) 0 []).1 ≠ [] →
        ((AsciiPlyDataReader fm).readFloatValue DataType.TypeUnknown dev).2.length < dev.length)
    ∧ (∀ order : ByteOrder,
        BinaryPlyDataReader.readIntValue fm order DataType.TypeUnknown dev = (0, dev)
        ∧ BinaryPlyDataReader.readFloatValue fm order DataType.TypeUnknown dev
          = (fm.ofInt 0, dev)) := by
  refine ⟨fun _ => ⟨rfl, rfl⟩, ?_, ?_, fun order => ⟨?_, ?_⟩⟩
  · intro h
    show (QTextStream.readInt dev).2.length < dev.length
    rw [readInt_rest]
    exact (getNumber_length dev).2 h
  · intro h
    show (QTextStream.readFloat fm dev).2.length < dev.length
    rw [readFloat_rest]
    have h1 := scanReal_length (QTextStream.skipWhiteSpace dev) 0 []
    have h2 := skipWhiteSpace_length dev
    have h3 : 0 < (QTextStream.scanReal (QTextStream.skipWhiteSpace dev) 0 []).1.length :=
      List.length_pos.mpr h
    simp only [List.length_nil] at h1
    omega
  · rw [BinaryPlyDataReader.readIntValue, readValue_unknown]
    rfl
  · rw [BinaryPlyDataReader.readFloatValue, readValue_unknown]

/-- C14, amended, on the ASCII text ` 12 7` read with type `TypeUnknown`: the number 12
is detected and the device advances to ` 7`. -/
theorem C14_unknown_type_reads_witness :
    ((AsciiPlyDataReader FloatModel.integral).readIntValue DataType.TypeUnknown
        " 12 7".toList).2.length < " 12 7".toList.length
    ∧ (AsciiPlyDataReader FloatModel.integral).readIntValue DataType.TypeUnknown " 12 7".toList
        = (12, " 7".toList) :=
  ⟨(C14_unknown_type_reads FloatModel.integral " 12 7".toList).2.1 (by decide), by decide⟩

/-! ## Schema and flags built by the header loop -/

theorem secondToken_eq (l : List Char) : secondToken l = tokenAt 1 l := rfl

theorem lineProperty_type (l : List Char) :
    (lineProperty l).type = propertyRole (propertyName l) := by
  unfold lineProperty headerProperty propertyName tokenAt tokenAt tokenAt tokenAt tokenAt
    afterFirstToken
  rcases QTextStream.readString l with ⟨t0, s0⟩
  simp only
  rcases QTextStream.readString s0 with ⟨t1, s1⟩
  simp only
  by_cases h : toPlyDataType t1 = DataType.TypeList
  · rw [if_pos h, if_pos h]
  · rw [if_neg h, if_neg h]

theorem headerLine_format_named {F : Type} (L : Loader F) (l : List Char)
    (h : firstToken l = "format") (hg : recognisedFormat (secondToken l)) :
    headerLine L l = HeaderStep.next { L with m_format := formatOfName (secondToken l) } := by
  have h1 : firstToken l ≠ "end_header" := by rw [h]; decide
  unfold recognisedFormat at hg
  unfold secondToken at hg ⊢
  rw [headerLine_eq, if_neg h1, if_pos h, headerFormat_eq, formatOfName]
  by_cases c1 : (QTextStream.readString (afterFirstToken l)).1 = "ascii"
  · rw [if_pos c1, if_pos c1]
  · by_cases c2 : (QTextStream.readString (afterFirstToken l)).1 = "binary_little_endian"
    · rw [if_neg c1, if_pos c2, if_neg c1, if_pos c2]
    · have c3 : (QTextStream.readString (afterFirstToken l)).1 = "binary_big_endian" := by
        rcases hg with hg | hg | hg
        · exact absurd hg c1
        · exact absurd hg c2
        · exact hg
      rw [if_neg c1, if_neg c2, if_pos c3, if_neg c1, if_neg c2, if_pos c3]

theorem processedLines_cons_end (started : Bool) (l : List Char) (ls : List (List Char))
    (h : firstToken l = "end_header") : processedLines started (l :: ls) = [] := by
  rw [processedLines, if_pos h]

theorem processedLines_cons_format (started : Bool) (l : List Char) (ls : List (List Char))
    (h : firstToken l = "format") :
    processedLines started (l :: ls) =
      if recognisedFormat (secondToken l) then l :: processedLines started ls else [] := by
  have h1 : firstToken l ≠ "end_header" := by rw [h]; decide
  rw [processedLines, if_neg h1, if_pos h]

theorem processedLines_cons_element (started : Bool) (l : List Char) (ls : List (List Char))
    (h : firstToken l = "element") :
    processedLines started (l :: ls) = l :: processedLines true ls := by
  have h1 : firstToken l ≠ "end_header" := by rw [h]; decide
  have h2 : firstToken l ≠ "format" := by rw [h]; decide
  rw [processedLines, if_neg h1, if_neg h2, if_pos h]

theorem processedLines_cons_property (started : Bool) (l : List Char) (ls : List (List Char))
    (h : firstToken l = "property") :
    processedLines started (l :: ls) =
      if started = true then l :: processedLines true ls else [] := by
  have h1 : firstToken l ≠ "end_header" := by rw [h]; decide
  have h2 : firstToken l ≠ "format" := by rw [h]; decide
  have h3 : firstToken l ≠ "element" := by rw [h]; decide
  rw [processedLines, if_neg h1, if_neg h2, if_neg h3, if_pos h]

theorem processedLines_cons_other (started : Bool) (l : List Char) (ls : List (List Char))
    (h1 : firstToken l ≠ "end_header") (h2 : firstToken l ≠ "format")
    (h3 : firstToken l ≠ "element") (h4 : firstToken l ≠ "property") :
    processedLines started (l :: ls) = l :: processedLines started ls := by
  rw [processedLines, if_neg h1, if_neg h2, if_neg h3, if_neg h4]

theorem leadProperties_cons (l : List Char) (ls : List (List Char)) :
    leadProperties (l :: ls) =
      if firstToken l = "element" then []
      else if firstToken l = "property" then lineProperty l :: leadProperties ls
      else leadProperties ls := by
  unfold leadProperties
  by_cases h3 : firstToken l = "element"
  · simp [h3]
  · by_cases h4 : firstToken l = "property"
    · simp [h3, h4]
    · simp [h3, h4]

theorem appendToLast_append (p : Property) (e : Element) :
    ∀ es : List Element,
      appendToLast p (es ++ [e]) = es ++ [{ e with properties := e.properties ++ [p] }] := by
  intro es
  induction es with
  | nil => rfl
  | cons x xs ih =>
    cases xs with
    | nil => rfl
    | cons y ys =>
      rw [List.cons_append, List.cons_append, appendToLast, ← List.cons_append, ih]
      rfl

theorem addProperties_append (es : List Element) (e : Element) :
    ∀ ps : List Property,
      addProperties (es ++ [e]) ps = es ++ [{ e with properties := e.properties ++ ps }] := by
  intro ps
  induction ps generalizing e with
  | nil => simp [addProperties]
  | cons p ps ih =>
    have h := ih { e with properties := e.properties ++ [p] }
    unfold addProperties at h ⊢
    rw [List.foldl_cons, appendToLast_append, h]
    simp

theorem addProperties_nil (ps : List Property) : addProperties [] ps = [] := by
  induction ps with
  | nil => rfl
  | cons p ps ih =>
    unfold addProperties at ih ⊢
    rw [List.foldl_cons]
    exact ih

/-- The loader the loop of `parseHeader` leaves, in terms of the lines it has worked
off. -/
theorem headerLoop_result {F : Type} (ls : List (List Char)) :
    ∀ L : Loader F,
      (headerLoop L ls).2.1.m_elements =
          addProperties L.m_elements
              (leadProperties (processedLines (decide (L.m_elements ≠ [])) ls))
            ++ schemaOf (processedLines (decide (L.m_elements ≠ [])) ls)
      ∧ (headerLoop L ls).2.1.m_hasNormals =
          (L.m_hasNormals
            || declaresName isNormalRole (processedLines (decide (L.m_elements ≠ [])) ls))
      ∧ (headerLoop L ls).2.1.m_hasTexCoords =
          (L.m_hasTexCoords
            || declaresName isTexCoordRole (processedLines (decide (L.m_elements ≠ [])) ls))
      ∧ (headerLoop L ls).2.1.m_format =
          formatAfter L.m_format (processedLines (decide (L.m_elements ≠ [])) ls)
      ∧ ((headerLoop L ls).1 = false →
          processedLines (decide (L.m_elements ≠ [])) ls = headerPart ls) := by
  induction ls with
  | nil =>
    intro L
    simp [headerLoop, processedLines, leadProperties, schemaOf, addProperties, declaresName,
      formatAfter, headerPart_nil]
  | cons l ls ih =>
    intro L
    by_cases h1 : firstToken l = "end_header"
    · simp [headerLoop, headerLine_end L l h1, processedLines_cons_end _ l ls h1,
        headerPart_cons_end l ls h1, leadProperties, schemaOf, addProperties, declaresName,
        formatAfter]
    · rw [headerPart_cons l ls h1]
      by_cases h2 : firstToken l = "format"
      · have h3 : firstToken l ≠ "element" := by rw [h2]; decide
        have h4 : firstToken l ≠ "property" := by rw [h2]; decide
        rw [processedLines_cons_format _ l ls h2]
        by_cases hg : recognisedFormat (secondToken l)
        · have step : headerLoop L (l :: ls) =
              headerLoop { L with m_format := formatOfName (secondToken l) } ls := by
            rw [headerLoop, headerLine_format_named L l h2 hg]
          have := ih { L with m_format := formatOfName (secondToken l) }
          simp only at this
          rw [step, if_pos hg, leadProperties_cons, if_neg h3, if_neg h4]
          obtain ⟨a, b, c, d, e⟩ := this
          refine ⟨?_, ?_, ?_, ?_, ?_⟩
          · rw [a, schemaOf, if_neg h3]
          · rw [b]; simp [declaresName, h4]
          · rw [c]; simp [declaresName, h4]
          · rw [d]; simp [formatAfter, h2]
          · intro hf; rw [e hf]
        · have step : headerLoop L (l :: ls) = (true, L, ls) := by
            rw [headerLoop, headerLine_format_bad L l h2 hg]
          rw [step, if_neg hg]
          simp [leadProperties, schemaOf, addProperties, declaresName, formatAfter]
      · by_cases h3 : firstToken l = "element"
        · have h4 : firstToken l ≠ "property" := by rw [h3]; decide
          have step : headerLoop L (l :: ls) =
              headerLoop
                { L with m_elements := L.m_elements ++ [headerElement (afterFirstToken l)] } ls := by
            rw [headerLoop, headerLine_element L l h3]
          have := ih { L with m_elements := L.m_elements ++ [headerElement (afterFirstToken l)] }
          simp only [ne_eq, List.append_eq_nil, List.cons_ne_self, and_false, not_false_eq_true,
            decide_True] at this
          rw [step, processedLines_cons_element _ l ls h3, leadProperties_cons, if_pos h3]
          obtain ⟨a, b, c, d, e⟩ := this
          refine ⟨?_, ?_, ?_, ?_, ?_⟩
          · rw [a, addProperties_append, headerElement_properties, schemaOf, if_pos h3]
            simp [addProperties, lineElement]
          · rw [b]; simp [declaresName, h4]
          · rw [c]; simp [declaresName, h4]
          · rw [d]; simp [formatAfter, h2]
          · intro hf; rw [e hf]
        · by_cases h4 : firstToken l = "property"
          · rw [processedLines_cons_property _ l ls h4]
            by_cases he : L.m_elements = []
            · have step : headerLoop L (l :: ls) = (true, L, ls) := by
                rw [headerLoop, headerLine_property_misplaced L l h4 he]
              rw [step]
              simp [he, leadProperties, schemaOf, addProperties, declaresName, formatAfter]
            · have step : headerLoop L (l :: ls) =
                  headerLoop
                    { L with
                      m_elements := appendToLast (headerProperty (afterFirstToken l)) L.m_elements
                      m_hasNormals :=
                        L.m_hasNormals || isNormalRole (headerProperty (afterFirstToken l)).type
                      m_hasTexCoords :=
                        L.m_hasTexCoords
                          || isTexCoordRole (headerProperty (afterFirstToken l)).type } ls := by
                rw [headerLoop, headerLine_property L l h4 he]
              have := ih
                { L with
                  m_elements := appendToLast (headerProperty (afterFirstToken l)) L.m_elements
                  m_hasNormals :=
                    L.m_hasNormals || isNormalRole (headerProperty (afterFirstToken l)).type
                  m_hasTexCoords :=
                    L.m_hasTexCoords
                      || isTexCoordRole (headerProperty (afterFirstToken l)).type }
              have hne := appendToLast_ne_nil (headerProperty (afterFirstToken l)) _ he
              simp only [ne_eq, hne, not_false_eq_true, decide_True] at this
              have hs : decide (L.m_elements ≠ []) = true := by simp [he]
              rw [step, hs, if_pos rfl, leadProperties_cons, if_neg h3, if_pos h4]
              obtain ⟨a, b, c, d, e⟩ := this
              have hty := lineProperty_type l
              unfold lineProperty at hty
              refine ⟨?_, ?_, ?_, ?_, ?_⟩
              · rw [a, schemaOf, if_neg h3]
                rfl
              · rw [b]; simp [declaresName, h4, hty, Bool.or_assoc]
              · rw [c]; simp [declaresName, h4, hty, Bool.or_assoc]
              · rw [d]; simp [formatAfter, h2]
              · intro hf; rw [e hf]
          · have step : headerLoop L (l :: ls) = headerLoop L ls := by
              rw [headerLoop, headerLine_other L l h1 h2 h3 h4]
            rw [step, processedLines_cons_other _ l ls h1 h2 h3 h4, leadProperties_cons,
              if_neg h3, if_neg h4]
            obtain ⟨a, b, c, d, e⟩ := ih L
            refine ⟨?_, ?_, ?_, ?_, ?_⟩
            · rw [a, schemaOf, if_neg h3]
            · rw [b]; simp [declaresName, h4]
            · rw [c]; simp [declaresName, h4]
            · rw [d]; simp [formatAfter, h2]
            · intro hf; rw [e hf]

theorem parseHeader_true_loop {F : Type} (L : Loader F) (dev : Device)
    (h : (parseHeader L dev).1 = true) :
    (headerLoop { L with m_hasNormals := false, m_hasTexCoords := false }
      (QIODevice.lines dev)).1 = false := by
  have key := parseHeader_false_iff L dev
  cases hb : (headerLoop { L with m_hasNormals := false, m_hasTexCoords := false }
      (QIODevice.lines dev)).1
  · rfl
  · have := key.mpr (Or.inl hb)
    rw [h] at this
    exact absurd this (by decide)

theorem isNormalRole_propertyRole (name : String) :
    isNormalRole (propertyRole name) = true ↔ name ∈ ["nx", "ny", "nz"] := by
  unfold propertyRole
  simp only [List.mem_cons, List.mem_singleton, List.not_mem_nil, or_false]
  constructor
  · intro h
    split_ifs at h with a1 a2 a3 a4 a5 a6 a7 a8 a9
    all_goals first
      | exact absurd h (by decide)
      | exact Or.inl a5
      | exact Or.inr (Or.inl a6)
      | exact Or.inr (Or.inr a7)
  · rintro (h | h | h) <;> subst h <;> decide

theorem isTexCoordRole_propertyRole (name : String) :
    isTexCoordRole (propertyRole name) = true ↔ name ∈ ["s", "t"] := by
  unfold propertyRole
  simp only [List.mem_cons, List.mem_singleton, List.not_mem_nil, or_false]
  constructor
  · intro h
    split_ifs at h with a1 a2 a3 a4 a5 a6 a7 a8 a9
    all_goals first
      | exact absurd h (by decide)
      | exact Or.inl a8
      | exact Or.inr a9
  · rintro (h | h) <;> subst h <;> decide

theorem declaresName_iff (r : PropertyType → Bool) (ls : List (List Char)) :
    declaresName r ls = true ↔
      ∃ l ∈ ls, firstToken l = "property" ∧ r (propertyRole (propertyName l)) = true := by
  unfold declaresName
  simp [List.any_eq_true]

/-- C17. The role of a property is determined by its name token (`vertex_index`, `x`,
`y`, `z`, `nx`, `ny`, `nz`, `s`, `t` give the nine roles, any other name the role
unknown; for a list property the name is the token after the names of the size type and
of the entry type), and after `parseHeader` returns, `m_hasNormals` is `true` if and
only if some `property` line the loop has worked off is named `nx`, `ny` or `nz`, and
`m_hasTexCoords` if and only if some such line is named `s` or `t`, whatever the flags
were before the call; when the header is accepted these are all the `property` lines
before the `end_header` line. -/
theorem C17_roles_and_flags {F : Type} (L : Loader F) (dev : Device) :
    (propertyRole "vertex_index" = PropertyVertexIndex ∧ propertyRole "x" = PropertyX
      ∧ propertyRole "y" = PropertyY ∧ propertyRole "z" = PropertyZ
      ∧ propertyRole "nx" = PropertyNormalX ∧ propertyRole "ny" = PropertyNormalY
      ∧ propertyRole "nz" = PropertyNormalZ ∧ propertyRole "s" = PropertyTextureU
      ∧ propertyRole "t" = PropertyTextureV)
    ∧ (∀ name : String, propertyRole name = PropertyUnknown ↔
        name ∉ ["vertex_index", "x", "y", "z", "nx", "ny", "nz", "s", "t"])
    ∧ (∀ l : List Char, (headerProperty (afterFirstToken l)).type = propertyRole (propertyName l))
    ∧ (∀ (l : List Char) (M : Loader F), firstToken l = "property" → M.m_elements ≠ [] →
        headerLine M l =
          HeaderStep.next
            { M with
              m_elements := appendToLast (headerProperty (afterFirstToken l)) M.m_elements
              m_hasNormals := M.m_hasNormals || isNormalRole (propertyRole (propertyName l))
              m_hasTexCoords :=
                M.m_hasTexCoords || isTexCoordRole (propertyRole (propertyName l)) })
    ∧ ((parseHeader L dev).2.1.m_hasNormals = true ↔
        ∃ l ∈ processedLines (decide (L.m_elements ≠ [])) (QIODevice.lines dev),
          firstToken l = "property" ∧ propertyName l ∈ ["nx", "ny", "nz"])
    ∧ ((parseHeader L dev).2.1.m_hasTexCoords = true ↔
        ∃ l ∈ processedLines (decide (L.m_elements ≠ [])) (QIODevice.lines dev),
          firstToken l = "property" ∧ propertyName l ∈ ["s", "t"])
    ∧ ((parseHeader L dev).1 = true →
        ((parseHeader L dev).2.1.m_hasNormals = true ↔
          ∃ l ∈ headerPart (QIODevice.lines dev),
            firstToken l = "property" ∧ propertyName l ∈ ["nx", "ny", "nz"])
        ∧ ((parseHeader L dev).2.1.m_hasTexCoords = true ↔
          ∃ l ∈ headerPart (QIODevice.lines dev),
            firstToken l = "property" ∧ propertyName l ∈ ["s", "t"])) := by
  have hty : ∀ l : List Char,
      (headerProperty (afterFirstToken l)).type = propertyRole (propertyName l) :=
    fun l => lineProperty_type l
  obtain ⟨_, b, c, _, e⟩ := headerLoop_result (QIODevice.lines dev)
    { L with m_hasNormals := false, m_hasTexCoords := false }
  simp only [Bool.false_or] at b c e
  have hn : (parseHeader L dev).2.1.m_hasNormals = true ↔
      ∃ l ∈ processedLines (decide (L.m_elements ≠ [])) (QIODevice.lines dev),
        firstToken l = "property" ∧ propertyName l ∈ ["nx", "ny", "nz"] := by
    rw [parseHeader_loader, b, declaresName_iff]
    simp only [isNormalRole_propertyRole]
  have ht : (parseHeader L dev).2.1.m_hasTexCoords = true ↔
      ∃ l ∈ processedLines (decide (L.m_elements ≠ [])) (QIODevice.lines dev),
        firstToken l = "property" ∧ propertyName l ∈ ["s", "t"] := by
    rw [parseHeader_loader, c, declaresName_iff]
    simp only [isTexCoordRole_propertyRole]
  refine ⟨by decide, ?_, hty, ?_, hn, ht, ?_⟩
  · intro name
    unfold propertyRole
    simp only [List.mem_cons, List.mem_singleton, List.not_mem_nil, or_false, not_or]
    constructor
    · intro h
      split_ifs at h with a1 a2 a3 a4 a5 a6 a7 a8 a9
      exact ⟨a1, a2, a3, a4, a5, a6, a7, a8, a9⟩
    · rintro ⟨a1, a2, a3, a4, a5, a6, a7, a8, a9⟩
      simp [a1, a2, a3, a4, a5, a6, a7, a8, a9]
  · intro l M hl hM
    rw [headerLine_property M l hl hM, hty l]
  · intro hok
    have hP := e (parseHeader_true_loop L dev hok)
    rw [hP] at hn ht
    exact ⟨hn, ht⟩

/-- C17, on a loader whose flags are both set and which is given the stream with
`nx` declared on a face element: after `parseHeader` the normal flag is set (by the
line `property float nx`) and the texture flag is not. -/
theorem C17_roles_and_flags_witness :
    (parseHeader { Loader.fresh Int with m_hasNormals := true, m_hasTexCoords := true }
        normalsStream).2.1.m_hasNormals = true
    ∧ (parseHeader { Loader.fresh Int with m_hasNormals := true, m_hasTexCoords := true }
        normalsStream).2.1.m_hasTexCoords = false :=
  have h := C17_roles_and_flags
    { Loader.fresh Int with m_hasNormals := true, m_hasTexCoords := true } normalsStream
  ⟨h.2.2.2.2.1.mpr ⟨"property float nx\n".toList, by decide, by decide, by decide⟩, by decide⟩

theorem leadProperties_append_element (A : List (List Char)) (e : List Char)
    (B : List (List Char)) (he : firstToken e = "element") :
    leadProperties (A ++ e :: B) = leadProperties A := by
  induction A with
  | nil => rw [List.nil_append, leadProperties_cons, if_pos he]; rfl
  | cons a A ih =>
    rw [List.cons_append, leadProperties_cons, leadProperties_cons, ih]

theorem schemaOf_cons (l : List Char) (ls : List (List Char)) :
    schemaOf (l :: ls) =
      if firstToken l = "element" then
        { lineElement l with properties := leadProperties ls } :: schemaOf ls
      else schemaOf ls := rfl

theorem schemaOf_append_element (A : List (List Char)) (e : List Char) (B : List (List Char))
    (he : firstToken e = "element") :
    schemaOf (A ++ e :: B) =
      schemaOf A ++ ({ lineElement e with properties := leadProperties B } :: schemaOf B) := by
  induction A with
  | nil => rw [List.nil_append, schemaOf_cons, if_pos he]; rfl
  | cons a A ih =>
    rw [List.cons_append, schemaOf_cons, schemaOf_cons, ih,
      leadProperties_append_element A e B he]
    split_ifs <;> rfl

/-- C20. After `parseHeader` on a fresh loader the element list is the schema the lines
worked off spell out (all lines before `end_header` when the header is accepted): one
element per `element` line, in the order of the lines, each with the properties of the
`property` lines between its line and the next `element` line (or the end), in order;
and a property is appended to the last element only. -/
theorem C20_schema_order {F : Type} (dev : Device) :
    (parseHeader (Loader.fresh F) dev).2.1.m_elements =
        schemaOf (processedLines false (QIODevice.lines dev))
    ∧ ((parseHeader (Loader.fresh F) dev).1 = true →
        (parseHeader (Loader.fresh F) dev).2.1.m_elements =
          schemaOf (headerPart (QIODevice.lines dev)))
    ∧ (∀ (A : List (List Char)) (e : List Char) (B : List (List Char)),
        firstToken e = "element" →
        schemaOf (A ++ e :: B) =
          schemaOf A ++
            ({ headerElement (afterFirstToken e) with
                properties :=
                  ((B.takeWhile (fun l => decide (firstToken l ≠ "element"))).filter
                    (fun l => decide (firstToken l = "property"))).map
                    (fun l => headerProperty (afterFirstToken l)) } :: schemaOf B))
    ∧ (∀ (p : Property) (es : List Element) (e : Element),
        appendToLast p (es ++ [e]) = es ++ [{ e with properties := e.properties ++ [p] }]) := by
  obtain ⟨a, _, _, _, e⟩ := headerLoop_result (QIODevice.lines dev)
    { Loader.fresh F with m_hasNormals := false, m_hasTexCoords := false }
  have hP : decide ((Loader.fresh F).m_elements ≠ []) = false := by simp [Loader.fresh]
  simp only [hP] at a e
  have h1 : (parseHeader (Loader.fresh F) dev).2.1.m_elements =
      schemaOf (processedLines false (QIODevice.lines dev)) := by
    rw [parseHeader_loader, a]
    simp [Loader.fresh, addProperties_nil]
  refine ⟨h1, ?_, ?_, fun p es e => appendToLast_append p e es⟩
  · intro h
    rw [h1, e (parseHeader_true_loop _ dev h)]
  · intro A e B he
    exact schemaOf_append_element A e B he

/-- C20, on the stream of the scenario: the schema is the vertex element with the
properties `x`, `y`, `z` followed by the face element with the list property. -/
theorem C20_schema_order_witness :
    (parseHeader (Loader.fresh Int) scenarioStream).2.1.m_elements =
      [{ type := ElementVertex
         count := 3
         properties :=
           [{ type := PropertyX, dataType := DataType.Float32 },
            { type := PropertyY, dataType := DataType.Float32 },
            { type := PropertyZ, dataType := DataType.Float32 }] },
       faceElement 1] :=
  ((C20_schema_order (F := Int) scenarioStream).2.1 (by decide)).trans (by decide)

/-! ## Vertex routing and the index buffer -/

theorem lastValue_cons {F : Type} (role : PropertyType) (default : F) (r : PropertyType)
    (v : F) (values : List (PropertyType × F)) :
    lastValue role default ((r, v) :: values)
      = lastValue role (if r = role then v else default) values := rfl

theorem readProperty_list {F : Type} (rd : PlyDataReader F) (type : ElementType)
    (p : Property) (a : Instance F) (dev : Device) (h : p.dataType = DataType.TypeList) :
    (readProperty rd type p a dev).1.point = a.point
    ∧ (readProperty rd type p a dev).1.normal = a.normal
    ∧ (readProperty rd type p a dev).1.texCoord = a.texCoord := by
  unfold readProperty
  rw [if_pos h]
  exact ⟨rfl, rfl, rfl⟩

theorem readProperty_scalar {F : Type} (rd : PlyDataReader F) (p : Property)
    (a : Instance F) (dev : Device) (h : p.dataType ≠ DataType.TypeList) :
    (readProperty rd ElementVertex p a dev).1
      = routeValue p.type (rd.readFloatValue p.dataType dev).1 a := by
  unfold readProperty
  rw [if_neg h]
  rfl

theorem routeValue_components {F : Type} (role : PropertyType) (v : F) (a : Instance F) :
    (routeValue role v a).point.x = (if role = PropertyX then v else a.point.x)
    ∧ (routeValue role v a).point.y = (if role = PropertyY then v else a.point.y)
    ∧ (routeValue role v a).point.z = (if role = PropertyZ then v else a.point.z)
    ∧ (routeValue role v a).normal.x = (if role = PropertyNormalX then v else a.normal.x)
    ∧ (routeValue role v a).normal.y = (if role = PropertyNormalY then v else a.normal.y)
    ∧ (routeValue role v a).normal.z = (if role = PropertyNormalZ then v else a.normal.z)
    ∧ (routeValue role v a).texCoord.x = (if role = PropertyTextureU then v else a.texCoord.x)
    ∧ (routeValue role v a).texCoord.y = (if role = PropertyTextureV then v else a.texCoord.y) := by
  cases role <;> exact ⟨rfl, rfl, rfl, rfl, rfl, rfl, rfl, rfl⟩

/-- The locals of a vertex after the property loop: every component holds the last value
read for its role, or what it held before. -/
theorem readProperties_vertex {F : Type} (rd : PlyDataReader F) :
    ∀ (ps : List Property) (a : Instance F) (dev : Device),
      (readProperties rd ElementVertex ps a dev).1.point =
          ⟨lastValue PropertyX a.point.x (scalarValues rd ElementVertex ps a dev),
           lastValue PropertyY a.point.y (scalarValues rd ElementVertex ps a dev),
           lastValue PropertyZ a.point.z (scalarValues rd ElementVertex ps a dev)⟩
      ∧ (readProperties rd ElementVertex ps a dev).1.normal =
          ⟨lastValue PropertyNormalX a.normal.x (scalarValues rd ElementVertex ps a dev),
           lastValue PropertyNormalY a.normal.y (scalarValues rd ElementVertex ps a dev),
           lastValue PropertyNormalZ a.normal.z (scalarValues rd ElementVertex ps a dev)⟩
      ∧ (readProperties rd ElementVertex ps a dev).1.texCoord =
          ⟨lastValue PropertyTextureU a.texCoord.x (scalarValues rd ElementVertex ps a dev),
           lastValue PropertyTextureV a.texCoord.y (scalarValues rd ElementVertex ps a dev)⟩ := by
  intro ps
  induction ps with
  | nil => intro a dev; exact ⟨rfl, rfl, rfl⟩
  | cons p ps ih =>
    intro a dev
    rw [readProperties_cons]
    have h := ih (readProperty rd ElementVertex p a dev).1 (readProperty rd ElementVertex p a dev).2
    by_cases hl : p.dataType = DataType.TypeList
    · obtain ⟨e1, e2, e3⟩ := readProperty_list rd ElementVertex p a dev hl
      rw [e1, e2, e3] at h
      rw [scalarValues, if_pos hl]
      exact h
    · obtain ⟨c1, c2, c3, c4, c5, c6, c7, c8⟩ :=
        routeValue_components p.type (rd.readFloatValue p.dataType dev).1 a
      rw [← readProperty_scalar rd p a dev hl] at c1 c2 c3 c4 c5 c6 c7 c8
      rw [scalarValues, if_neg hl]
      simp only [lastValue_cons]
      rw [← c1, ← c2, ← c3, ← c4, ← c5, ← c6, ← c7, ← c8]
      exact h

/-- C18. In a pass of the instance loop for a vertex element, the position appended has
as X the value read for the last scalar property of role `PropertyX` in declared order
(`0.0f` if there is none), and likewise Y and Z; the normal and the texture coordinate
(appended when their flag is set) are filled the same way from the roles
`PropertyNormalX/Y/Z` and `PropertyTextureU/V`; a value of role unknown or vertex index
changes no local; and the vectors depend on the values read in this pass only, the pass
starting from zero vectors. -/
theorem C18_vertex_routing {F : Type} (fm : FloatModel F) (rd : PlyDataReader F)
    (element : Element) (n : Nat) (L : Loader F) (dev : Device)
    (hv : element.type = ElementVertex) :
    readInstances fm rd element (n + 1) L dev =
      readInstances fm rd element n
        { L with
          m_points := L.m_points ++
            [vertexPoint fm
              (scalarValues rd ElementVertex element.properties (Instance.init fm) dev)]
          m_normals :=
            if L.m_hasNormals then
              L.m_normals ++
                [vertexNormal fm
                  (scalarValues rd ElementVertex element.properties (Instance.init fm) dev)]
            else L.m_normals
          m_texCoords :=
            if L.m_hasTexCoords then
              L.m_texCoords ++
                [vertexTexCoord fm
                  (scalarValues rd ElementVertex element.properties (Instance.init fm) dev)]
            else L.m_texCoords }
        (readProperties rd ElementVertex element.properties (Instance.init fm) dev).2
    ∧ (∀ (v : F) (a : Instance F),
        routeValue PropertyUnknown v a = a ∧ routeValue PropertyVertexIndex v a = a) := by
  refine ⟨?_, fun v a => ⟨rfl, rfl⟩⟩
  obtain ⟨e1, e2, e3⟩ := readProperties_vertex rd element.properties (Instance.init fm) dev
  rw [readInstances_succ, hv]
  congr 1
  simp only [storeInstance, if_true, e1, e2, e3]
  rfl

/-- C18, on two ASCII vertices `1 2 3 4` and `5 6 7 8` of an element with the properties
`x`, unknown, `y`, `x`: the positions are `(4, 3, 0)` and `(8, 7, 0)`. -/
theorem C18_vertex_routing_witness :
    (readInstances FloatModel.integral (AsciiPlyDataReader FloatModel.integral)
        (routingElement 2) 2 (Loader.fresh Int) "1 2 3 4\n5 6 7 8\n".toList).1.m_points
      = [⟨4, 3, 0⟩, ⟨8, 7, 0⟩] := by
  rw [(C18_vertex_routing FloatModel.integral (AsciiPlyDataReader FloatModel.integral)
      (routingElement 2) 1 (Loader.fresh Int) "1 2 3 4\n5 6 7 8\n".toList rfl).1]
  decide

theorem appendFace_length (f indices : List Nat) :
    (appendFace f indices).length = indices.length + 3 * (f.length - 2) := by
  by_cases h : 3 ≤ f.length
  · rw [appendFace_eq f indices h, List.length_append, fanTriangles_length]
  · rw [appendFace_short f indices (by omega)]
    have : f.length - 2 = 0 := by omega
    rw [this]
    rfl

theorem storeInstance_indices {F : Type} (type : ElementType) (a : Instance F) (L : Loader F) :
    (storeInstance type a L).m_indices =
      if type = ElementFace then appendFace a.faceIndices L.m_indices else L.m_indices := by
  unfold storeInstance
  by_cases hv : type = ElementVertex
  · have hf : type ≠ ElementFace := by rw [hv]; decide
    rw [if_pos hv, if_neg hf]
  · rw [if_neg hv]
    by_cases hf : type = ElementFace
    · rw [if_pos hf, if_pos hf]
    · rw [if_neg hf, if_neg hf]

theorem readInstances_indices {F : Type} (fm : FloatModel F) (rd : PlyDataReader F)
    (element : Element) :
    ∀ (n : Nat) (L : Loader F) (dev : Device),
      (readInstances fm rd element n L dev).1.m_indices.length =
        L.m_indices.length + 3 *
          (((if element.type = ElementFace then instanceFaces fm rd element n dev else []).map
            (fun f => f.length - 2)).sum) := by
  intro n
  induction n with
  | zero =>
    intro L dev
    by_cases hf : element.type = ElementFace <;> simp [readInstances, instanceFaces, hf]
  | succ n ih =>
    intro L dev
    rw [readInstances_succ, ih, storeInstance_indices]
    by_cases hf : element.type = ElementFace
    · simp only [hf, if_true, instanceFaces, List.map_cons, List.sum_cons, appendFace_length]
      ring
    · simp only [hf, if_false, List.map_nil, List.sum_nil]

theorem collectedFaces_cons {F : Type} (fm : FloatModel F) (rd : PlyDataReader F)
    (e : Element) (es : List Element) (L : Loader F) (dev : Device) :
    collectedFaces fm rd (e :: es) L dev =
      (if e.type = ElementFace then instanceFaces fm rd e e.count.toNat dev else []) ++
        collectedFaces fm rd es (readInstances fm rd e e.count.toNat L dev).1
          (readInstances fm rd e e.count.toNat L dev).2 := rfl

theorem readElements_indices {F : Type} (fm : FloatModel F) (rd : PlyDataReader F) :
    ∀ (es : List Element) (L : Loader F) (dev : Device),
      (readElements fm rd es L dev).1.m_indices.length =
        L.m_indices.length + 3 *
          ((collectedFaces fm rd es L dev).map (fun f => f.length - 2)).sum := by
  intro es
  induction es with
  | nil => intro L dev; simp [readElements, collectedFaces]
  | cons e es ih =>
    intro L dev
    rw [readElements_cons, ih, readInstances_indices, collectedFaces_cons, List.map_append,
      List.sum_append]
    ring

/-- C19. For every loader (schema) and every device, the index buffer after `parseMesh`
is longer than before by 3 times the sum, over the instances of the face elements, of
`n - 2` (0 when `n < 2`), `n` being the number of indices collected for the instance; so
its length stays a multiple of 3 when it was one, and starting from an empty buffer it
is 3 times that sum. -/
theorem C19_index_buffer_multiple_of_three {F : Type} (fm : FloatModel F) (L : Loader F)
    (dev : Device) :
    (parseMesh fm L dev).2.1.m_indices.length =
        L.m_indices.length + 3 *
          ((collectedFaces fm (dataReader fm L.m_format) L.m_elements L dev).map
            (fun f => f.length - 2)).sum
    ∧ (L.m_indices.length % 3 = 0 → (parseMesh fm L dev).2.1.m_indices.length % 3 = 0)
    ∧ (L.m_indices = [] →
        (parseMesh fm L dev).2.1.m_indices.length =
          3 * ((collectedFaces fm (dataReader fm L.m_format) L.m_elements L dev).map
            (fun f => f.length - 2)).sum) := by
  have h : (parseMesh fm L dev).2.1.m_indices.length =
      L.m_indices.length + 3 *
        ((collectedFaces fm (dataReader fm L.m_format) L.m_elements L dev).map
          (fun f => f.length - 2)).sum := by
    rw [parseMesh_eq]
    exact readElements_indices fm _ _ L dev
  refine ⟨h, ?_, ?_⟩
  · intro h3
    rw [h]
    omega
  · intro h0
    rw [h, h0]
    simp

/-- C19, on the faces `2 4 6`, `4 2 5 7 9` and `3 0 1 2` of an ASCII face element: the
collected lists have 2, 4 and 3 indices and the buffer gets `3 * (0 + 2 + 1) = 9`
indices. -/
theorem C19_index_buffer_multiple_of_three_witness :
    (collectedFaces FloatModel.integral (AsciiPlyDataReader FloatModel.integral) [faceElement 3]
        { Loader.fresh Int with m_format := FormatAscii, m_elements := [faceElement 3] }
        "2 4 6\n4 2 5 7 9\n3 0 1 2\n".toList) = [[4, 6], [2, 5, 7, 9], [0, 1, 2]]
    ∧ (parseMesh FloatModel.integral
        { Loader.fresh Int with m_format := FormatAscii, m_elements := [faceElement 3] }
        "2 4 6\n4 2 5 7 9\n3 0 1 2\n".toList).2.1.m_indices.length = 9 :=
  ⟨by decide,
    ((C19_index_buffer_multiple_of_three FloatModel.integral
      { Loader.fresh Int with m_format := FormatAscii, m_elements := [faceElement 3] }
      "2 4 6\n4 2 5 7 9\n3 0 1 2\n".toList).2.2 rfl).trans (by decide)⟩

/-! ## Byte-order symmetry of the binary readers -/

theorem encodeFields_nil (order : ByteOrder) : encodeFields order [] = [] := rfl

theorem encodeFields_cons (order : ByteOrder) (f : Nat × Nat) (fs : List (Nat × Nat)) :
    encodeFields order (f :: fs) = encodeField order f.1 f.2 ++ encodeFields order fs := rfl

theorem encodeFields_append (order : ByteOrder) (fs gs : List (Nat × Nat)) :
    encodeFields order (fs ++ gs) = encodeFields order fs ++ encodeFields order gs := by
  simp [encodeFields]

theorem encodeField_zero (order : ByteOrder) (v : Nat) : encodeField order 0 v = [] := by
  cases order <;> rfl

theorem readBits_zero (order : ByteOrder) (dev : Device) : readBits order 0 dev = (0, dev) := by
  cases order <;> simp [readBits, readBlock, fromBytes]

theorem readValue_eq_decodeBits {T : Type} (ofInt : Int → T) (ofFloat ofDouble : Nat → T)
    (order : ByteOrder) (type : DataType) (dev : Device) :
    BinaryPlyDataReader.readValue ofInt ofFloat ofDouble order type dev =
      (decodeBits ofInt ofFloat ofDouble type (readBits order (fieldWidth type) dev).1,
        (readBits order (fieldWidth type) dev).2) := by
  cases type
  case TypeList => simp only [fieldWidth, readBits_zero]; rfl
  case TypeUnknown => simp only [fieldWidth, readBits_zero]; rfl
  all_goals rfl

/-- Reading a value of a data type from a field of that type written in the byte order of
the reader gives a value that does not depend on the byte order, and leaves what follows
the field. -/
theorem readValue_encodeField {T : Type} (ofInt : Int → T) (ofFloat ofDouble : Nat → T)
    (order : ByteOrder) (type : DataType) (v : Nat) (rest : Device) :
    BinaryPlyDataReader.readValue ofInt ofFloat ofDouble order type
        (encodeField order (fieldWidth type) v ++ rest) =
      (decodeBits ofInt ofFloat ofDouble type (v % 256 ^ fieldWidth type), rest) := by
  rw [readValue_eq_decodeBits, readBits_encodeField]

theorem binary_readIntValue_encodeField {F : Type} (fm : FloatModel F) (order : ByteOrder)
    (type : DataType) (v : Nat) (rest : Device) :
    (BinaryPlyDataReader.mk fm order).readIntValue type
        (encodeField order (fieldWidth type) v ++ rest) =
      (decodeBits toInt32 fm.bits32ToInt fm.bits64ToInt type (v % 256 ^ fieldWidth type), rest) :=
  readValue_encodeField toInt32 fm.bits32ToInt fm.bits64ToInt order type v rest

theorem binary_readFloatValue_encodeField {F : Type} (fm : FloatModel F) (order : ByteOrder)
    (type : DataType) (v : Nat) (rest : Device) :
    (BinaryPlyDataReader.mk fm order).readFloatValue type
        (encodeField order (fieldWidth type) v ++ rest) =
      (decodeBits fm.ofInt fm.ofBits32 fm.ofBits64 type (v % 256 ^ fieldWidth type), rest) :=
  readValue_encodeField fm.ofInt fm.ofBits32 fm.ofBits64 order type v rest

theorem readListValues_succ {F : Type} (rd : PlyDataReader F) (type : ElementType)
    (listElementType : DataType) (n : Nat) (faceIndices : List Nat) (dev : Device) :
    readListValues rd type listElementType (n + 1) faceIndices dev =
      readListValues rd type listElementType n
        (if type = ElementFace then
          faceIndices ++ [toUInt32 (rd.readIntValue listElementType dev).1]
        else faceIndices)
        (rd.readIntValue listElementType dev).2 := by
  rw [readListValues]

theorem readProperty_eq {F : Type} (rd : PlyDataReader F) (type : ElementType) (p : Property)
    (a : Instance F) (dev : Device) :
    readProperty rd type p a dev =
      if p.dataType = DataType.TypeList then
        ({ a with
            faceIndices :=
              (readListValues rd type p.listElementType
                (rd.readIntValue p.listSizeType dev).1.toNat a.faceIndices
                (rd.readIntValue p.listSizeType dev).2).1 },
          (readListValues rd type p.listElementType
            (rd.readIntValue p.listSizeType dev).1.toNat a.faceIndices
            (rd.readIntValue p.listSizeType dev).2).2)
      else
        (if type = ElementVertex then
            routeValue p.type (rd.readFloatValue p.dataType dev).1 a
          else a,
          (rd.readFloatValue p.dataType dev).2) := by
  unfold readProperty
  by_cases hl : p.dataType = DataType.TypeList
  · rw [if_pos hl, if_pos hl]
  · rw [if_neg hl, if_neg hl]
    by_cases hv : type = ElementVertex
    · simp only [hv, if_true]
    · simp only [hv, if_false]

theorem readListValues_symmetric {F : Type} (fm : FloatModel F) (type : ElementType)
    (t : DataType) (o1 o2 : ByteOrder) :
    ∀ (n : Nat) (vs faceIndices : List Nat) (r1 r2 : Device),
      ∃ X : List Nat,
        readListValues (BinaryPlyDataReader.mk fm o1) type t n faceIndices
            (encodeFields o1 (layoutList t n vs).1 ++ r1) = (X, r1)
        ∧ readListValues (BinaryPlyDataReader.mk fm o2) type t n faceIndices
            (encodeFields o2 (layoutList t n vs).1 ++ r2) = (X, r2) := by
  intro n
  induction n with
  | zero =>
    intro vs faceIndices r1 r2
    exact ⟨faceIndices, rfl, rfl⟩
  | succ n ih =>
    intro vs faceIndices r1 r2
    simp only [layoutList, encodeFields_cons, List.append_assoc, readListValues_succ,
      binary_readIntValue_encodeField]
    exact ih _ _ _ _

theorem readProperty_symmetric {F : Type} (fm : FloatModel F) (type : ElementType)
    (p : Property) (o1 o2 : ByteOrder) (a : Instance F) (vs : List Nat) (r1 r2 : Device) :
    ∃ X : Instance F,
      readProperty (BinaryPlyDataReader.mk fm o1) type p a
          (encodeFields o1 (layoutProperty fm p vs).1 ++ r1) = (X, r1)
      ∧ readProperty (BinaryPlyDataReader.mk fm o2) type p a
          (encodeFields o2 (layoutProperty fm p vs).1 ++ r2) = (X, r2) := by
  by_cases hl : p.dataType = DataType.TypeList
  · simp only [layoutProperty, if_pos hl, encodeFields_cons, List.append_assoc, readProperty_eq,
      binary_readIntValue_encodeField]
    obtain ⟨X, h1, h2⟩ := readListValues_symmetric fm type p.listElementType o1 o2
      (decodeBits toInt32 fm.bits32ToInt fm.bits64ToInt p.listSizeType
        (vs.headD 0 % 256 ^ fieldWidth p.listSizeType)).toNat vs.tail a.faceIndices r1 r2
    rw [h1, h2]
    exact ⟨{ a with faceIndices := X }, rfl, rfl⟩
  · simp only [layoutProperty, if_neg hl, encodeFields_cons, encodeFields_nil, List.append_nil,
      readProperty_eq, binary_readFloatValue_encodeField]
    exact ⟨_, rfl, rfl⟩

theorem readProperties_symmetric {F : Type} (fm : FloatModel F) (type : ElementType)
    (o1 o2 : ByteOrder) :
    ∀ (ps : List Property) (a : Instance F) (vs : List Nat) (r1 r2 : Device),
      ∃ X : Instance F,
        readProperties (BinaryPlyDataReader.mk fm o1) type ps a
            (encodeFields o1 (layoutProperties fm ps vs).1 ++ r1) = (X, r1)
        ∧ readProperties (BinaryPlyDataReader.mk fm o2) type ps a
            (encodeFields o2 (layoutProperties fm ps vs).1 ++ r2) = (X, r2) := by
  intro ps
  induction ps with
  | nil => intro a vs r1 r2; exact ⟨a, rfl, rfl⟩
  | cons p ps ih =>
    intro a vs r1 r2
    obtain ⟨X, h1, h2⟩ := readProperty_symmetric fm type p o1 o2 a vs
      (encodeFields o1 (layoutProperties fm ps (layoutProperty fm p vs).2).1 ++ r1)
      (encodeFields o2 (layoutProperties fm ps (layoutProperty fm p vs).2).1 ++ r2)
    simp only [layoutProperties, encodeFields_append, List.append_assoc, readProperties_cons,
      h1, h2]
    exact ih X _ r1 r2

theorem storeInstance_sameGeometry {F : Type} (type : ElementType) (a : Instance F)
    (L M : Loader F) (h : SameGeometry L M) :
    SameGeometry (storeInstance type a L) (storeInstance type a M) := by
  obtain ⟨h1, h2, h3, h4, h5, h6, h7⟩ := h
  unfold storeInstance SameGeometry
  by_cases hv : type = ElementVertex
  · simp only [hv, if_true, h1, h2, h3, h4, h5, h6, h7, and_self]
  · by_cases hf : type = ElementFace
    · simp only [hf, if_true, h1, h2, h3, h4, h5, h6, h7, and_self]
      simp
    · simp only [hv, hf, if_false, h1, h2, h3, h4, h5, h6, h7, and_self]

theorem readInstances_symmetric {F : Type} (fm : FloatModel F) (element : Element)
    (o1 o2 : ByteOrder) :
    ∀ (n : Nat) (vs : List Nat) (L M : Loader F) (r1 r2 : Device), SameGeometry L M →
      SameGeometry
          (readInstances fm (BinaryPlyDataReader.mk fm o1) element n L
            (encodeFields o1 (layoutInstances fm element.properties n vs).1 ++ r1)).1
          (readInstances fm (BinaryPlyDataReader.mk fm o2) element n M
            (encodeFields o2 (layoutInstances fm element.properties n vs).1 ++ r2)).1
      ∧ (readInstances fm (BinaryPlyDataReader.mk fm o1) element n L
            (encodeFields o1 (layoutInstances fm element.properties n vs).1 ++ r1)).2 = r1
      ∧ (readInstances fm (BinaryPlyDataReader.mk fm o2) element n M
            (encodeFields o2 (layoutInstances fm element.properties n vs).1 ++ r2)).2 = r2 := by
  intro n
  induction n with
  | zero => intro vs L M r1 r2 h; exact ⟨h, rfl, rfl⟩
  | succ n ih =>
    intro vs L M r1 r2 h
    obtain ⟨X, h1, h2⟩ := readProperties_symmetric fm element.type o1 o2 element.properties
      (Instance.init fm) vs
      (encodeFields o1
        (layoutInstances fm element.properties n (layoutProperties fm element.properties vs).2).1
        ++ r1)
      (encodeFields o2
        (layoutInstances fm element.properties n (layoutProperties fm element.properties vs).2).1
        ++ r2)
    simp only [layoutInstances, encodeFields_append, List.append_assoc, readInstances_succ,
      h1, h2]
    exact ih _ _ _ r1 r2 (storeInstance_sameGeometry element.type X L M h)

theorem readElements_symmetric {F : Type} (fm : FloatModel F) (o1 o2 : ByteOrder) :
    ∀ (es : List Element) (vs : List Nat) (L M : Loader F) (r1 r2 : Device),
      SameGeometry L M →
      SameGeometry
          (readElements fm (BinaryPlyDataReader.mk fm o1) es L
            (encodeFields o1 (layoutElements fm es vs).1 ++ r1)).1
          (readElements fm (BinaryPlyDataReader.mk fm o2) es M
            (encodeFields o2 (layoutElements fm es vs).1 ++ r2)).1
      ∧ (readElements fm (BinaryPlyDataReader.mk fm o1) es L
            (encodeFields o1 (layoutElements fm es vs).1 ++ r1)).2 = r1
      ∧ (readElements fm (BinaryPlyDataReader.mk fm o2) es M
            (encodeFields o2 (layoutElements fm es vs).1 ++ r2)).2 = r2 := by
  intro es
  induction es with
  | nil => intro vs L M r1 r2 h; exact ⟨h, rfl, rfl⟩
  | cons e es ih =>
    intro vs L M r1 r2 h
    obtain ⟨g, e1, e2⟩ := readInstances_symmetric fm e o1 o2 e.count.toNat vs L M
      (encodeFields o1
        (layoutElements fm es (layoutInstances fm e.properties e.count.toNat vs).2).1 ++ r1)
      (encodeFields o2
        (layoutElements fm es (layoutInstances fm e.properties e.count.toNat vs).2).1 ++ r2) h
    simp only [layoutElements, encodeFields_append, List.append_assoc, readElements_cons, e1, e2]
    exact ih _ _ _ r1 r2 g

theorem encodeField_bigEndian (len v : Nat) :
    encodeField ByteOrder.BigEndian len v = (encodeField ByteOrder.LittleEndian len v).reverse := by
  simp [encodeField, fieldBytes, List.map_reverse]

/-- C11. Byte-order symmetry: for every schema and every sequence of logical field
values, let the body `L` hold the fields of the schema, in decoding order, each written
little-endian, and the body `B` the same fields written big-endian (the bytes of each
field reversed).  Then `parseMesh` with format `binary_little_endian` on `L` and
`parseMesh` with format `binary_big_endian` on `B` leave the same positions, normals,
texture coordinates and indices (floats being equal when their bit patterns are), and
both consume their body entirely. -/
theorem C11_byte_order_symmetry {F : Type} (fm : FloatModel F) (L : Loader F) (vs : List Nat) :
    (∀ len v : Nat,
      encodeField ByteOrder.BigEndian len v = (encodeField ByteOrder.LittleEndian len v).reverse)
    ∧ (parseMesh fm { L with m_format := FormatBinaryLittleEndian }
          (encodeFields ByteOrder.LittleEndian (layoutElements fm L.m_elements vs).1)).2.1.m_points
        = (parseMesh fm { L with m_format := FormatBinaryBigEndian }
          (encodeFields ByteOrder.BigEndian (layoutElements fm L.m_elements vs).1)).2.1.m_points
    ∧ (parseMesh fm { L with m_format := FormatBinaryLittleEndian }
          (encodeFields ByteOrder.LittleEndian (layoutElements fm L.m_elements vs).1)).2.1.m_normals
        = (parseMesh fm { L with m_format := FormatBinaryBigEndian }
          (encodeFields ByteOrder.BigEndian (layoutElements fm L.m_elements vs).1)).2.1.m_normals
    ∧ (parseMesh fm { L with m_format := FormatBinaryLittleEndian }
          (encodeFields ByteOrder.LittleEndian
            (layoutElements fm L.m_elements vs).1)).2.1.m_texCoords
        = (parseMesh fm { L with m_format := FormatBinaryBigEndian }
          (encodeFields ByteOrder.BigEndian (layoutElements fm L.m_elements vs).1)).2.1.m_texCoords
    ∧ (parseMesh fm { L with m_format := FormatBinaryLittleEndian }
          (encodeFields ByteOrder.LittleEndian (layoutElements fm L.m_elements vs).1)).2.1.m_indices
        = (parseMesh fm { L with m_format := FormatBinaryBigEndian }
          (encodeFields ByteOrder.BigEndian (layoutElements fm L.m_elements vs).1)).2.1.m_indices
    ∧ (parseMesh fm { L with m_format := FormatBinaryLittleEndian }
          (encodeFields ByteOrder.LittleEndian (layoutElements fm L.m_elements vs).1)).2.2 = []
    ∧ (parseMesh fm { L with m_format := FormatBinaryBigEndian }
          (encodeFields ByteOrder.BigEndian (layoutElements fm L.m_elements vs).1)).2.2 = [] := by
  have hg : SameGeometry { L with m_format := FormatBinaryLittleEndian }
      { L with m_format := FormatBinaryBigEndian } := ⟨rfl, rfl, rfl, rfl, rfl, rfl, rfl⟩
  obtain ⟨⟨_, _, _, g4, g5, g6, g7⟩, e1, e2⟩ :=
    readElements_symmetric fm ByteOrder.LittleEndian ByteOrder.BigEndian L.m_elements vs
      { L with m_format := FormatBinaryLittleEndian }
      { L with m_format := FormatBinaryBigEndian } [] [] hg
  simp only [List.append_nil] at g4 g5 g6 g7 e1 e2
  rw [parseMesh_eq, parseMesh_eq]
  exact ⟨encodeField_bigEndian, g4, g5, g6, g7, e1, e2⟩

/-- C11, on a vertex with `x` of bit pattern `3f800000` and a face of the three
`uint16` indices `0102`, `0304`, `0506`: the two bodies differ, and both give the
position of pattern `3f800000` and the indices 258, 772, 1286. -/
theorem C11_byte_order_symmetry_witness :
    encodeFields ByteOrder.LittleEndian
        (layoutElements FloatModel.integral binaryElements [1065353216, 3, 258, 772, 1286]).1
      = [0, 0, 128, 63, 3, 2, 1, 4, 3, 6, 5].map Char.ofNat
    ∧ encodeFields ByteOrder.BigEndian
        (layoutElements FloatModel.integral binaryElements [1065353216, 3, 258, 772, 1286]).1
      = [63, 128, 0, 0, 3, 1, 2, 3, 4, 5, 6].map Char.ofNat
    ∧ (parseMesh FloatModel.integral
        { Loader.fresh Int with
          m_elements := binaryElements, m_format := FormatBinaryBigEndian }
        ([63, 128, 0, 0, 3, 1, 2, 3, 4, 5, 6].map Char.ofNat)).2.1.m_points
      = [⟨1065353216, 0, 0⟩]
    ∧ (parseMesh FloatModel.integral
        { Loader.fresh Int with
          m_elements := binaryElements, m_format := FormatBinaryLittleEndian }
        (encodeFields ByteOrder.LittleEndian
          (layoutElements FloatModel.integral binaryElements
            [1065353216, 3, 258, 772, 1286]).1)).2.1.m_indices
      = [258, 772, 1286] :=
  ⟨by decide, by decide, by decide,
    ((C11_byte_order_symmetry FloatModel.integral
      { Loader.fresh Int with m_elements := binaryElements }
      [1065353216, 3, 258, 772, 1286]).2.2.2.2.1).trans (by decide)⟩

/-! ## Ignored lines, the format of the loader and the end of the header -/

/-- The value `parseHeader` returns, from the result of its loop. -/
theorem parseHeader_result {F : Type} (L : Loader F) (dev : Device) :
    (parseHeader L dev).1 =
      (!(headerLoop { L with m_hasNormals := false, m_hasTexCoords := false }
            (QIODevice.lines dev)).1
        && decide ((headerLoop { L with m_hasNormals := false, m_hasTexCoords := false }
            (QIODevice.lines dev)).2.1.m_format ≠ FormatUnknown)) := by
  unfold parseHeader
  rcases headerLoop { L with m_hasNormals := false, m_hasTexCoords := false }
      (QIODevice.lines dev) with ⟨b, L1, rest⟩
  cases b
  · by_cases h : L1.m_format = FormatUnknown <;> simp [h]
  · simp

/-- The device `parseHeader` leaves: the lines its loop has not read. -/
theorem parseHeader_rest {F : Type} (L : Loader F) (dev : Device) :
    (parseHeader L dev).2.2 =
      (headerLoop { L with m_hasNormals := false, m_hasTexCoords := false }
        (QIODevice.lines dev)).2.2.flatten := by
  unfold parseHeader
  rcases headerLoop { L with m_hasNormals := false, m_hasTexCoords := false }
      (QIODevice.lines dev) with ⟨b, L1, rest⟩
  cases b
  · by_cases h : L1.m_format = FormatUnknown <;> simp [h]
  · rfl

/-- A line whose first token is none of the four keywords, inserted anywhere among the
lines, changes neither the flag nor the loader the loop of `parseHeader` ends with. -/
theorem headerLoop_insert {F : Type} (l : List Char) (B : List (List Char))
    (h1 : firstToken l ≠ "end_header") (h2 : firstToken l ≠ "format")
    (h3 : firstToken l ≠ "element") (h4 : firstToken l ≠ "property") (A : List (List Char)) :
    ∀ L : Loader F,
      (headerLoop L (A ++ l :: B)).1 = (headerLoop L (A ++ B)).1
      ∧ (headerLoop L (A ++ l :: B)).2.1 = (headerLoop L (A ++ B)).2.1 := by
  induction A with
  | nil =>
    intro L
    have step : headerLoop L (l :: B) = headerLoop L B := by
      rw [headerLoop, headerLine_other L l h1 h2 h3 h4]
    rw [List.nil_append, List.nil_append, step]
    exact ⟨rfl, rfl⟩
  | cons a A ih =>
    intro L
    rw [List.cons_append, List.cons_append, headerLoop, headerLoop]
    cases hs : headerLine L a with
    | next L1 => exact ih L1
    | stop L1 => exact ⟨rfl, rfl⟩
    | fail L1 => exact ⟨rfl, rfl⟩

/-- The lines after an `end_header` line change neither the flag nor the loader the
loop of `parseHeader` ends with. -/
theorem headerLoop_after_end {F : Type} (e : List Char) (B B' : List (List Char))
    (he : firstToken e = "end_header") (A : List (List Char)) :
    ∀ L : Loader F,
      (headerLoop L (A ++ e :: B')).1 = (headerLoop L (A ++ e :: B)).1
      ∧ (headerLoop L (A ++ e :: B')).2.1 = (headerLoop L (A ++ e :: B)).2.1 := by
  induction A with
  | nil =>
    intro L
    rw [List.nil_append, List.nil_append, headerLoop, headerLoop, headerLine_end L e he]
    exact ⟨rfl, rfl⟩
  | cons a A ih =>
    intro L
    rw [List.cons_append, List.cons_append, headerLoop, headerLoop]
    cases hs : headerLine L a with
    | next L1 => exact ih L1
    | stop L1 => exact ⟨rfl, rfl⟩
    | fail L1 => exact ⟨rfl, rfl⟩

/-- The loop of `parseHeader` never reads a line after an `end_header` line. -/
theorem headerLoop_rest_suffix {F : Type} (e : List Char) (B : List (List Char))
    (he : firstToken e = "end_header") (A : List (List Char)) :
    ∀ L : Loader F, ∃ more, (headerLoop L (A ++ e :: B)).2.2 = more ++ B := by
  induction A with
  | nil =>
    intro L
    rw [List.nil_append, headerLoop, headerLine_end L e he]
    exact ⟨[], rfl⟩
  | cons a A ih =>
    intro L
    rw [List.cons_append, headerLoop]
    cases hs : headerLine L a with
    | next L1 => exact ih L1
    | stop L1 => exact ⟨A ++ [e], by simp⟩
    | fail L1 => exact ⟨A ++ [e], by simp⟩

/-- The body of the header loop executes `break` only for an `end_header` line. -/
theorem headerLine_stop {F : Type} (L L1 : Loader F) (l : List Char)
    (h : headerLine L l = HeaderStep.stop L1) : firstToken l = "end_header" := by
  by_contra h1
  rw [headerLine_eq, if_neg h1] at h
  by_cases h2 : firstToken l = "format"
  · rw [if_pos h2, headerFormat_eq] at h
    split_ifs at h
  · rw [if_neg h2] at h
    split_ifs at h

/-- When the loop of `parseHeader` does not return inside, it has read the lines up to
and including the first `end_header` line and no line after it. -/
theorem headerLoop_rest {F : Type} (e : List Char) (B : List (List Char))
    (he : firstToken e = "end_header") (A : List (List Char))
    (hA : ∀ a ∈ A, firstToken a ≠ "end_header") :
    ∀ L : Loader F, (headerLoop L (A ++ e :: B)).1 = false →
      (headerLoop L (A ++ e :: B)).2.2 = B := by
  induction A with
  | nil =>
    intro L _
    rw [List.nil_append, headerLoop, headerLine_end L e he]
  | cons a A ih =>
    intro L
    rw [List.cons_append, headerLoop]
    cases hs : headerLine L a with
    | next L1 => exact ih (fun x hx => hA x (List.mem_cons_of_mem _ hx)) L1
    | stop L1 =>
      exact absurd (headerLine_stop L L1 a hs) (hA a (List.mem_cons_self _ _))
    | fail L1 => intro hf; exact absurd hf (Bool.noConfusion)

/-- When the loop of `parseHeader` returns `false` inside: at a `format` line with an
unrecognised name or at a `property` line before which no element was started. -/
theorem headerLoop_returns_iff {F : Type} (ls : List (List Char)) :
    ∀ L : Loader F,
      (headerLoop L ls).1 = true ↔
        ((∃ l ∈ headerPart ls, firstToken l = "format" ∧ ¬ recognisedFormat (secondToken l))
          ∨ (L.m_elements = [] ∧ misplacedProperty (headerPart ls))) := by
  induction ls with
  | nil =>
    intro L
    simp [headerLoop, headerPart_nil, misplacedProperty_nil]
  | cons l ls ih =>
    intro L
    by_cases h1 : firstToken l = "end_header"
    · simp [headerLoop, headerLine_end L l h1, headerPart_cons_end l ls h1, misplacedProperty_nil]
    · rw [headerPart_cons l ls h1, misplacedProperty_cons]
      by_cases h2 : firstToken l = "format"
      · have hp : firstToken l ≠ "property" := by rw [h2]; decide
        have hel : firstToken l ≠ "element" := by rw [h2]; decide
        by_cases hg : recognisedFormat (secondToken l)
        · obtain ⟨f, _, e⟩ := headerLine_format_good L l h2 hg
          have step : headerLoop L (l :: ls) = headerLoop { L with m_format := f } ls := by
            rw [headerLoop, e]
          rw [step, ih]
          simp [h2, hg, hp, hel]
        · have step : headerLoop L (l :: ls) = (true, L, ls) := by
            rw [headerLoop, headerLine_format_bad L l h2 hg]
          rw [step]
          simp [h2, hg]
      · by_cases h3 : firstToken l = "element"
        · have hp : firstToken l ≠ "property" := by rw [h3]; decide
          have step : headerLoop L (l :: ls) =
              headerLoop
                { L with m_elements := L.m_elements ++ [headerElement (afterFirstToken l)] } ls := by
            rw [headerLoop, headerLine_element L l h3]
          rw [step, ih]
          simp [h2, h3, hp]
        · by_cases h4 : firstToken l = "property"
          · by_cases hn : L.m_elements = []
            · have step : headerLoop L (l :: ls) = (true, L, ls) := by
                rw [headerLoop, headerLine_property_misplaced L l h4 hn]
              rw [step]
              simp [h4, hn]
            · have step : headerLoop L (l :: ls) =
                  headerLoop
                    { L with
                      m_elements := appendToLast (headerProperty (afterFirstToken l)) L.m_elements
                      m_hasNormals :=
                        L.m_hasNormals || isNormalRole (headerProperty (afterFirstToken l)).type
                      m_hasTexCoords :=
                        L.m_hasTexCoords
                          || isTexCoordRole (headerProperty (afterFirstToken l)).type } ls := by
                rw [headerLoop, headerLine_property L l h4 hn]
              rw [step, ih]
              simp [h2, hn, appendToLast_ne_nil _ _ hn]
          · have step : headerLoop L (l :: ls) = headerLoop L ls := by
              rw [headerLoop, headerLine_other L l h1 h2 h3 h4]
            rw [step, ih]
            simp [h2, h3, h4]

/-- Lines none of which is a `format` line leave the format as it is. -/
theorem formatAfter_no_format (ls : List (List Char)) :
    ∀ f : Format, (∀ l ∈ ls, firstToken l ≠ "format") → formatAfter f ls = f := by
  induction ls with
  | nil => intro f _; rfl
  | cons l ls ih =>
    intro f h
    unfold formatAfter at ih ⊢
    rw [List.foldl_cons, if_neg (h l (List.mem_cons_self _ _))]
    exact ih f (fun x hx => h x (List.mem_cons_of_mem _ hx))

/-- C21. Unknown header directives are ignored: when the lines of a stream are those of
another stream and one more line, put at any place, whose first token is none of
`format`, `element`, `property`, `end_header`, then `parseHeader` returns the same
value for both and leaves the same loader: the same format, the same element list with
its properties, the same flags. -/
theorem C21_unknown_directive_ignored {F : Type} (L : Loader F) (dev dev' : Device)
    (A B : List (List Char)) (l : List Char)
    (hdev : QIODevice.lines dev = A ++ B) (hdev' : QIODevice.lines dev' = A ++ l :: B)
    (h1 : firstToken l ≠ "end_header") (h2 : firstToken l ≠ "format")
    (h3 : firstToken l ≠ "element") (h4 : firstToken l ≠ "property") :
    (parseHeader L dev').1 = (parseHeader L dev).1
    ∧ (parseHeader L dev').2.1 = (parseHeader L dev).2.1
    ∧ (parseHeader L dev').2.1.m_format = (parseHeader L dev).2.1.m_format
    ∧ (parseHeader L dev').2.1.m_elements = (parseHeader L dev).2.1.m_elements
    ∧ (parseHeader L dev').2.1.m_hasNormals = (parseHeader L dev).2.1.m_hasNormals
    ∧ (parseHeader L dev').2.1.m_hasTexCoords = (parseHeader L dev).2.1.m_hasTexCoords := by
  have key := headerLoop_insert l B h1 h2 h3 h4 A
    { L with m_hasNormals := false, m_hasTexCoords := false }
  have hL : (parseHeader L dev').2.1 = (parseHeader L dev).2.1 := by
    rw [parseHeader_loader, parseHeader_loader, hdev, hdev']
    exact key.2
  refine ⟨?_, hL, by rw [hL], by rw [hL], by rw [hL], by rw [hL]⟩
  rw [parseHeader_result, parseHeader_result, hdev, hdev', key.1, key.2]

/-- C21, on the header `format ascii / element vertex 1 / property float nx /
end_header`: a comment line after the first line, an `obj_info` line before the
`end_header` line and a blank line in between change nothing. -/
theorem C21_unknown_directive_ignored_witness :
    (parseHeader (Loader.fresh Int)
        "format ascii\ncomment made by hand\nelement vertex 1\nproperty float nx\nend_header\n".toList).1
      = (parseHeader (Loader.fresh Int)
        "format ascii\nelement vertex 1\nproperty float nx\nend_header\n".toList).1
    ∧ (parseHeader (Loader.fresh Int)
        "format ascii\ncomment made by hand\nelement vertex 1\nproperty float nx\nend_header\n".toList).2.1
      = (parseHeader (Loader.fresh Int)
        "format ascii\nelement vertex 1\nproperty float nx\nend_header\n".toList).2.1
    ∧ (parseHeader (Loader.fresh Int)
        "format ascii\nelement vertex 1\nproperty float nx\nobj_info 7\nend_header\n".toList).2.1
      = (parseHeader (Loader.fresh Int)
        "format ascii\nelement vertex 1\nproperty float nx\nend_header\n".toList).2.1
    ∧ (parseHeader (Loader.fresh Int)
        "format ascii\nelement vertex 1\n\nproperty float nx\nend_header\n".toList).2.1
      = (parseHeader (Loader.fresh Int)
        "format ascii\nelement vertex 1\nproperty float nx\nend_header\n".toList).2.1 :=
  have c := C21_unknown_directive_ignored (Loader.fresh Int)
    "format ascii\nelement vertex 1\nproperty float nx\nend_header\n".toList
    "format ascii\ncomment made by hand\nelement vertex 1\nproperty float nx\nend_header\n".toList
    ["format ascii\n".toList]
    ["element vertex 1\n".toList, "property float nx\n".toList, "end_header\n".toList]
    "comment made by hand\n".toList
    (by decide) (by decide) (by decide) (by decide) (by decide) (by decide)
  have o := C21_unknown_directive_ignored (Loader.fresh Int)
    "format ascii\nelement vertex 1\nproperty float nx\nend_header\n".toList
    "format ascii\nelement vertex 1\nproperty float nx\nobj_info 7\nend_header\n".toList
    ["format ascii\n".toList, "element vertex 1\n".toList, "property float nx\n".toList]
    ["end_header\n".toList] "obj_info 7\n".toList
    (by decide) (by decide) (by decide) (by decide) (by decide) (by decide)
  have b := C21_unknown_directive_ignored (Loader.fresh Int)
    "format ascii\nelement vertex 1\nproperty float nx\nend_header\n".toList
    "format ascii\nelement vertex 1\n\nproperty float nx\nend_header\n".toList
    ["format ascii\n".toList, "element vertex 1\n".toList]
    ["property float nx\n".toList, "end_header\n".toList] "\n".toList
    (by decide) (by decide) (by decide) (by decide) (by decide) (by decide)
  ⟨c.1, c.2.1, o.2.1, b.2.1⟩

/-- C22, the code at the documented names: the name tokens `X`, `Y`, `Z`, `NormalX`,
`NormalY`, `NormalZ`, `TextureU`, `TextureV` all get the role `PropertyUnknown`; the
names the header loop compares with are `x`, `y`, `z`, `nx`, `ny`, `nz`, `s`, `t`.  For
the stream whose header declares `X`, `Y`, `Z`, `NormalX`, `TextureU` on one vertex,
`parseHeader` gives every property the role `PropertyUnknown` and sets no flag, and
`doLoad` stores the vertex `(0, 0, 0)` instead of `(1, 2, 3)`. -/
theorem C22_documented_names_unrecognised :
    propertyRole "X" = PropertyUnknown ∧ propertyRole "Y" = PropertyUnknown
    ∧ propertyRole "Z" = PropertyUnknown ∧ propertyRole "NormalX" = PropertyUnknown
    ∧ propertyRole "NormalY" = PropertyUnknown ∧ propertyRole "NormalZ" = PropertyUnknown
    ∧ propertyRole "TextureU" = PropertyUnknown ∧ propertyRole "TextureV" = PropertyUnknown
    ∧ propertyRole "x" = PropertyX ∧ propertyRole "y" = PropertyY
    ∧ propertyRole "z" = PropertyZ ∧ propertyRole "nx" = PropertyNormalX
    ∧ propertyRole "ny" = PropertyNormalY ∧ propertyRole "nz" = PropertyNormalZ
    ∧ propertyRole "s" = PropertyTextureU ∧ propertyRole "t" = PropertyTextureV
    ∧ (lineProperty "property float X\n".toList).type = PropertyUnknown
    ∧ (lineProperty "property float NormalX\n".toList).type = PropertyUnknown
    ∧ (lineProperty "property float TextureU\n".toList).type = PropertyUnknown
    ∧ (parseHeader (Loader.fresh Int) documentedNamesStream).1 = true
    ∧ ((parseHeader (Loader.fresh Int) documentedNamesStream).2.1.m_elements.map
        (fun e => e.properties.map (fun p => p.type)))
        = [[PropertyUnknown, PropertyUnknown, PropertyUnknown, PropertyUnknown, PropertyUnknown]]
    ∧ (parseHeader (Loader.fresh Int) documentedNamesStream).2.1.m_hasNormals = false
    ∧ (parseHeader (Loader.fresh Int) documentedNamesStream).2.1.m_hasTexCoords = false
    ∧ (doLoad FloatModel.integral (Loader.fresh Int) documentedNamesStream).2.1.m_points
        = [⟨0, 0, 0⟩] := by
  repeat' apply And.intro
  all_goals decide

/-- C24. The loop of `parseHeader` assigns the format only at a `format` line, and the
final check reads the format of the loader: for a loader whose format is already
resolved and a stream whose header part has no `format` line and no misplaced property,
`parseHeader` returns `true` and the loader keeps the format it had. -/
theorem C24_format_not_reset {F : Type} (L : Loader F) (dev : Device)
    (hf : L.m_format ≠ FormatUnknown)
    (hnf : ∀ l ∈ headerPart (QIODevice.lines dev), firstToken l ≠ "format")
    (hmp : L.m_elements = [] → ¬ misplacedProperty (headerPart (QIODevice.lines dev))) :
    (parseHeader L dev).1 = true ∧ (parseHeader L dev).2.1.m_format = L.m_format := by
  have ht : (parseHeader L dev).1 = true := by
    cases hb : (parseHeader L dev).1
    · exfalso
      have key := (parseHeader_false_iff L dev).mp hb
      rw [headerLoop_fails_iff] at key
      rcases key with ⟨l, hl, hfl, _⟩ | ⟨he, hm⟩ | ⟨hu, _⟩
      · exact hnf l hl hfl
      · exact hmp he hm
      · exact hf hu
    · rfl
  refine ⟨ht, ?_⟩
  have hr := headerLoop_result (QIODevice.lines dev)
    { L with m_hasNormals := false, m_hasTexCoords := false }
  rw [parseHeader_loader, hr.2.2.2.1, hr.2.2.2.2 (parseHeader_true_loop L dev ht)]
  exact formatAfter_no_format _ _ hnf

/-- C24, on a loader whose format is `binary_little_endian` and the header `ply /
element vertex 1 / property float x / end_header`: it is accepted and the format
stays. -/
theorem C24_format_not_reset_witness :
    (parseHeader { Loader.fresh Int with m_format := FormatBinaryLittleEndian }
        "ply\nelement vertex 1\nproperty float x\nend_header\n".toList).1 = true
    ∧ (parseHeader { Loader.fresh Int with m_format := FormatBinaryLittleEndian }
        "ply\nelement vertex 1\nproperty float x\nend_header\n".toList).2.1.m_format
      = FormatBinaryLittleEndian :=
  C24_format_not_reset { Loader.fresh Int with m_format := FormatBinaryLittleEndian }
    "ply\nelement vertex 1\nproperty float x\nend_header\n".toList
    (by decide) (by decide)
    (fun _ => by
      rw [show headerPart (QIODevice.lines
            "ply\nelement vertex 1\nproperty float x\nend_header\n".toList)
          = ["ply\n".toList, "element vertex 1\n".toList, "property float x\n".toList]
        from by decide]
      simp only [misplacedProperty_cons, misplacedProperty_nil]
      decide)

/-- C26, refuted: in the stream `format quack / end_header / property float x` the
second line is the first `end_header` line, but `parseHeader` returns `false` at the
first line and leaves the `end_header` line in the stream. -/
theorem C26_failing_line_stops_before_end_header :
    QIODevice.lines "format quack\nend_header\nproperty float x\n".toList
      = ["format quack\n".toList, "end_header\n".toList, "property float x\n".toList]
    ∧ firstToken "format quack\n".toList ≠ "end_header"
    ∧ firstToken "end_header\n".toList = "end_header"
    ∧ (parseHeader (Loader.fresh Int)
        "format quack\nend_header\nproperty float x\n".toList).1 = false
    ∧ (parseHeader (Loader.fresh Int)
        "format quack\nend_header\nproperty float x\n".toList).2.2
      = "end_header\nproperty float x\n".toList := by
  decide

/-- C26, amended. For every stream with a line whose first token is `end_header`, the
first such line being `e` after the lines `A` and before the lines `B`: (a) when no
line of `A` makes `parseHeader` return `false` (no `format` line with an unrecognised
name, no `property` line before any element on a loader without elements),
`parseHeader` consumes the stream up to and including `e` and leaves exactly the
rest; (b) in every case it leaves at least the rest, so it consumes nothing after `e`;
(c) the lines after `e` change neither the value returned nor the loader (format,
element list, flags). -/
theorem C26_stops_at_end_header {F : Type} (L : Loader F) (dev : Device)
    (A B : List (List Char)) (e : List Char)
    (hdev : QIODevice.lines dev = A ++ e :: B)
    (hA : ∀ a ∈ A, firstToken a ≠ "end_header") (he : firstToken e = "end_header") :
    dev = (A ++ [e]).flatten ++ B.flatten
    ∧ ((∀ l ∈ A, firstToken l = "format" → recognisedFormat (secondToken l)) →
        (L.m_elements = [] → ¬ misplacedProperty A) →
        (parseHeader L dev).2.2 = B.flatten)
    ∧ (∃ more, (parseHeader L dev).2.2 = more ++ B.flatten)
    ∧ (∀ (dev' : Device) (B' : List (List Char)), QIODevice.lines dev' = A ++ e :: B' →
        (parseHeader L dev').1 = (parseHeader L dev).1
        ∧ (parseHeader L dev').2.1 = (parseHeader L dev).2.1) := by
  have hpart : headerPart (A ++ e :: B) = A := by
    rw [headerPart_append A _ hA, headerPart_cons_end e B he, List.append_nil]
  refine ⟨?_, ?_, ?_, ?_⟩
  · have h := lines_flatten dev
    rw [hdev] at h
    rw [← h]
    simp
  · intro hfmt hmis
    have hnot : (headerLoop { L with m_hasNormals := false, m_hasTexCoords := false }
        (A ++ e :: B)).1 = false := by
      cases hb : (headerLoop { L with m_hasNormals := false, m_hasTexCoords := false }
          (A ++ e :: B)).1
      · rfl
      · exfalso
        rw [headerLoop_returns_iff, hpart] at hb
        rcases hb with ⟨l, hl, hlf, hlb⟩ | ⟨hn, hm⟩
        · exact hlb (hfmt l hl hlf)
        · exact hmis hn hm
    rw [parseHeader_rest, hdev, headerLoop_rest e B he A hA _ hnot]
  · obtain ⟨more, hmore⟩ := headerLoop_rest_suffix e B he A
      { L with m_hasNormals := false, m_hasTexCoords := false }
    refine ⟨more.flatten, ?_⟩
    rw [parseHeader_rest, hdev, hmore, List.flatten_append]
  · intro dev' B' hdev'
    have key := headerLoop_after_end e B B' he A
      { L with m_hasNormals := false, m_hasTexCoords := false }
    refine ⟨?_, ?_⟩
    · rw [parseHeader_result, parseHeader_result, hdev, hdev', key.1, key.2]
    · rw [parseHeader_loader, parseHeader_loader, hdev, hdev']
      exact key.2

/-- C26, amended, on the stream `format ascii / element vertex 1 / end_header /
property float nx / format quack`: `parseHeader` leaves the two lines after
`end_header` in the stream, and they change nothing: the result and the loader are
those for the stream that ends with `end_header`. -/
theorem C26_stops_at_end_header_witness :
    (parseHeader (Loader.fresh Int)
        "format ascii\nelement vertex 1\nend_header\nproperty float nx\nformat quack\n".toList).2.2
      = "property float nx\nformat quack\n".toList
    ∧ (parseHeader (Loader.fresh Int)
        "format ascii\nelement vertex 1\nend_header\n".toList).1
      = (parseHeader (Loader.fresh Int)
        "format ascii\nelement vertex 1\nend_header\nproperty float nx\nformat quack\n".toList).1
    ∧ (parseHeader (Loader.fresh Int)
        "format ascii\nelement vertex 1\nend_header\n".toList).2.1
      = (parseHeader (Loader.fresh Int)
        "format ascii\nelement vertex 1\nend_header\nproperty float nx\nformat quack\n".toList).2.1 :=
  have h := C26_stops_at_end_header (Loader.fresh Int)
    "format ascii\nelement vertex 1\nend_header\nproperty float nx\nformat quack\n".toList
    ["format ascii\n".toList, "element vertex 1\n".toList]
    ["property float nx\n".toList, "format quack\n".toList] "end_header\n".toList
    (by decide) (by decide) (by decide)
  have a := h.2.1 (by decide) (fun _ => by
    simp only [misplacedProperty_cons, misplacedProperty_nil]
    decide)
  have c := h.2.2.2 "format ascii\nelement vertex 1\nend_header\n".toList [] (by decide)
  ⟨a, c.1, c.2⟩

/-! ## Entries of face lists -/

/-- The entry loop of a face appends the entries to the buffer it is given. -/
theorem readListValues_append {F : Type} (rd : PlyDataReader F) (t : DataType) :
    ∀ (n : Nat) (faceIndices : List Nat) (dev : Device),
      readListValues rd ElementFace t n faceIndices dev =
        (faceIndices ++ (readListValues rd ElementFace t n [] dev).1,
          (readListValues rd ElementFace t n [] dev).2) := by
  intro n
  induction n with
  | zero => intro faceIndices dev; simp [readListValues]
  | succ n ih =>
    intro faceIndices dev
    rw [readListValues_succ, readListValues_succ, if_pos rfl, if_pos rfl, ih,
      ih ([] ++ _)]
    simp

/-- The entry loop of a face appends one entry per pass. -/
theorem readListValues_length {F : Type} (rd : PlyDataReader F) (t : DataType) :
    ∀ (n : Nat) (dev : Device), (readListValues rd ElementFace t n [] dev).1.length = n := by
  intro n
  induction n with
  | zero => intro dev; simp [readListValues]
  | succ n ih =>
    intro dev
    rw [readListValues_succ, if_pos rfl, readListValues_append]
    simp [ih]

theorem listEntries_length {F : Type} (rd : PlyDataReader F) (p : Property) (dev : Device) :
    (listEntries rd p dev).length = listSize rd p dev :=
  readListValues_length rd _ _ _

/-- What the property loop does with a list property of a face: the entries go to the
end of the face-index buffer of the pass. -/
theorem readProperty_face_list {F : Type} (rd : PlyDataReader F) (p : Property)
    (a : Instance F) (dev : Device) (h : p.dataType = DataType.TypeList) :
    readProperty rd ElementFace p a dev =
      ({ a with faceIndices := a.faceIndices ++ listEntries rd p dev }, afterList rd p dev) := by
  rw [readProperty_eq, if_pos h, readListValues_append]
  rfl

/-- The property loop of a face does not look at the role of a property. -/
theorem readProperty_face_role {F : Type} (rd : PlyDataReader F) (p : Property)
    (r : PropertyType) (a : Instance F) (dev : Device) :
    readProperty rd ElementFace { p with type := r } a dev = readProperty rd ElementFace p a dev := by
  rw [readProperty_eq, readProperty_eq]
  have hv : ¬ ElementFace = ElementVertex := by decide
  simp only [hv, if_false]

/-- A list of `Uint32` entries of a face in a binary stream is stored entry by entry
as it was encoded. -/
theorem readListValues_uint32 {F : Type} (fm : FloatModel F) (order : ByteOrder)
    (rest : Device) :
    ∀ (vs faceIndices : List Nat), (∀ v ∈ vs, v < 4294967296) →
      readListValues (BinaryPlyDataReader.mk fm order) ElementFace DataType.Uint32 vs.length
          faceIndices (encodeFields order (vs.map (fun v => (4, v))) ++ rest)
        = (faceIndices ++ vs, rest) := by
  intro vs
  induction vs with
  | nil => intro faceIndices _; simp [readListValues, encodeFields_nil]
  | cons v vs ih =>
    intro faceIndices h
    have hv : v < 4294967296 := h v (List.mem_cons_self _ _)
    have hm : v % 256 ^ 4 = v := Nat.mod_eq_of_lt (by norm_num; exact hv)
    have hr : (BinaryPlyDataReader.mk fm order).readIntValue DataType.Uint32
        (encodeField order 4 v ++ (encodeFields order (vs.map (fun v => (4, v))) ++ rest))
        = (toInt32 (v : Int), encodeFields order (vs.map (fun v => (4, v))) ++ rest) := by
      show BinaryPlyDataReader.readIntValue fm order DataType.Uint32 _ = _
      rw [readIntValue_Uint32, readBits_encodeField, hm]
    rw [List.length_cons, List.map_cons, encodeFields_cons, List.append_assoc,
      readListValues_succ, if_pos rfl, hr]
    simp only
    rw [toUInt32_toInt32 v hv, ih _ (fun x hx => h x (List.mem_cons_of_mem _ hx))]
    simp

/-- The text `-1`, followed by no further digit, read as an `int`. -/
theorem readInt_minus_one (tail : List Char)
    (h : ∀ c ∈ tail.head?, QTextStream.digitValue 10 c = none) :
    QTextStream.readInt ('-' :: '1' :: tail) = (-1, tail) := by
  have hs : QTextStream.scanDigits 10 ('1' :: tail) 0 0 = (1, 1, tail) := by
    have h1 : QTextStream.scanDigits 10 ('1' :: tail) 0 0 = QTextStream.scanDigits 10 tail 1 1 :=
      rfl
    rw [h1]
    cases tail with
    | nil => rfl
    | cons c cs =>
      have hd : QTextStream.digitValue 10 c = none := h c (by simp)
      rw [QTextStream.scanDigits, hd]
  have hg : QTextStream.getNumber ('-' :: '1' :: tail)
      = QTextStream.getDecimal ('-' :: '1' :: tail) := rfl
  have hdec : QTextStream.getDecimal ('-' :: '1' :: tail)
      = (some 18446744073709551615, tail) := by
    rw [getDecimal_cons, hs]
    simp
  rw [QTextStream.readInt, hg, hdec]
  rfl

/-- C23. Face indices survive the signed detour: a list of `Uint32` entries of a face,
each below `2 ^ 32`, encoded in the byte order of the binary reader, is appended to the
face-index buffer entry by entry as encoded, although `readIntValue` hands each entry
over as a signed `int` (`v - 2 ^ 32` when `v ≥ 2 ^ 31`); an ASCII entry `-1` is stored
as `2 ^ 32 - 1`; the conversion to `unsigned int` is the reduction modulo `2 ^ 32`. -/
theorem C23_face_index_survives {F : Type} (fm : FloatModel F) (order : ByteOrder)
    (vs faceIndices : List Nat) (rest : Device) (h : ∀ v ∈ vs, v < 4294967296) :
    readListValues (BinaryPlyDataReader.mk fm order) ElementFace DataType.Uint32 vs.length
        faceIndices (encodeFields order (vs.map (fun v => (4, v))) ++ rest)
      = (faceIndices ++ vs, rest)
    ∧ (∀ v ∈ vs, ∀ tail : Device,
        (BinaryPlyDataReader.mk fm order).readIntValue DataType.Uint32
            (encodeField order 4 v ++ tail) = (toInt32 (v : Int), tail)
        ∧ (2147483648 ≤ v → toInt32 (v : Int) = (v : Int) - 4294967296)
        ∧ toUInt32 (toInt32 (v : Int)) = v)
    ∧ (∀ (t : DataType) (n : Nat) (tail : Device),
        (∀ c ∈ tail.head?, QTextStream.digitValue 10 c = none) →
        readListValues (AsciiPlyDataReader fm) ElementFace t (n + 1) faceIndices
            ('-' :: '1' :: tail)
          = readListValues (AsciiPlyDataReader fm) ElementFace t n
              (faceIndices ++ [4294967295]) tail)
    ∧ (∀ i : Int, ((toUInt32 i : Nat) : Int) = i % 4294967296) := by
  refine ⟨readListValues_uint32 fm order rest vs faceIndices h, ?_, ?_, ?_⟩
  · intro v hv tail
    have hlt : v < 4294967296 := h v hv
    have hm : v % 256 ^ 4 = v := Nat.mod_eq_of_lt (by norm_num; exact hlt)
    refine ⟨?_, fun h1 => toInt32_of_ge v h1 hlt, toUInt32_toInt32 v hlt⟩
    show BinaryPlyDataReader.readIntValue fm order DataType.Uint32 _ = _
    rw [readIntValue_Uint32, readBits_encodeField, hm]
  · intro t n tail htail
    have hr : (AsciiPlyDataReader fm).readIntValue t ('-' :: '1' :: tail) = (-1, tail) :=
      readInt_minus_one tail htail
    rw [readListValues_succ, if_pos rfl, hr]
    rfl
  · intro i
    unfold toUInt32
    exact Int.toNat_of_nonneg (Int.emod_nonneg i (by decide))

/-- C23, on the entries `3000000000, 1, 2` in big-endian order: the buffer of the face
holds them unchanged, and `doLoad` of the binary stream with this face stores the
triangle `3000000000, 1, 2`; the ASCII face `3 -1 0 1` is stored as
`4294967295, 0, 1`. -/
theorem C23_face_index_survives_witness :
    readListValues (BinaryPlyDataReader.mk FloatModel.integral ByteOrder.BigEndian) ElementFace
        DataType.Uint32 3 []
        (encodeFields ByteOrder.BigEndian [(4, 3000000000), (4, 1), (4, 2)] ++ [])
      = ([3000000000, 1, 2], [])
    ∧ (doLoad FloatModel.integral (Loader.fresh Int) bigIndexStream).2.1.m_indices
      = [3000000000, 1, 2]
    ∧ (readInstances FloatModel.integral (AsciiPlyDataReader FloatModel.integral)
        (faceElement 1) 1 (Loader.fresh Int) "3 -1 0 1\n".toList).1.m_indices
      = [4294967295, 0, 1] :=
  ⟨(C23_face_index_survives FloatModel.integral ByteOrder.BigEndian [3000000000, 1, 2] [] []
      (by decide)).1, by decide, by decide⟩

/-- C25. All list properties of a face instance feed one polygon: for a face element
with the two list properties `p` and `q`, whatever their roles, a pass of the instance
loop collects the entries of `p` followed by the entries of `q` in one face-index
buffer, of `a + b` entries for the sizes `a` and `b` read, and appends the fan of this
one polygon to the index buffer: `a + b - 2` triangles when `a + b ≥ 3`.  The result is
the same for every other choice of the two roles. -/
theorem C25_lists_feed_one_polygon {F : Type} (fm : FloatModel F) (rd : PlyDataReader F)
    (element : Element) (p q : Property) (n : Nat) (L : Loader F) (dev : Device)
    (hface : element.type = ElementFace) (hprops : element.properties = [p, q])
    (hp : p.dataType = DataType.TypeList) (hq : q.dataType = DataType.TypeList) :
    (readProperties rd ElementFace [p, q] (Instance.init fm) dev).1.faceIndices
      = listEntries rd p dev ++ listEntries rd q (afterList rd p dev)
    ∧ (listEntries rd p dev ++ listEntries rd q (afterList rd p dev)).length
      = listSize rd p dev + listSize rd q (afterList rd p dev)
    ∧ readInstances fm rd element (n + 1) L dev
      = readInstances fm rd element n
          { L with
            m_indices :=
              appendFace (listEntries rd p dev ++ listEntries rd q (afterList rd p dev))
                L.m_indices }
          (afterList rd q (afterList rd p dev))
    ∧ (3 ≤ listSize rd p dev + listSize rd q (afterList rd p dev) →
        appendFace (listEntries rd p dev ++ listEntries rd q (afterList rd p dev)) L.m_indices
          = L.m_indices
            ++ fanTriangles (listEntries rd p dev ++ listEntries rd q (afterList rd p dev))
        ∧ (fanTriangles (listEntries rd p dev ++ listEntries rd q (afterList rd p dev))).length
          = 3 * (listSize rd p dev + listSize rd q (afterList rd p dev) - 2))
    ∧ (∀ r s : PropertyType,
        readProperties rd ElementFace [{ p with type := r }, { q with type := s }]
            (Instance.init fm) dev
          = readProperties rd ElementFace [p, q] (Instance.init fm) dev) := by
  have hrun : readProperties rd ElementFace [p, q] (Instance.init fm) dev
      = ({ Instance.init fm with
            faceIndices := listEntries rd p dev ++ listEntries rd q (afterList rd p dev) },
          afterList rd q (afterList rd p dev)) := by
    rw [readProperties_cons, readProperty_face_list rd p _ dev hp, readProperties_cons,
      readProperty_face_list rd q _ _ hq]
    rfl
  have hlen : (listEntries rd p dev ++ listEntries rd q (afterList rd p dev)).length
      = listSize rd p dev + listSize rd q (afterList rd p dev) := by
    rw [List.length_append, listEntries_length, listEntries_length]
  refine ⟨by rw [hrun], hlen, ?_, ?_, ?_⟩
  · rw [readInstances_succ, hface, hprops, hrun, storeInstance_face]
  · intro h3
    refine ⟨appendFace_eq _ _ (by rw [hlen]; exact h3), ?_⟩
    rw [fanTriangles_length, hlen]
  · intro r s
    rw [readProperties_cons, readProperty_face_role, readProperties_cons,
      readProperty_face_role, ← readProperties_cons, ← readProperties_cons]

/-- C25, on the ASCII face `2 10 11 2 12 13` of an element with two list properties:
the two lists make the one polygon `10, 11, 12, 13`, which gives the two triangles
`10, 11, 12` and `10, 12, 13`, also through `doLoad`. -/
theorem C25_lists_feed_one_polygon_witness :
    (readProperties (AsciiPlyDataReader FloatModel.integral) ElementFace
        twoListElement.properties (Instance.init FloatModel.integral)
        "2 10 11 2 12 13\n".toList).1.faceIndices = [10, 11, 12, 13]
    ∧ (readInstances FloatModel.integral (AsciiPlyDataReader FloatModel.integral)
        twoListElement 1 (Loader.fresh Int) "2 10 11 2 12 13\n".toList).1.m_indices
      = [10, 11, 12, 10, 12, 13]
    ∧ (doLoad FloatModel.integral (Loader.fresh Int) twoListStream).2.1.m_indices
      = [10, 11, 12, 10, 12, 13] :=
  have h := C25_lists_feed_one_polygon FloatModel.integral
    (AsciiPlyDataReader FloatModel.integral) twoListElement
    { type := PropertyVertexIndex, dataType := TypeList, listSizeType := Uint8,
      listElementType := Int32 }
    { type := PropertyUnknown, dataType := TypeList, listSizeType := Uint8,
      listElementType := Int32 }
    0 (Loader.fresh Int) "2 10 11 2 12 13\n".toList rfl rfl rfl rfl
  ⟨h.1.trans (by decide), (congrArg (fun r => r.1.m_indices) h.2.2.1).trans (by decide),
    by decide⟩

end Qt3DRender
